import Mathlib

/-!
Watchbot: rejection pipeline and activation schedule.

A shallow embedding of `pkg/frame/frame.go`, the filter calls of
`App.NextFrameFromCam` (`pkg/app/app.go`) and the schedule parser and
mutators of `pkg/datastore/schedule.go`, followed by theorems about them.

Conventions of the embedding:

* Go `string` is `String`; string functions work on the list of runes.
* Go `int` is `Int`; the only arithmetic in the embedded code is the
  subtraction in `image.Rectangle.Dx/Dy` and the addition in `utils.GetRect`,
  which wrap at 64 bits (`wrapInt`).
* `[]*Box` is `List Box`.  The filters write only `RejectReason`, and what
  they write depends only on the other fields of the same box, so a loop
  `for _, box := range f.Boxes` that mutates through the pointer is
  `List.map` of its body (also when one pointer occurs twice in the slice).
* Functions of the Go standard library are written out from their
  documented behaviour.  `unicode.ToLower` and `unicode.ToTitle` are exact
  on ASCII; outside ASCII they are table driven in Go and the embedding
  leaves such runes unchanged.  The statements about the parser either
  concern ASCII input or hold whatever the parser returns.
-/

namespace Watchbot

/-! ## Go runtime and standard library -/

/-- Two's-complement wrap of an integer into the range of a 64-bit Go `int`. -/
def wrapInt (x : Int) : Int := (x + 2 ^ 63) % 2 ^ 64 - 2 ^ 63

/-- Decimal rendering used by `strconv.Itoa` and by the `%d` verb. -/
def Itoa (i : Int) : String :=
  if i < 0 then "-" ++ Nat.repr i.natAbs else Nat.repr i.natAbs

/-- The function `unicode.IsSpace`: the Unicode White_Space property. -/
def IsSpace (r : Char) : Bool :=
  let n := r.toNat
  (9 ≤ n && n ≤ 13) || n == 0x20 || n == 0x85 || n == 0xA0 || n == 0x1680 ||
  (0x2000 ≤ n && n ≤ 0x200a) || n == 0x2028 || n == 0x2029 || n == 0x202f ||
  n == 0x205f || n == 0x3000

/-- The function `unicode.ToLower` on the ASCII runes.  A rune outside ASCII
is left as it is, where Go maps it by its case tables (É to é): the
statements that rest on this function are about ASCII text. -/
def unicodeToLower (r : Char) : Char :=
  if 65 ≤ r.toNat ∧ r.toNat ≤ 90 then Char.ofNat (r.toNat + 32) else r

/-- The function `unicode.ToTitle` on the ASCII runes.  A rune outside ASCII
is left as it is, where Go maps it by its case tables. -/
def unicodeToTitle (r : Char) : Char :=
  if 97 ≤ r.toNat ∧ r.toNat ≤ 122 then Char.ofNat (r.toNat - 32) else r

/-- The function `strings.ToLower`: maps `unicode.ToLower` over the runes. -/
def ToLower (s : String) : String := ⟨s.data.map unicodeToLower⟩

/-- The helper `isSeparator` of package `strings`: ASCII alphanumerics and the
underscore are not separators, other ASCII runes are; outside ASCII letters
and digits are not, and of the rest only spaces are. -/
def isSeparator (r : Char) : Bool :=
  let n := r.toNat
  if n ≤ 0x7F then
    !((48 ≤ n && n ≤ 57) || (97 ≤ n && n ≤ 122) || (65 ≤ n && n ≤ 90) || n == 95)
  else IsSpace r

/-- The closure of `strings.Title`, threaded with its captured `prev`. -/
def titleFrom : Char → List Char → List Char
  | _, [] => []
  | prev, r :: rs => (if isSeparator prev then unicodeToTitle r else r) :: titleFrom r rs

/-- The function `strings.Title`. -/
def Title (s : String) : String := ⟨titleFrom ' ' s.data⟩

/-- The function `strings.TrimSpace`. -/
def TrimSpace (s : String) : String :=
  ⟨((s.data.dropWhile IsSpace).reverse.dropWhile IsSpace).reverse⟩

/-- The function `strings.Contains`. -/
def Contains (s substr : String) : Prop := substr.data <:+: s.data

instance (s substr : String) : Decidable (Contains s substr) := by
  unfold Contains; infer_instance

/-! ## Package `image` -/

/-- The type `image.Point`. -/
structure Point where
  X : Int
  Y : Int
  deriving DecidableEq, Repr

/-- The type `image.Rectangle`. -/
structure Rectangle where
  Min : Point
  Max : Point
  deriving DecidableEq, Repr

/-- The method `image.Point.String`. -/
def pointString (p : Point) : String := "(" ++ Itoa p.X ++ "," ++ Itoa p.Y ++ ")"

/-- The method `image.Rectangle.String`, which `%v` prints for a rectangle
and for a pointer to one. -/
def rectangleString (r : Rectangle) : String := pointString r.Min ++ "-" ++ pointString r.Max

/-- The method `image.Rectangle.Dx`. -/
def Rectangle.Dx (r : Rectangle) : Int := wrapInt (r.Max.X - r.Min.X)

/-- The method `image.Rectangle.Dy`. -/
def Rectangle.Dy (r : Rectangle) : Int := wrapInt (r.Max.Y - r.Min.Y)

/-- The method `image.Rectangle.Empty`. -/
def Rectangle.Empty (r : Rectangle) : Bool :=
  decide (r.Min.X ≥ r.Max.X) || decide (r.Min.Y ≥ r.Max.Y)

/-- The method `image.Rectangle.In`. -/
def Rectangle.In (r s : Rectangle) : Bool :=
  if r.Empty then true
  else decide (s.Min.X ≤ r.Min.X) && decide (r.Max.X ≤ s.Max.X) &&
    decide (s.Min.Y ≤ r.Min.Y) && decide (r.Max.Y ≤ s.Max.Y)

/-- The function `image.Rect`. -/
def Rect (x0 y0 x1 y1 : Int) : Rectangle :=
  let (x0, x1) := if x0 > x1 then (x1, x0) else (x0, x1)
  let (y0, y1) := if y0 > y1 then (y1, y0) else (y0, y1)
  ⟨⟨x0, y0⟩, ⟨x1, y1⟩⟩

/-- The function `utils.GetRect`. -/
def GetRect (x y w h : Int) : Rectangle := Rect x y (wrapInt (x + w)) (wrapInt (y + h))

/-! ## Package `frame` -/

/-- The type `frame.Box`. -/
structure Box where
  Label : String
  Confidence : Int
  Coords : Rectangle
  JPEGBytes : List Nat
  RejectReason : String
  deriving DecidableEq, Repr

/-- The type `frame.FrameDetectResult`. -/
structure FrameDetectResult where
  Boxes : List Box
  JPEGBytes : List Nat
  deriving DecidableEq, Repr

def Box.GetWidth (b : Box) : Int := b.Coords.Dx

def Box.GetHeight (b : Box) : Int := b.Coords.Dy

def Box.IsPortrait (b : Box) : Bool := decide (b.GetWidth < b.GetHeight)

def Box.LabelPretty (b : Box) : String := Title (ToLower b.Label)

/-- Sprintf of "%s: %d%%". -/
def Box.LabelConfidence (b : Box) : String :=
  b.LabelPretty ++ ": " ++ Itoa b.Confidence ++ "%"

/-- Body of the loop of `RejectSize`.  The second branch prints the width
under the word "height", as the source does. -/
def RejectSize.body (minWidth minHeight maxWidth maxHeight : Int) (box : Box) : Box :=
  if minWidth ≠ 0 ∧ box.GetWidth < minWidth then
    { box with RejectReason :=
        "Rejected width: " ++ Itoa box.GetWidth ++ ", " ++ box.LabelConfidence }
  else if minHeight ≠ 0 ∧ box.GetHeight < minHeight then
    { box with RejectReason :=
        "Rejected height: " ++ Itoa box.GetWidth ++ ", " ++ box.LabelConfidence }
  else if maxWidth ≠ 0 ∧ box.GetWidth > maxWidth then
    { box with RejectReason :=
        "Rejected width: " ++ Itoa box.GetWidth ++ ", " ++ box.LabelConfidence }
  else if maxHeight ≠ 0 ∧ box.GetHeight > maxHeight then
    { box with RejectReason :=
        "Rejected height: " ++ Itoa box.GetHeight ++ ", " ++ box.LabelConfidence }
  else box

def FrameDetectResult.RejectSize (f : FrameDetectResult)
    (minWidth minHeight maxWidth maxHeight : Int) : FrameDetectResult :=
  { f with Boxes := f.Boxes.map (RejectSize.body minWidth minHeight maxWidth maxHeight) }

/-- Body of the loop of `RejectOrientation`. -/
def RejectOrientation.body (box : Box) : Box :=
  if !box.IsPortrait then
    { box with RejectReason :=
        "Rejected landscape: " ++ Itoa box.GetWidth ++ " > " ++ Itoa box.GetHeight ++ ", " ++
            box.LabelConfidence }
  else box

def FrameDetectResult.RejectOrientation (f : FrameDetectResult) (requirePortrait : Bool) :
    FrameDetectResult :=
  if !requirePortrait then f
  else { f with Boxes := f.Boxes.map RejectOrientation.body }

/-- Body of the loop of `RejectOutsideROI`. -/
def RejectOutsideROI.body (roi : Rectangle) (box : Box) : Box :=
  if !box.Coords.In roi then
    { box with RejectReason :=
        "Rejected bounds: " ++ rectangleString box.Coords ++ " outside ROI: " ++
            rectangleString roi ++ ", " ++ box.LabelConfidence }
  else box

def FrameDetectResult.RejectOutsideROI (f : FrameDetectResult) (roi : Option Rectangle) :
    FrameDetectResult :=
  match roi with
  | none => f
  | some roi => { f with Boxes := f.Boxes.map (RejectOutsideROI.body roi) }

/-- Body of the loop of `RejectLowConfidence`. -/
def RejectLowConfidence.body (minConfidence : Int) (box : Box) : Box :=
  if box.Confidence < minConfidence then
    { box with RejectReason :=
        "Rejected confidence: " ++ Itoa box.Confidence ++ " below threshold: " ++
            Itoa minConfidence ++ ", " ++ box.LabelConfidence }
  else box

def FrameDetectResult.RejectLowConfidence (f : FrameDetectResult) (minConfidence : Int) :
    FrameDetectResult :=
  if minConfidence = 0 then f
  else { f with Boxes := f.Boxes.map (RejectLowConfidence.body minConfidence) }

/-- The inner loop of `ParseAlerts`: scan the allow-list, stop at the first
label equal to the box's. -/
def ParseAlerts.found (label : String) : List String → Bool
  | [] => false
  | l :: ls => if label = l then true else ParseAlerts.found label ls

/-- The outer loop of `ParseAlerts`, with its accumulator `result`. -/
def ParseAlerts.loop (alertLabels : List String) : List Box → List Box → List Box
  | [], result => result
  | box :: rest, result =>
    if ParseAlerts.found box.Label alertLabels then
      ParseAlerts.loop alertLabels rest (result ++ [box])
    else ParseAlerts.loop alertLabels rest result

def FrameDetectResult.ParseAlerts (f : FrameDetectResult) (alertLabels : List String) :
    FrameDetectResult :=
  { f with Boxes := ParseAlerts.loop alertLabels f.Boxes [] }

/-- The loop of `RejectedBoxes`, with its accumulator `ret`. -/
def RejectedBoxes.loop : List Box → List Box → List Box
  | [], ret => ret
  | box :: rest, ret =>
    if box.RejectReason ≠ "" then RejectedBoxes.loop rest (ret ++ [box])
    else RejectedBoxes.loop rest ret

def FrameDetectResult.RejectedBoxes (f : FrameDetectResult) : List Box :=
  RejectedBoxes.loop f.Boxes []

/-- The loop of `HitBoxes`, with its accumulator `ret`. -/
def HitBoxes.loop : List Box → List Box → List Box
  | [], ret => ret
  | box :: rest, ret =>
    if box.RejectReason = "" then HitBoxes.loop rest (ret ++ [box])
    else HitBoxes.loop rest ret

def FrameDetectResult.HitBoxes (f : FrameDetectResult) : List Box :=
  HitBoxes.loop f.Boxes []

/-! ## Package `time` -/

/-- The constant `time.Second`, a `time.Duration` in nanoseconds. -/
def Second : Int := 1000000000

/-- The constant `time.Minute`. -/
def Minute : Int := 60 * Second

/-- Saturation of a difference of instants to the 64-bit range of
`time.Duration`, as `time.Time.Sub` does. -/
def clampDuration (x : Int) : Int :=
  if x < -(2 ^ 63) then -(2 ^ 63) else if x > 2 ^ 63 - 1 then 2 ^ 63 - 1 else x

/-- The type `time.Time`: an instant, in nanoseconds since the Unix epoch,
and the offset, in seconds east of UTC, of its location at that instant. -/
structure Time where
  nanos : Int
  offset : Int
  deriving DecidableEq, Repr

/-- The method `time.Time.Sub`. -/
def Time.Sub (t u : Time) : Int := clampDuration (t.nanos - u.nanos)

/-- The method `time.Time.Add`. -/
def Time.Add (t : Time) (d : Int) : Time := { t with nanos := t.nanos + d }

/-! ## Package `ratelimit` (github.com/juju/ratelimit) -/

/-- A `ratelimit.Bucket` at the instant of a call.  The library starts each
call by crediting the tokens that fell due since the bucket was last used
(`quantum` per elapsed `fillInterval`, up to `capacity`); here
`availableTokens` is the count after that credit, so calls that follow one
another with no time elapsing act on the same count. -/
structure Bucket where
  fillInterval : Int
  capacity : Int
  quantum : Int
  availableTokens : Int
  deriving DecidableEq, Repr

/-- The function `ratelimit.NewBucketWithQuantum`: a full bucket. -/
def NewBucketWithQuantum (fillInterval capacity quantum : Int) : Bucket :=
  { fillInterval := fillInterval, capacity := capacity, quantum := quantum,
    availableTokens := capacity }

/-- The method `Bucket.TakeAvailable`: the bucket afterwards and the number
of tokens taken. -/
def Bucket.TakeAvailable (tb : Bucket) (count : Int) : Bucket × Int :=
  if count ≤ 0 then (tb, 0)
  else if tb.availableTokens ≤ 0 then (tb, 0)
  else
    let count := if count > tb.availableTokens then tb.availableTokens else count
    ({ tb with availableTokens := tb.availableTokens - count }, count)

/-! ## Package `camera` -/

/-- The type `camera.Cam`: the policy that `NextFrameFromCam` passes to the
filters, the three buckets, the time of the last overview, the capture URI
and the active flag.  The bot, the store and the channels are left out. -/
structure Cam where
  MaxWidth : Int
  MaxHeight : Int
  MinWidth : Int
  MinHeight : Int
  RequirePortrait : Bool
  MinConfidence : Int
  ROIRect : Option Rectangle
  Name : String := ""
  Index : Int := 0
  FrameLimit : Bucket := NewBucketWithQuantum (1 * Minute) 20 20
  BurstLimit : Bucket := NewBucketWithQuantum (1 * Second) 3 1
  PaceLimit : Bucket := NewBucketWithQuantum (15 * Second) 6 6
  LastOverviewSent : Time := ⟨0, 0⟩
  CropRect : Option Rectangle := none
  SendRejected : Bool := false
  active : Bool := false
  VideoCaptureURI : String := ""
  deriving DecidableEq, Repr

/-- The type `camera.Config`, without the bot and the store. -/
structure Config where
  Name : String
  Index : Int
  MaxWidth : Int
  MaxHeight : Int
  MinWidth : Int
  MinHeight : Int
  RequirePortrait : Bool
  MinConfidence : Int
  SendRejected : Bool
  CropX : Int
  CropY : Int
  CropWidth : Int
  CropHeight : Int
  ROIX : Int
  ROIY : Int
  ROIWidth : Int
  ROIHeight : Int
  VideoCaptureURI : String := ""
  deriving DecidableEq, Repr

/-- The function `utils.GetRectForROI`; `none` is the nil pointer. -/
def GetRectForROI (x y w h : Int) : Option Rectangle :=
  if w < 20 ∨ h < 20 then none else some (GetRect x y w h)

/-- The function `camera.New`, with the reading `now` of `time.Now()`.  The
outer `none` is the run-time panic of `cropRect.Dx()` on a nil `cropRect`;
`.error` is the returned error. -/
def New (config : Config) (now : Time) : Option (Except String Cam) :=
  let cropRect := GetRectForROI config.CropX config.CropY config.CropWidth config.CropHeight
  let roiRect := GetRectForROI config.ROIX config.ROIY config.ROIWidth config.ROIHeight
  let build : Option (Except String Cam) :=
    let minConfidence := if config.MinConfidence = 0 then 15 else config.MinConfidence
    some (.ok
      { Name := config.Name
        Index := config.Index
        FrameLimit := NewBucketWithQuantum (1 * Minute) 20 20
        BurstLimit := NewBucketWithQuantum (1 * Second) 3 1
        PaceLimit := NewBucketWithQuantum (15 * Second) 6 6
        LastOverviewSent := now.Add (-10 * Second)
        MinConfidence := minConfidence
        MaxWidth := config.MaxWidth
        MaxHeight := config.MaxHeight
        MinWidth := config.MinWidth
        MinHeight := config.MinHeight
        RequirePortrait := config.RequirePortrait
        CropRect := cropRect
        ROIRect := roiRect
        SendRejected := config.SendRejected
        VideoCaptureURI := config.VideoCaptureURI
        active := false })
  match roiRect with
  | none => build
  | some roi =>
    match cropRect with
    | none => none
    | some crop =>
      if roi.Dx > crop.Dx ∨ roi.Dy > crop.Dy then
        some (.error ("ROI: " ++ rectangleString roi ++
          " must be smaller and relative to the crop image: " ++ rectangleString crop))
      else build

/-- The method `Cam.TakeFrameBuckets`: the camera afterwards and the
result. -/
def Cam.TakeFrameBuckets (c : Cam) : Cam × Bool :=
  let (frameLimit, fl) := c.FrameLimit.TakeAvailable 1
  let c := { c with FrameLimit := frameLimit }
  if fl ≠ 1 then (c, false)
  else
    let (burstLimit, bl) := c.BurstLimit.TakeAvailable 1
    let c := { c with BurstLimit := burstLimit }
    if bl ≠ 1 then (c, false)
    else
      let (paceLimit, pl) := c.PaceLimit.TakeAvailable 1
      let c := { c with PaceLimit := paceLimit }
      if pl ≠ 1 then (c, false)
      else (c, true)

/-- The method `Cam.IsActive`. -/
def Cam.IsActive (c : Cam) : Bool := c.active

/-- The method `Cam.SetActive`. -/
def Cam.SetActive (c : Cam) (active : Bool) : Cam := { c with active := active }

/-- The four filter calls of `App.NextFrameFromCam`, in the order of the source. -/
def NextFrameFromCam.filters (cam : Cam) (fdr : FrameDetectResult) : FrameDetectResult :=
  let fdr := fdr.RejectSize cam.MinWidth cam.MinHeight cam.MaxWidth cam.MaxHeight
  let fdr := fdr.RejectOrientation cam.RequirePortrait
  let fdr := fdr.RejectOutsideROI cam.ROIRect
  fdr.RejectLowConfidence cam.MinConfidence

/-! ## Package `strconv` and `strings`: what `ParseDayHour` calls -/

/-- Value of an ASCII decimal digit. -/
def digitVal (c : Char) : Option Nat :=
  if 48 ≤ c.toNat ∧ c.toNat ≤ 57 then some (c.toNat - 48) else none

/-- The digit loop of `strconv.Atoi`: `n = n*10 + digit`, failing on a
rune that is no digit. -/
def parseDigits : List Char → Nat → Option Nat
  | [], n => some n
  | ch :: rest, n =>
    match digitVal ch with
    | none => none
    | some d => parseDigits rest (n * 10 + d)

/-- Range check of `strconv.Atoi` for the 64-bit `int`. -/
def atoiRange (neg : Bool) (n : Nat) : Option Int :=
  if neg then (if n ≤ 2 ^ 63 then some (-(n : Int)) else none)
  else (if n < 2 ^ 63 then some (n : Int) else none)

/-- The function `strconv.Atoi`: an optional sign, then one or more decimal
digits, the value within the 64-bit `int`.  The result `none` stands for
a non-nil error. -/
def Atoi (s : String) : Option Int :=
  match s.data with
  | [] => none
  | c :: rest =>
    let neg := decide (c = '-')
    let digits := if c = '-' ∨ c = '+' then rest else c :: rest
    if digits = [] then none
    else
      match parseDigits digits 0 with
      | none => none
      | some n => atoiRange neg n

/-- Pieces of a rune list between the occurrences of a separator rune. -/
def splitRunes (sep : Char) : List Char → List (List Char)
  | [] => [[]]
  | c :: cs =>
    if c = sep then [] :: splitRunes sep cs
    else
      match splitRunes sep cs with
      | [] => [[c]]
      | piece :: pieces => (c :: piece) :: pieces

/-- The function `strings.Split` for a separator of one rune. -/
def Split (s : String) (sep : Char) : List String := (splitRunes sep s.data).map String.mk

/-- The loop of `strings.Split` for a separator of one or more runes, read
from the left: `skip` counts the runes of a separator just found that are
still to be passed over, `piece` is the piece being read, last rune first. -/
def splitSep (sep : List Char) : Nat → List Char → List Char → List (List Char)
  | _, piece, [] => [piece.reverse]
  | skip + 1, piece, _ :: cs => splitSep sep skip piece cs
  | 0, piece, c :: cs =>
    if sep.isPrefixOf (c :: cs) then piece.reverse :: splitSep sep (sep.length - 1) [] cs
    else splitSep sep 0 (c :: piece) cs

/-- The function `strings.Split` for a separator of one or more runes. -/
def SplitOn (s sep : String) : List String := (splitSep sep.data 0 [] s.data).map String.mk

/-- Pieces of `strings.SplitN` for a separator of one rune: at most `n`
pieces, the last one the unsplit rest; no piece for `n = 0`. -/
def splitNRunes (sep : Char) : Nat → List Char → List (List Char)
  | 0, _ => []
  | 1, l => [l]
  | _ + 2, [] => [[]]
  | n + 2, c :: cs =>
    if c = sep then [] :: splitNRunes sep (n + 1) cs
    else
      match splitNRunes sep (n + 2) cs with
      | [] => [[c]]
      | piece :: pieces => (c :: piece) :: pieces

/-- The function `strings.SplitN` for a separator of one rune and `n ≥ 0`. -/
def SplitN (s : String) (sep : Char) (n : Nat) : List String :=
  (splitNRunes sep n s.data).map String.mk

/-! ## Packages `utils` and `camera`: the parameters of a camera -/

/-- The function `utils.MarkdownCode`. -/
def MarkdownCode (s : String) : String := "```\n" ++ s ++ "```\n"

/-- The verb `%v` for a `bool`. -/
def fmtBool (b : Bool) : String := if b then "true" else "false"

/-- The verb `%+v` for a pointer to a rectangle: the method `String` of the
rectangle, and `<nil>` for the nil pointer. -/
def fmtRectPtr (r : Option Rectangle) : String :=
  match r with
  | none => "<nil>"
  | some r => rectangleString r

/-- The method `Cam.GetParams`; `none` is the index-out-of-range panic of
`after[1]`. -/
def Cam.GetParams (c : Cam) : Option String :=
  let before := SplitOn c.VideoCaptureURI "://"
  let after := SplitOn c.VideoCaptureURI "@"
  let uri : Option String :=
    if before.length = 2 ∨ after.length = 2 then
      match before[0]?, after[1]? with
      | some b, some a => some (b ++ "://" ++ a)
      | _, _ => none
    else some "error"
  match uri with
  | none => none
  | some uri =>
    let out := "Name: " ++ c.Name ++ "\n"
    let out := out ++ "Index: " ++ Itoa c.Index ++ "\n"
    let out := out ++ "MaxWidth: " ++ Itoa c.MaxWidth ++ "\n"
    let out := out ++ "MaxHeight: " ++ Itoa c.MaxHeight ++ "\n"
    let out := out ++ "MinWidth: " ++ Itoa c.MinWidth ++ "\n"
    let out := out ++ "MinHeight: " ++ Itoa c.MinHeight ++ "\n"
    let out := out ++ "MinConfidence: " ++ Itoa c.MinConfidence ++ "\n"
    let out := out ++ "RequirePortrait: " ++ fmtBool c.RequirePortrait ++ "\n"
    let out := out ++ "Crop: " ++ fmtRectPtr c.CropRect ++ "\n"
    let out := out ++ "ROI: " ++ fmtRectPtr c.ROIRect ++ "\n"
    let out := out ++ "Capture: " ++ uri ++ "\n"
    let out := out ++ "SendRejected: " ++ fmtBool c.SendRejected ++ "\n"
    some (MarkdownCode out)

/-! ## Package `datastore`: the schedule -/

/-- The type `time.Weekday`. -/
inductive Weekday where
  | Sunday | Monday | Tuesday | Wednesday | Thursday | Friday | Saturday
  deriving DecidableEq, Repr

/-- The method `time.Weekday.String`. -/
def weekdayString : Weekday → String
  | .Sunday => "Sunday"
  | .Monday => "Monday"
  | .Tuesday => "Tuesday"
  | .Wednesday => "Wednesday"
  | .Thursday => "Thursday"
  | .Friday => "Friday"
  | .Saturday => "Saturday"

def Weekdays : List Weekday :=
  [.Monday, .Tuesday, .Wednesday, .Thursday, .Friday, .Saturday, .Sunday]

/-- Sprintf of "%s-%d". -/
def DayHourToString (day : Weekday) (hour : Int) : String :=
  weekdayString day ++ "-" ++ Itoa hour

/-- The result `none` stands for the nil pointer. -/
def StrToWeekday (day : String) : Option Weekday :=
  if day = "mon" then some .Monday
  else if day = "tue" then some .Tuesday
  else if day = "wed" then some .Wednesday
  else if day = "thu" then some .Thursday
  else if day = "fri" then some .Friday
  else if day = "sat" then some .Saturday
  else if day = "sun" then some .Sunday
  else none

deriving instance DecidableEq for Except

/-- The result is `.error msg` for a non-nil error, otherwise the weekday
pointer (`none` for nil) and the hour. -/
def ParseDayHour (dayhour : String) : Except String (Option Weekday × Int) :=
  if dayhour.length < 1 then .error "No input given"
  else
    let dayhour := TrimSpace (ToLower dayhour)
    let split := Split dayhour '-'
    match split with
    | [s0, s1] =>
      match Atoi s1 with
      | none => .error ("Invalid day or hour: " ++ dayhour)
      | some hourInt =>
        match StrToWeekday s0 with
        | none => .error ("Invalid day: " ++ s0)
        | some wd => .ok (some wd, hourInt)
    | [s0] =>
      match Atoi s0 with
      | some hourInt => .ok (none, hourInt)
      | none =>
        match StrToWeekday s0 with
        | none => .error ("Invalid day: " ++ s0)
        | some wd => .ok (some wd, -1)
    | _ => .error ("Invalid day or hour: " ++ dayhour)

/-- Rows of the schedule table: the set of its `dayhour` primary keys. -/
abbrev Rows := Finset String

/-- The statement INSERT OR REPLACE of `SetActive`, which never fails here;
the second component is the returned error (`none` for nil). -/
def SetActive (rows : Rows) (day : Weekday) (hour : Int) : Rows × Option String :=
  (insert (DayHourToString day hour) rows, none)

/-- The statement DELETE of `SetDeactive`, which never fails here. -/
def SetDeactive (rows : Rows) (day : Weekday) (hour : Int) : Rows × Option String :=
  (rows.erase (DayHourToString day hour), none)

/-- The count query of `IsActiveDayHour`, which never fails here. -/
def IsActiveDayHour (rows : Rows) (day : Weekday) (hour : Int) : Bool :=
  decide (DayHourToString day hour ∈ rows)

/-- A `for` loop over `xs` whose body writes the table and returns from the
enclosing function on the first non-nil error. -/
def forEachRow {α : Type} (body : Rows → α → Rows × Option String) :
    List α → Rows → Rows × Option String
  | [], rows => (rows, none)
  | x :: xs, rows =>
    match body rows x with
    | (rows, some err) => (rows, some err)
    | (rows, none) => forEachRow body xs rows

/-- The hours `0, 1, ..., 23` of the loop `for h := 0; h < 24; h++`. -/
def hours24 : List Int := (List.range 24).map Int.ofNat

/-- The method `Schedule.Deactivate`.  The dereference `*day` is reached
only with a non-nil `day`, by the first test. -/
def Deactivate (rows : Rows) (dayhour : String) : Rows × Option String :=
  match ParseDayHour dayhour with
  | .error err => (rows, some err)
  | .ok (day, hour) =>
    if hour = -1 ∧ day = none then (rows, some "No day or hour found")
    else if hour < -1 ∨ hour > 23 then (rows, some "Invalid hour, only 0-23 allowed")
    else if hour = -1 then
      match day with
      | none => (rows, some "No day or hour found")
      | some d => forEachRow (fun rows h => SetDeactive rows d h) hours24 rows
    else
      match day with
      | none => forEachRow (fun rows d => SetDeactive rows d hour) Weekdays rows
      | some d => SetDeactive rows d hour

/-- The method `Schedule.Activate`.  It has no test of the hour's range. -/
def Activate (rows : Rows) (dayhour : String) : Rows × Option String :=
  match ParseDayHour dayhour with
  | .error err => (rows, some err)
  | .ok (day, hour) =>
    if hour = -1 ∧ day = none then (rows, some "No day or hour found")
    else if hour = -1 then
      match day with
      | none => (rows, some "No day or hour found")
      | some d => forEachRow (fun rows h => SetActive rows d h) hours24 rows
    else
      match day with
      | none => forEachRow (fun rows d => SetActive rows d hour) Weekdays rows
      | some d => SetActive rows d hour

/-- The type `ScheduleMode`, an `int`. -/
abbrev ScheduleMode := Int

def ModeInvalid : ScheduleMode := 0

def ModeSched : ScheduleMode := 1

def ModeOn : ScheduleMode := 2

def ModeOff : ScheduleMode := 3

def ModeStr (mode : ScheduleMode) : String :=
  if mode = ModeSched then "Sched"
  else if mode = ModeOn then "On"
  else if mode = ModeOff then "Off"
  else ""

def StrMode (mode : String) : ScheduleMode :=
  if ToLower mode = "sched" then ModeSched
  else if ToLower mode = "on" then ModeOn
  else if ToLower mode = "off" then ModeOff
  else ModeInvalid

/-- The weekday with the number `n` of `time.Weekday`, Sunday being 0. -/
def weekdayOfIndex (n : Int) : Weekday :=
  if n = 0 then .Sunday
  else if n = 1 then .Monday
  else if n = 2 then .Tuesday
  else if n = 3 then .Wednesday
  else if n = 4 then .Thursday
  else if n = 5 then .Friday
  else .Saturday

/-- Seconds since the Unix epoch on the clock of the time's location. -/
def Time.localSeconds (t : Time) : Int := t.nanos / 1000000000 + t.offset

/-- The method `time.Time.Weekday`; the first of January 1970 was a
Thursday. -/
def Time.Weekday (t : Time) : Watchbot.Weekday :=
  weekdayOfIndex ((t.localSeconds / 86400 + 4) % 7)

/-- The method `time.Time.Hour`. -/
def Time.Hour (t : Time) : Int := t.localSeconds % 86400 / 3600

def TimeToDayHourString (t : Time) : String := DayHourToString t.Weekday t.Hour

/-- The statement DELETE FROM of `DeactivateAll`, which never fails here. -/
def DeactivateAll (_rows : Rows) : Rows × Option String := (∅, none)

/-- The method `Schedule.ActivateAll`: the loop over the hours inside the
loop over `Weekdays`. -/
def ActivateAll (rows : Rows) : Rows × Option String :=
  forEachRow
    (fun rows day => forEachRow (fun rows hour => SetActive rows day hour) hours24 rows)
    Weekdays rows

/-- The database behind a `Schedule`: the rows of its table and the `mode`
column of its row in the table `sched_mode` (`none` when it has no row). -/
structure Schedule where
  rows : Rows
  mode : Option String
  deriving DecidableEq

/-- The count query of `IsActiveTime`, which never fails here. -/
def IsActiveTime (s : Schedule) (t : Time) : Bool × Option String :=
  (decide (TimeToDayHourString t ∈ s.rows), none)

/-- The statement INSERT OR REPLACE of `SetMode`, which never fails here. -/
def SetMode (s : Schedule) (mode : ScheduleMode) : Schedule × Option String :=
  ({ s with mode := some (ModeStr mode) }, none)

/-- The method `Schedule.GetMode`: the database afterwards, the mode and the
error.  A missing row is `sql.ErrNoRows`. -/
def GetMode (s : Schedule) : Schedule × ScheduleMode × Option String :=
  match s.mode with
  | none =>
    match SetMode s ModeSched with
    | (s, some smErr) => (s, 0, some smErr)
    | (s, none) => (s, ModeSched, none)
  | some modeStr => (s, StrMode modeStr, none)

/-- The method `Schedule.IsActiveNow`, with the reading `now` of
`time.Now()` that its last line makes. -/
def IsActiveNow (s : Schedule) (now : Time) : Schedule × Bool × Option String :=
  match GetMode s with
  | (s, _, some err) => (s, false, some err)
  | (s, sm, none) =>
    if sm = ModeOn then (s, true, none)
    else if sm = ModeOff then (s, false, none)
    else
      let (active, err) := IsActiveTime s now
      (s, active, err)

/-! ## Packages `jobs`, `detect` and `app` -/

/-- The type `jobs.Cmd`. -/
structure Cmd where
  CamIndex : Int
  Noun : String
  Verb : String
  Obj : String
  deriving DecidableEq, Repr

/-- The type `jobs.UploadJob`; `Data` is the content of the reader. -/
structure UploadJob where
  CamIndex : Int
  Caption : String
  Data : List Nat
  deriving DecidableEq, Repr

/-- A non-nil `error` returned by the detector: the value
`detect.CamStatusInactive` or any other. -/
inductive Error where
  | CamStatusInactive
  | other (msg : String)
  deriving DecidableEq, Repr

/-- What `Detector.DetectNextFrame` returns: an error, or a result pointer
(`none` for nil). -/
abbrev Detection := Except Error (Option FrameDetectResult)

/-- The fields of `app.App` that the frame cycle reads and writes.  A channel
is the list of the jobs sent on it, oldest first; `DetectorAsked` lists the
camera indices of the calls of `DetectNextFrame` made so far. -/
structure App where
  Cams : List Cam
  RoundRobin : Int
  AlertUploadChan : List UploadJob
  InfoUploadChan : List UploadJob
  DetectorAsked : List Int
  deriving DecidableEq, Repr

/-- The element `xs[i]` of a slice; `none` is the index-out-of-range panic. -/
def sliceAt {α : Type} (xs : List α) (i : Int) : Option α :=
  if i < 0 then none else xs[i.toNat]?

/-- The slice after a write through the pointer `xs[i]`. -/
def sliceSet {α : Type} (xs : List α) (i : Int) (x : α) : List α :=
  if i < 0 then xs else xs.set i.toNat x

/-- The method `App.maybeSendOverview`, with the readings `nowCheck` and
`nowSent` of its two calls of `time.Now()`; `none` is a panic. -/
def maybeSendOverview (a : App) (camIndex : Int) (jpegBytes : List Nat)
    (nowCheck nowSent : Time) : Option App :=
  match sliceAt a.Cams camIndex with
  | none => none
  | some cam =>
    if nowCheck.Sub cam.LastOverviewSent < 10 * Second then some a
    else
      let (cam, canContinue) := cam.TakeFrameBuckets
      if !canContinue then some { a with Cams := sliceSet a.Cams camIndex cam }
      else
        let cam := { cam with LastOverviewSent := nowSent }
        some { a with
          Cams := sliceSet a.Cams camIndex cam
          AlertUploadChan := a.AlertUploadChan ++
            [{ CamIndex := camIndex, Caption := "", Data := jpegBytes }] }

/-- The method `App.maybeSendBox`; `none` is a panic. -/
def maybeSendBox (a : App) (camIndex : Int) (label : String) (jpegBytes : List Nat) :
    Option App :=
  match sliceAt a.Cams camIndex with
  | none => none
  | some cam =>
    let (cam, canContinue) := cam.TakeFrameBuckets
    if !canContinue then some { a with Cams := sliceSet a.Cams camIndex cam }
    else
      some { a with
        Cams := sliceSet a.Cams camIndex cam
        AlertUploadChan := a.AlertUploadChan ++
          [{ CamIndex := camIndex, Caption := label, Data := jpegBytes }] }

/-- The loop of `NextFrameFromCam` over the rejected boxes. -/
def NextFrameFromCam.rejectedLoop (cam : Cam) : List Box → App → App
  | [], a => a
  | box :: rest, a =>
    let a :=
      if cam.SendRejected then
        { a with InfoUploadChan := a.InfoUploadChan ++
            [{ CamIndex := cam.Index, Caption := box.RejectReason, Data := box.JPEGBytes }] }
      else a
    NextFrameFromCam.rejectedLoop cam rest a

/-- The loop of `NextFrameFromCam` over the hit boxes. -/
def NextFrameFromCam.hitLoop (cam : Cam) : List Box → App → Option App
  | [], a => some a
  | box :: rest, a =>
    match maybeSendBox a cam.Index box.LabelConfidence box.JPEGBytes with
    | none => none
    | some a => NextFrameFromCam.hitLoop cam rest a

/-- The method `App.NextFrameFromCam`.  The argument `detect` is what the
detector answers for a camera index, `nowCheck` and `nowSent` are the clock
readings of the overview; the result is the state and the returned error
(`none` for nil), or `none` for a panic.  The slice `stats.cams` has one
entry for each camera of the App (`New` appends them), so `stats.cams[cam.Index]`
panics when `cam.Index` is no index of `a.Cams`. -/
def NextFrameFromCam (a : App) (index : Int) (detect : Int → Detection)
    (nowCheck nowSent : Time) : Option (App × Option Error) :=
  match sliceAt a.Cams index with
  | none => none
  | some cam =>
    if cam.Index < 0 ∨ (a.Cams.length : Int) ≤ cam.Index then none
    else
      let a := { a with DetectorAsked := a.DetectorAsked ++ [cam.Index] }
      match detect cam.Index with
      | .error err => some (a, some err)
      | .ok none => some (a, none)
      | .ok (some fdr) =>
        let fdr := NextFrameFromCam.filters cam fdr
        let a := NextFrameFromCam.rejectedLoop cam fdr.RejectedBoxes a
        if fdr.HitBoxes.length > 0 then
          match maybeSendOverview a cam.Index fdr.JPEGBytes nowCheck nowSent with
          | none => none
          | some a =>
            match NextFrameFromCam.hitLoop cam fdr.HitBoxes a with
            | none => none
            | some a => some (a, none)
        else some (a, none)

/-- The method `App.NextFrame`, with the arguments of `NextFrameFromCam`. -/
def NextFrame (a : App) (detect : Int → Detection) (nowCheck nowSent : Time) :
    Option (App × Option Error) :=
  let a := { a with RoundRobin := wrapInt (a.RoundRobin + 1) }
  let a := if a.RoundRobin ≥ a.Cams.length then { a with RoundRobin := 0 } else a
  match sliceAt a.Cams a.RoundRobin with
  | none => none
  | some cam =>
    if cam.IsActive then
      match NextFrameFromCam a a.RoundRobin detect nowCheck nowSent with
      | none => none
      | some (a, some err) => some (a, some err)
      | some (a, none) => some (a, none)
    else some (a, none)

/-- The method `App.handleIncomingCmd` for a command whose noun is "mode",
on the store of the camera the command names: the database afterwards and
the messages sent through the camera's bot.  The blocks of the other nouns
are not embedded, and `none` stands for a command with another noun. -/
def handleIncomingCmd (s : Schedule) (cmd : Cmd) : Option (Schedule × List String) :=
  if cmd.Noun ≠ "mode" then none
  else
    let (s, sent) :=
      if cmd.Verb = "get" then
        match GetMode s with
        | (s, _, some _) => (s, [])
        | (s, currMode, none) => (s, ["Mode set to '" ++ ModeStr currMode ++ "'"])
      else (s, [])
    if cmd.Verb = "set" then
      let mode := StrMode cmd.Obj
      if mode = ModeInvalid then some (s, sent ++ ["usage: bot mode <on|off|sched>"])
      else
        match SetMode s mode with
        | (s, some _) => some (s, sent)
        | (s, none) =>
          match GetMode s with
          | (s, _, some _) => some (s, sent)
          | (s, newMode, none) =>
            some (s, sent ++ ["Mode set to '" ++ ModeStr newMode ++ "'"])
    else some (s, sent)

/-- The method `App.BotBroadcastMsg`: the messages sent, each with the
position of the camera whose bot sends it. -/
def BotBroadcastMsg (a : App) (msg : String) : List (Nat × String) :=
  (List.range a.Cams.length).map (fun i => (i, msg))

/-- The method `App.checkMainTicker` on a snapshot of the meter
`stats.mainTicker` with count `count` and one-minute rate `rate1`, of which
`rateText` is the text that `%.1f` prints: the messages broadcast and the
number of calls of `CancelAndExit`. -/
def checkMainTicker (a : App) (count : Int) (rate1 : ℚ) (rateText : String) :
    List (Nat × String) × Nat :=
  if count > 600 ∧ rate1 < 2 then
    (BotBroadcastMsg a ("Frame rate too low: " ++ rateText ++ ", halting!"), 1)
  else ([], 0)

/-- The loop of `App.checkModeSwitch` from the camera at position `i` on.
The argument `schedActiveNow` is what `cam.Store.SchedActiveNow` returns in
the iteration for the camera at a position (the flag and the error, `none`
for nil).  The result is the cameras afterwards, the messages sent, each
with the position of the camera whose bot sends it, and `stateChanged`. -/
def checkModeSwitch.loop (schedActiveNow : Nat → Bool × Option String) :
    Nat → List Cam → Bool → List Cam × List (Nat × String) × Bool
  | _, [], stateChanged => ([], [], stateChanged)
  | i, cam :: rest, stateChanged =>
    let (active, err) := schedActiveNow i
    if err ≠ none then (cam :: rest, [], stateChanged)
    else if active ≠ cam.IsActive then
      let cam := cam.SetActive active
      let msg := if active then "Detector changed state: ON" else "Detector changed state: OFF"
      let (rest, msgs, stateChanged) := checkModeSwitch.loop schedActiveNow (i + 1) rest true
      (cam :: rest, (i, msg) :: msgs, stateChanged)
    else
      let (rest, msgs, stateChanged) :=
        checkModeSwitch.loop schedActiveNow (i + 1) rest stateChanged
      (cam :: rest, msgs, stateChanged)

/-- The method `App.checkModeSwitch`: the state afterwards, the messages
sent and the number of calls of `Detector.ToggleFeeds`. -/
def checkModeSwitch (a : App) (schedActiveNow : Nat → Bool × Option String) :
    App × List (Nat × String) × Nat :=
  let (cams, msgs, stateChanged) := checkModeSwitch.loop schedActiveNow 0 a.Cams false
  ({ a with Cams := cams }, msgs, if stateChanged then 1 else 0)

/-- The method `Bot.UpdateToCmd` of a bot with the command group
`CommandGroupID`, on an update whose message is `none` (nil) or has the chat
id and the text given.  The argument `toLower` is the function
`strings.ToLower` of the Go library, which lower-cases every rune by the case
tables of package `unicode`; the tables are no part of the repository, and
the method is embedded for whatever they hold. -/
def UpdateToCmd (toLower : String → String) (CommandGroupID : String)
    (message : Option (Int × String)) : Cmd :=
  let cmd : Cmd := { CamIndex := 0, Noun := "", Verb := "", Obj := "" }
  match message with
  | none => cmd
  | some (chatID, text) =>
    if Itoa chatID ≠ CommandGroupID then cmd
    else
      let pieces := SplitN (TrimSpace text) ' ' 4
      match pieces[0]? with
      | none => cmd
      | some p0 =>
        if toLower p0 ≠ "bot" ∧ toLower p0 ≠ "b" then cmd
        else
          let cmd :=
            match pieces[1]? with
            | some p1 => { cmd with Noun := toLower (TrimSpace p1) }
            | none => cmd
          let cmd :=
            match pieces[2]? with
            | some p2 => { cmd with Verb := toLower (TrimSpace p2) }
            | none => cmd
          match pieces[3]? with
          | some p3 => { cmd with Obj := TrimSpace p3 }
          | none => cmd

/-- What the `select` of the main loop of `App.Run` receives: a tick, with
the arguments of `NextFrame`; a command from `SnapshotChan`, with the text of
`t.Format` and the answer of `SnapshotNextFrame`; a command from `FrameChan`,
with the answer of `AnnotateNextFrame`; or the end of the context. -/
inductive RunEvent where
  | tick (detect : Int → Detection) (nowCheck nowSent : Time)
  | snapshot (cmd : Cmd) (stamp : String) (answer : Except Error (List Nat))
  | frame (cmd : Cmd) (answer : Except Error (String × List Nat))
  | done

/-- The state of the main loop: the App and the messages sent through the
bots of the cameras, each with the position of its camera. -/
structure RunState where
  app : App
  sent : List (Int × String)
  deriving DecidableEq, Repr

/-- How an iteration of the main loop ends: the loop goes on, or `Run`
returns an error (`none` for nil). -/
inductive RunOutcome where
  | continues (s : RunState)
  | returns (s : RunState) (err : Option Error)
  deriving DecidableEq, Repr

/-- One iteration of the main loop of `App.Run`; `none` is a panic.  The
detector holds one capture for each camera of the App, so it answers for a
position of the camera slice only: `d.Captures[camIndex]` panics for another
index. -/
def Run.step (s : RunState) : RunEvent → Option RunOutcome
  | .tick detect nowCheck nowSent =>
    match NextFrame s.app detect nowCheck nowSent with
    | none => none
    | some (a, err) =>
      if err = some Error.CamStatusInactive then some (.continues { s with app := a })
      else if err ≠ none then some (.returns { s with app := a } err)
      else some (.continues { s with app := a })
  | .snapshot cmd stamp answer =>
    match sliceAt s.app.Cams cmd.CamIndex with
    | none => none
    | some _ =>
      match answer with
      | .error err =>
        if err = Error.CamStatusInactive then
          some (.continues { s with sent := s.sent ++
            [(cmd.CamIndex, "Camera feed is currently inactive, turn it on first")] })
        else some (.returns s (some err))
      | .ok jpegBytes =>
        some (.continues { s with app := { s.app with InfoUploadChan := s.app.InfoUploadChan ++
          [{ CamIndex := cmd.CamIndex, Caption := "Snapshot: " ++ stamp, Data := jpegBytes }] } })
  | .frame cmd answer =>
    match sliceAt s.app.Cams cmd.CamIndex with
    | none => none
    | some _ =>
      match answer with
      | .error err =>
        if err = Error.CamStatusInactive then
          some (.continues { s with sent := s.sent ++
            [(cmd.CamIndex, "Camera feed is currently inactive, turn it on first")] })
        else some (.returns s (some err))
      | .ok (caption, jpegBytes) =>
        some (.continues { s with app := { s.app with InfoUploadChan := s.app.InfoUploadChan ++
          [{ CamIndex := cmd.CamIndex, Caption := caption, Data := jpegBytes }] } })
  | .done => some (.returns s none)

/-! ## Notions the statements use -/

/-- The reason a filter leaves on a box when it is run on a frame holding
that box alone. -/
def reasonFrom (filter : FrameDetectResult → FrameDetectResult) (b : Box) : String :=
  match (filter ⟨[b], []⟩).Boxes with
  | b' :: _ => b'.RejectReason
  | [] => ""

/-- The reasons the four filters produce for a box, each run on its own, in
the order size, orientation, region of interest, confidence. -/
def filterReasons (cam : Cam) (b : Box) : List String :=
  [ reasonFrom (fun f => f.RejectSize cam.MinWidth cam.MinHeight cam.MaxWidth cam.MaxHeight) b,
    reasonFrom (fun f => f.RejectOrientation cam.RequirePortrait) b,
    reasonFrom (fun f => f.RejectOutsideROI cam.ROIRect) b,
    reasonFrom (fun f => f.RejectLowConfidence cam.MinConfidence) b ]

/-- The reason of the first filter, in pipeline order, that rejects the box
(empty when none does). -/
def firstReason (cam : Cam) (b : Box) : String :=
  ((filterReasons cam b).find? (fun r => decide (r ≠ ""))).getD ""

/-- The reason of the last filter, in pipeline order, that rejects the box
(empty when none does). -/
def lastReason (cam : Cam) (b : Box) : String :=
  ((filterReasons cam b).reverse.find? (fun r => decide (r ≠ ""))).getD ""

/-- The box is within every size bound that is not zero. -/
def passesSize (cam : Cam) (b : Box) : Prop :=
  (cam.MinWidth = 0 ∨ cam.MinWidth ≤ b.GetWidth) ∧
  (cam.MinHeight = 0 ∨ cam.MinHeight ≤ b.GetHeight) ∧
  (cam.MaxWidth = 0 ∨ b.GetWidth ≤ cam.MaxWidth) ∧
  (cam.MaxHeight = 0 ∨ b.GetHeight ≤ cam.MaxHeight)

/-- The box is portrait when portrait is required. -/
def passesOrientation (cam : Cam) (b : Box) : Prop :=
  cam.RequirePortrait = false ∨ b.GetWidth < b.GetHeight

/-- The box lies in the region of interest when there is one. -/
def passesROI (cam : Cam) (b : Box) : Prop :=
  ∀ roi, cam.ROIRect = some roi → b.Coords.In roi = true

/-- The box reaches the confidence threshold when it is not zero. -/
def passesConfidence (cam : Cam) (b : Box) : Prop :=
  cam.MinConfidence = 0 ∨ cam.MinConfidence ≤ b.Confidence

/-- The box passes every enabled filter. -/
def passesAll (cam : Cam) (b : Box) : Prop :=
  passesSize cam b ∧ passesOrientation cam b ∧ passesROI cam b ∧ passesConfidence cam b

/-- What the call of `RejectSize` does to one box. -/
def sizeStep (cam : Cam) (b : Box) : Box :=
  RejectSize.body cam.MinWidth cam.MinHeight cam.MaxWidth cam.MaxHeight b

/-- What the call of `RejectOrientation` does to one box. -/
def orientationStep (cam : Cam) (b : Box) : Box :=
  if cam.RequirePortrait then RejectOrientation.body b else b

/-- What the call of `RejectOutsideROI` does to one box. -/
def roiStep (cam : Cam) (b : Box) : Box :=
  match cam.ROIRect with
  | none => b
  | some roi => RejectOutsideROI.body roi b

/-- What the call of `RejectLowConfidence` does to one box. -/
def confidenceStep (cam : Cam) (b : Box) : Box :=
  if cam.MinConfidence = 0 then b else RejectLowConfidence.body cam.MinConfidence b

/-- What the four filter calls do to one box. -/
def filtersBox (cam : Cam) (b : Box) : Box :=
  confidenceStep cam (roiStep cam (orientationStep cam (sizeStep cam b)))

/-- The landscape box of the counterexample to first-match-wins. -/
def wideBox : Box := ⟨"person", 50, GetRect 0 0 300 100, [], ""⟩

/-- A portrait box of 500 by 800 with an empty reason. -/
def tallBox : Box := ⟨"person", 50, GetRect 0 0 500 800, [], ""⟩

/-- A policy with a minimum width of 400 and portrait required. -/
def narrowPortraitCam : Cam :=
  { MaxWidth := 0, MaxHeight := 0, MinWidth := 400, MinHeight := 0,
    RequirePortrait := true, MinConfidence := 15, ROIRect := none }

/-- The frame of `TestRejectSize`: one box of 300 by 300, all else zero. -/
def testFrame : FrameDetectResult := ⟨[⟨"", 0, GetRect 0 0 300 300, [], ""⟩], []⟩

/-- The box with its reject reason cleared. -/
def Box.clearReason (b : Box) : Box := { b with RejectReason := "" }

/-- The update `g` writes at most the reject reason of a box, never an empty
one, and what it writes is decided by the other fields of the box. -/
def ReasonOnly (g : Box → Box) : Prop :=
  ∀ b : Box, g b =
    if (g b.clearReason).RejectReason = "" then b
    else { b with RejectReason := (g b.clearReason).RejectReason }

/-- The lower-case abbreviation that `StrToWeekday` reads for a weekday. -/
def weekdayAbbr : Weekday → String
  | .Sunday => "sun"
  | .Monday => "mon"
  | .Tuesday => "tue"
  | .Wednesday => "wed"
  | .Thursday => "thu"
  | .Friday => "fri"
  | .Saturday => "sat"

/-- The runes with those at the positions marked `true` put in upper case. -/
def upperAt : List Char → List Bool → List Char
  | [], _ => []
  | c :: cs, [] => c :: cs
  | c :: cs, u :: us => (if u then unicodeToTitle c else c) :: upperAt cs us

/-- A spelling of the string in another letter case. -/
def withCase (s : String) (upper : List Bool) : String := ⟨upperAt s.data upper⟩

/-- The cells a parsed schedule entry names: the weekday and hour alone when
both are given, the 24 hours of the weekday when the hour is -1, and the
hour on each of the 7 weekdays when the weekday is nil. -/
def cells (day : Option Weekday) (hour : Int) : List (Weekday × Int) :=
  match day with
  | none => Weekdays.map (fun d => (d, hour))
  | some d => if hour = -1 then hours24.map (fun h => (d, h)) else [(d, hour)]

/-- The keys under which the table stores the cells of a parsed entry. -/
def cellKeys (day : Option Weekday) (hour : Int) : Finset String :=
  ((cells day hour).map (fun c => DayHourToString c.1 c.2)).toFinset

/-- The string is `t` up to the letter case of its runes. -/
def sameLetters (s t : String) : Prop := ∃ upper : List Bool, s = withCase t upper

/-- The time of the last overview of the camera at an index. -/
def lastOverview (a : App) (camIndex : Int) : Option Time :=
  (sliceAt a.Cams camIndex).map (fun cam => cam.LastOverviewSent)

/-- One call of `maybeSendOverview` in a run of the program: what the rest of
the program did to the state since the previous call, the frame, and the two
clock readings of the call. -/
structure OverviewCall where
  before : App → App
  jpegBytes : List Nat
  nowCheck : Time
  nowSent : Time

/-- The times `nowSent`, in order, of those calls of `maybeSendOverview` for
one camera, in a run of such calls, that put a job on the alert channel. -/
def overviewStamps (camIndex : Int) : App → List OverviewCall → List Time
  | _, [] => []
  | a, c :: cs =>
    match maybeSendOverview (c.before a) camIndex c.jpegBytes c.nowCheck c.nowSent with
    | none => []
    | some a' =>
      if a'.AlertUploadChan.length > (c.before a).AlertUploadChan.length then
        c.nowSent :: overviewStamps camIndex a' cs
      else overviewStamps camIndex a' cs

/-- One tick of the main loop: the answers of the detector and the clock
readings. -/
structure Tick where
  detect : Int → Detection
  nowCheck : Time
  nowSent : Time

/-- The round-robin indices that successive calls of `NextFrame` select. -/
def selectedCams : App → List Tick → List Int
  | _, [] => []
  | a, t :: ts =>
    match NextFrame a t.detect t.nowCheck t.nowSent with
    | none => []
    | some (a', _) => a'.RoundRobin :: selectedCams a' ts

/-- Consecutive calls of `TakeFrameBuckets` with no time elapsing between
them: the camera after the last call and the results in order. -/
def takeRepeatedly : Nat → Cam → Cam × List Bool
  | 0, c => (c, [])
  | n + 1, c =>
    let (c, r) := c.TakeFrameBuckets
    let (c, rs) := takeRepeatedly n c
    (c, r :: rs)

/-- The alert job of a hit box. -/
def boxJob (cam : Cam) (box : Box) : UploadJob :=
  { CamIndex := cam.Index, Caption := box.LabelConfidence, Data := box.JPEGBytes }

/-- A configuration with no crop, no region of interest and no bounds. -/
def plainConfig : Config :=
  { Name := "yard", Index := 0, MaxWidth := 0, MaxHeight := 0, MinWidth := 0, MinHeight := 0,
    RequirePortrait := false, MinConfidence := 15, SendRejected := false,
    CropX := 0, CropY := 0, CropWidth := 0, CropHeight := 0,
    ROIX := 0, ROIY := 0, ROIWidth := 0, ROIHeight := 0 }

/-- The camera that `New` builds from `plainConfig` at the instant 1000 s. -/
def plainCam : Cam :=
  { MaxWidth := 0, MaxHeight := 0, MinWidth := 0, MinHeight := 0, RequirePortrait := false,
    MinConfidence := 15, ROIRect := none, Name := "yard", Index := 0,
    LastOverviewSent := ⟨990 * Second, 0⟩ }

/-- Every camera's `Index` is an index of the slice of cameras, as it is
when the cameras are numbered in the order of the slice. -/
def camsIndexed (a : App) : Prop :=
  ∀ cam ∈ a.Cams, 0 ≤ cam.Index ∧ cam.Index < a.Cams.length

/-- The frame cycle's writes to the cameras leave these fields alone. -/
def camKey (c : Cam) : Int × Bool := (c.Index, c.active)

/-- The state `b` comes from `a` by writes to buckets, overview times and
channels only. -/
def sameCams (a b : App) : Prop :=
  b.RoundRobin = a.RoundRobin ∧ b.DetectorAsked = a.DetectorAsked ∧
    b.Cams.map camKey = a.Cams.map camKey

/-- The camera `plainCam` switched on. -/
def activeCam : Cam := { plainCam with active := true }

/-- The state with the one camera `activeCam`. -/
def plainApp : App :=
  { Cams := [activeCam], RoundRobin := 0, AlertUploadChan := [],
    InfoUploadChan := [], DetectorAsked := [] }

/-- A frame with one box, `tallBox` with an image; every filter of
`plainCam` lets it pass. -/
def oneHitFrame : FrameDetectResult :=
  { Boxes := [{ tallBox with JPEGBytes := [1] }], JPEGBytes := [9] }

/-- The state that `main` builds from a configuration with a `camera1` and no
`camera0`: one camera, at position 0 of the slice, whose `Index` is 1. -/
def gapApp : App :=
  { Cams := [{ activeCam with Index := 1 }], RoundRobin := 0, AlertUploadChan := [],
    InfoUploadChan := [], DetectorAsked := [] }

/-- The state that `main` builds from a configuration with a `camera1` and a
`camera2` and no `camera0`: two cameras, at the positions 0 and 1 of the
slice, whose `Index` is 1 and 2; the round-robin index is at the last one. -/
def gapTwoApp : App :=
  { Cams := [{ activeCam with Name := "one", Index := 1 },
      { activeCam with Name := "two", Index := 2 }],
    RoundRobin := 1, AlertUploadChan := [], InfoUploadChan := [], DetectorAsked := [] }

/-- Three cameras numbered in the order of the slice, the middle one
switched off, with the round-robin index at the middle one. -/
def threeCams : App :=
  { Cams := [activeCam, { plainCam with Index := 1 }, { activeCam with Index := 2 }],
    RoundRobin := 1, AlertUploadChan := [], InfoUploadChan := [], DetectorAsked := [] }

/-- The error that `NextFrameFromCam` hands back for an answer of the
detector: the detector's error, or nil. -/
def returnedError (d : Detection) : Option Error :=
  match d with
  | .error err => some err
  | .ok _ => none

/-- A detector that finds nothing in any frame. -/
def detectNothing : Int → Detection := fun _ => .ok none

/-- A detector that answers `oneHitFrame` for every camera. -/
def detectOneHit : Int → Detection := fun _ => .ok (some oneHitFrame)

/-- The job that `NextFrameFromCam` puts on the informational channel for a
rejected box. -/
def rejectedJob (cam : Cam) (box : Box) : UploadJob :=
  { CamIndex := cam.Index, Caption := box.RejectReason, Data := box.JPEGBytes }

/-- The camera `activeCam` with a minimum width of 600 that forwards rejected
boxes. -/
def forwardingCam : Cam := { activeCam with MinWidth := 600, SendRejected := true }

/-- The state with the one camera `forwardingCam`. -/
def forwardingApp : App := { plainApp with Cams := [forwardingCam] }

/-- The answers of `SchedActiveNow` when the camera at position `i` has the
store `stores[i]` and the clock reads `now` at every call. -/
def readStores (stores : List Schedule) (now : Time) : Nat → Bool × Option String :=
  fun i =>
    match stores[i]? with
    | some s => (IsActiveNow s now).2
    | none => (false, some "no store")

/-- The flag that `SchedActiveNow` returns differs from the flag of the
camera at a position. -/
def flagDiffers (schedActiveNow : Nat → Bool × Option String) (p : Nat × Cam) : Bool :=
  (schedActiveNow p.1).1 != p.2.active

/-- The message of `checkModeSwitch` for the camera at a position. -/
def stateMessage (schedActiveNow : Nat → Bool × Option String) (p : Nat × Cam) :
    Nat × String :=
  (p.1, if (schedActiveNow p.1).1 then "Detector changed state: ON"
    else "Detector changed state: OFF")

/-- The region of interest, taken relative to the origin of the crop image,
lies inside the crop image (0,0)-(CropWidth, CropHeight). -/
def roiInsideCrop (config : Config) : Prop :=
  0 ≤ config.ROIX ∧ 0 ≤ config.ROIY ∧
    config.ROIX + config.ROIWidth ≤ config.CropWidth ∧
    config.ROIY + config.ROIHeight ≤ config.CropHeight

instance (config : Config) : Decidable (roiInsideCrop config) := by
  unfold roiInsideCrop; infer_instance

/-- The function New returned a camera: no panic and no error. -/
def returnsCamera (r : Option (Except String Cam)) : Bool :=
  match r with
  | some (.ok _) => true
  | _ => false

/-- The function New returned an error. -/
def returnsError (r : Option (Except String Cam)) : Bool :=
  match r with
  | some (.error _) => true
  | _ => false

/-- The corner `(x, y)` and the opposite corner `(x + w, y + h)` are values
of a 64-bit `int`, and so are the sides. -/
def rectInRange (x y w h : Int) : Prop :=
  -2 ^ 63 ≤ x ∧ -2 ^ 63 ≤ y ∧ w < 2 ^ 63 ∧ h < 2 ^ 63 ∧ x + w < 2 ^ 63 ∧ y + h < 2 ^ 63

/-- A crop of 100 by 100 and a region of interest of 50 by 50 placed at
(90, 90) of the crop image. -/
def offsetRoiConfig : Config :=
  { plainConfig with
    CropX := 0, CropY := 0, CropWidth := 100, CropHeight := 100,
    ROIX := 90, ROIY := 90, ROIWidth := 50, ROIHeight := 50 }

/-- A region of interest of 20 by 20 and no crop. -/
def roiOnlyConfig : Config := { plainConfig with ROIWidth := 20, ROIHeight := 20 }

/-- A box 30 wide and 10 high. -/
def flatBox : Box := ⟨"person", 50, GetRect 0 0 30 10, [], ""⟩

/-- The command with every field empty, the zero value of `jobs.Cmd`. -/
def emptyCmd : Cmd := { CamIndex := 0, Noun := "", Verb := "", Obj := "" }

/-- The piece at a position of a list of pieces, empty when there is none. -/
def pieceAt (pieces : List String) (i : Nat) : String := pieces.getD i ""

/-! # Theorems -/

/-! ## Reject reasons are written, never merged -/

theorem str_append_ne_empty {a : String} (b : String) (h : a ≠ "") : a ++ b ≠ "" := by
  intro hab
  apply h
  have h1 := congrArg String.data hab
  rw [String.data_append] at h1
  apply String.ext
  simp at h1
  simp [h1.1]

theorem filters_eq_map (cam : Cam) (f : FrameDetectResult) :
    NextFrameFromCam.filters cam f = { f with Boxes := f.Boxes.map (filtersBox cam) } := by
  obtain ⟨bs, jp⟩ := f
  simp only [NextFrameFromCam.filters, FrameDetectResult.RejectSize,
    FrameDetectResult.RejectOrientation, FrameDetectResult.RejectOutsideROI,
    FrameDetectResult.RejectLowConfidence]
  rcases hp : cam.RequirePortrait <;> rcases hr : cam.ROIRect with _ | roi <;>
    by_cases hc : cam.MinConfidence = 0 <;>
    simp [hp, hr, hc, filtersBox, sizeStep, orientationStep, roiStep, confidenceStep,
      Function.comp_def]

theorem width_msg_ne (x y : String) : "Rejected width: " ++ x ++ ", " ++ y ≠ "" :=
  str_append_ne_empty _ (str_append_ne_empty _ (str_append_ne_empty _ (by decide)))

theorem height_msg_ne (x y : String) : "Rejected height: " ++ x ++ ", " ++ y ≠ "" :=
  str_append_ne_empty _ (str_append_ne_empty _ (str_append_ne_empty _ (by decide)))

theorem landscape_msg_ne (x y z : String) :
    "Rejected landscape: " ++ x ++ " > " ++ y ++ ", " ++ z ≠ "" :=
  str_append_ne_empty _ (str_append_ne_empty _ (str_append_ne_empty _
    (str_append_ne_empty _ (str_append_ne_empty _ (by decide)))))

theorem bounds_msg_ne (x y z : String) :
    "Rejected bounds: " ++ x ++ " outside ROI: " ++ y ++ ", " ++ z ≠ "" :=
  str_append_ne_empty _ (str_append_ne_empty _ (str_append_ne_empty _
    (str_append_ne_empty _ (str_append_ne_empty _ (by decide)))))

theorem confidence_msg_ne (x y z : String) :
    "Rejected confidence: " ++ x ++ " below threshold: " ++ y ++ ", " ++ z ≠ "" :=
  str_append_ne_empty _ (str_append_ne_empty _ (str_append_ne_empty _
    (str_append_ne_empty _ (str_append_ne_empty _ (by decide)))))

theorem reasonOnly_id : ReasonOnly (fun b => b) := by
  intro b
  simp [Box.clearReason]

theorem reasonOnly_orientation : ReasonOnly RejectOrientation.body := by
  intro b
  simp only [RejectOrientation.body, Box.IsPortrait, Box.GetWidth, Box.GetHeight,
    Box.LabelConfidence, Box.LabelPretty, Box.clearReason]
  split_ifs <;> simp_all [landscape_msg_ne]

theorem reasonOnly_roi (roi : Rectangle) : ReasonOnly (RejectOutsideROI.body roi) := by
  intro b
  simp only [RejectOutsideROI.body, Box.LabelConfidence, Box.LabelPretty, Box.clearReason]
  split_ifs <;> simp_all [bounds_msg_ne]

theorem reasonOnly_confidence (mc : Int) : ReasonOnly (RejectLowConfidence.body mc) := by
  intro b
  simp only [RejectLowConfidence.body, Box.LabelConfidence, Box.LabelPretty, Box.clearReason]
  split_ifs <;> simp_all [confidence_msg_ne]

theorem reasonOnly_size (a b c d : Int) : ReasonOnly (RejectSize.body a b c d) := by
  intro box
  simp only [RejectSize.body, Box.GetWidth, Box.GetHeight,
    Box.LabelConfidence, Box.LabelPretty, Box.clearReason]
  split_ifs <;> simp_all [width_msg_ne, height_msg_ne]

theorem ReasonOnly.clear {g : Box → Box} (hg : ReasonOnly g) (b : Box) :
    (g b).clearReason = b.clearReason := by
  rw [hg b]
  split_ifs <;> rfl

theorem ReasonOnly.reason {g : Box → Box} (hg : ReasonOnly g) (b : Box) :
    (g b).RejectReason =
      if (g b.clearReason).RejectReason = "" then b.RejectReason
      else (g b.clearReason).RejectReason := by
  conv_lhs => rw [hg b]
  split_ifs <;> rfl

theorem ReasonOnly.comp {g g' : Box → Box} (hg : ReasonOnly g) (hg' : ReasonOnly g') :
    ReasonOnly (fun b => g' (g b)) := by
  intro b
  have h1 := hg' (g b)
  have h2 := hg' (g b.clearReason)
  have c1 := hg.clear b
  have c2 := hg.clear b.clearReason
  have e : b.clearReason.clearReason = b.clearReason := rfl
  rw [c1] at h1
  rw [c2, e] at h2
  have h3 := hg b
  simp only
  by_cases hm' : (g' b.clearReason).RejectReason = ""
  · rw [if_pos hm'] at h1 h2
    rw [h1, h2]
    exact h3
  · rw [if_neg hm'] at h1 h2
    rw [h1, h2]
    simp only [hm', if_false]
    rw [h3]
    split_ifs <;> rfl

theorem ReasonOnly.idem {g : Box → Box} (hg : ReasonOnly g) (b : Box) : g (g b) = g b := by
  have h1 := hg (g b)
  rw [hg.clear b] at h1
  rw [h1]
  have h2 := hg b
  by_cases hm : (g b.clearReason).RejectReason = ""
  · simp [hm]
  · simp only [hm, if_false]
    conv_rhs => rw [h2]
    simp only [hm, if_false]
    rw [h2]
    simp [hm]

theorem reasonOnly_sizeStep (cam : Cam) : ReasonOnly (sizeStep cam) :=
  reasonOnly_size _ _ _ _

theorem reasonOnly_orientationStep (cam : Cam) : ReasonOnly (orientationStep cam) := by
  intro b
  unfold orientationStep
  cases cam.RequirePortrait
  · exact reasonOnly_id b
  · exact reasonOnly_orientation b

theorem reasonOnly_roiStep (cam : Cam) : ReasonOnly (roiStep cam) := by
  intro b
  unfold roiStep
  cases cam.ROIRect with
  | none => exact reasonOnly_id b
  | some roi => exact reasonOnly_roi roi b

theorem reasonOnly_confidenceStep (cam : Cam) : ReasonOnly (confidenceStep cam) := by
  intro b
  unfold confidenceStep
  by_cases hc : cam.MinConfidence = 0
  · simp only [hc, if_true]
    exact reasonOnly_id b
  · simp only [hc, if_false]
    exact reasonOnly_confidence _ b

theorem reasonOnly_filtersBox (cam : Cam) : ReasonOnly (filtersBox cam) :=
  (((reasonOnly_sizeStep cam).comp (reasonOnly_orientationStep cam)).comp
    (reasonOnly_roiStep cam)).comp (reasonOnly_confidenceStep cam)

theorem clearReason_of_empty {b : Box} (h : b.RejectReason = "") : b.clearReason = b := by
  obtain ⟨l, c, r, j, rr⟩ := b
  simp only at h
  subst h
  rfl

theorem filterReasons_eq (cam : Cam) (b : Box) :
    filterReasons cam b =
      [(sizeStep cam b).RejectReason, (orientationStep cam b).RejectReason,
       (roiStep cam b).RejectReason, (confidenceStep cam b).RejectReason] := by
  simp only [filterReasons, reasonFrom, FrameDetectResult.RejectSize,
    FrameDetectResult.RejectOrientation, FrameDetectResult.RejectOutsideROI,
    FrameDetectResult.RejectLowConfidence, sizeStep, orientationStep, roiStep, confidenceStep]
  cases cam.RequirePortrait <;> cases cam.ROIRect <;>
    by_cases hc : cam.MinConfidence = 0 <;> simp [hc]

/-- Reason after the four steps, for a box that starts unrejected: each step
that rejects overwrites what the earlier ones wrote. -/
theorem filtersBox_reason (cam : Cam) (b : Box) (h : b.RejectReason = "") :
    (filtersBox cam b).RejectReason =
      if (confidenceStep cam b).RejectReason ≠ "" then (confidenceStep cam b).RejectReason
      else if (roiStep cam b).RejectReason ≠ "" then (roiStep cam b).RejectReason
      else if (orientationStep cam b).RejectReason ≠ "" then (orientationStep cam b).RejectReason
      else (sizeStep cam b).RejectReason := by
  have hb := clearReason_of_empty h
  have s1 := reasonOnly_sizeStep cam
  have s2 := reasonOnly_orientationStep cam
  have s3 := reasonOnly_roiStep cam
  have s4 := reasonOnly_confidenceStep cam
  have c1 : (sizeStep cam b).clearReason = b := by rw [s1.clear, hb]
  have c2 : (orientationStep cam (sizeStep cam b)).clearReason = b := by rw [s2.clear, c1]
  have c3 : (roiStep cam (orientationStep cam (sizeStep cam b))).clearReason = b := by
    rw [s3.clear, c2]
  unfold filtersBox
  rw [s4.reason, c3, s3.reason, c2, s2.reason, c1]
  split_ifs <;> simp_all

theorem filtersBox_reason_last (cam : Cam) (b : Box) (h : b.RejectReason = "") :
    (filtersBox cam b).RejectReason = lastReason cam b := by
  rw [filtersBox_reason cam b h, lastReason, filterReasons_eq]
  simp only [List.reverse_cons, List.reverse_nil, List.nil_append, List.cons_append,
    List.find?]
  by_cases h4 : (confidenceStep cam b).RejectReason = "" <;>
  by_cases h3 : (roiStep cam b).RejectReason = "" <;>
  by_cases h2 : (orientationStep cam b).RejectReason = "" <;>
  by_cases h1 : (sizeStep cam b).RejectReason = "" <;>
  simp [h1, h2, h3, h4]

theorem sizeStep_empty_iff (cam : Cam) (b : Box) (h : b.RejectReason = "") :
    (sizeStep cam b).RejectReason = "" ↔ passesSize cam b := by
  simp only [sizeStep, RejectSize.body, passesSize]
  split_ifs with h1 h2 h3 h4
  · simp only [width_msg_ne, false_iff]
    omega
  · simp only [height_msg_ne, false_iff]
    omega
  · simp only [width_msg_ne, false_iff]
    omega
  · simp only [height_msg_ne, false_iff]
    omega
  · simp only [h, true_iff]
    omega

theorem orientationStep_empty_iff (cam : Cam) (b : Box) (h : b.RejectReason = "") :
    (orientationStep cam b).RejectReason = "" ↔ passesOrientation cam b := by
  simp only [orientationStep, RejectOrientation.body, passesOrientation, Box.IsPortrait]
  cases cam.RequirePortrait
  · simp [h]
  · by_cases hp : b.GetWidth < b.GetHeight <;> simp [hp, h, landscape_msg_ne]

theorem roiStep_empty_iff (cam : Cam) (b : Box) (h : b.RejectReason = "") :
    (roiStep cam b).RejectReason = "" ↔ passesROI cam b := by
  simp only [roiStep, RejectOutsideROI.body, passesROI]
  cases cam.ROIRect with
  | none => simp [h]
  | some roi => cases hin : b.Coords.In roi <;> simp [hin, h, bounds_msg_ne]

theorem confidenceStep_empty_iff (cam : Cam) (b : Box) (h : b.RejectReason = "") :
    (confidenceStep cam b).RejectReason = "" ↔ passesConfidence cam b := by
  simp only [confidenceStep, RejectLowConfidence.body, passesConfidence]
  by_cases hc : cam.MinConfidence = 0
  · simp [hc, h]
  · by_cases hl : b.Confidence < cam.MinConfidence
    · simp only [hc, hl, if_true, if_false, confidence_msg_ne, false_iff, false_or]
      omega
    · simp only [hc, hl, if_false, h, true_iff, false_or]
      omega

theorem filtersBox_empty_iff (cam : Cam) (b : Box) (h : b.RejectReason = "") :
    (filtersBox cam b).RejectReason = "" ↔ passesAll cam b := by
  rw [filtersBox_reason cam b h, passesAll, ← sizeStep_empty_iff cam b h,
    ← orientationStep_empty_iff cam b h, ← roiStep_empty_iff cam b h,
    ← confidenceStep_empty_iff cam b h]
  split_ifs <;> simp_all

/-! ## C1: which filter's reason a box carries -/

/-- C1, as stated, fails.  A landscape box of 300 by 100 with an empty
reason, under a policy with minimum width 400 and portrait required, is
rejected by the size filter first, yet it ends with the reason of the
orientation filter, which ran later and overwrote it. -/
theorem first_match_wins_fails :
    wideBox.RejectReason = "" ∧
    (NextFrameFromCam.filters narrowPortraitCam ⟨[wideBox], []⟩).Boxes.map
        (fun b => b.RejectReason) = ["Rejected landscape: 300 > 100, Person: 50%"] ∧
    [wideBox].map (firstReason narrowPortraitCam) = ["Rejected width: 300, Person: 50%"] ∧
    (NextFrameFromCam.filters narrowPortraitCam ⟨[wideBox], []⟩).Boxes.map
        (fun b => b.RejectReason) ≠ [wideBox].map (firstReason narrowPortraitCam) := by
  decide!

/-- C1, amended: for every box that starts with an empty RejectReason and
every camera policy, after the four filter calls of NextFrameFromCam the
box carries the reason of the last filter, in the order size, orientation,
region of interest, confidence, that rejects it (the empty reason when none
does): a later filter that rejects the box overwrites the reason of an
earlier one. -/
theorem filters_last_match_wins (cam : Cam) (f : FrameDetectResult) :
    List.Forall₂ (fun b b' => b.RejectReason = "" → b'.RejectReason = lastReason cam b)
      f.Boxes (NextFrameFromCam.filters cam f).Boxes := by
  rw [filters_eq_map]
  simp only [List.forall₂_map_right_iff, List.forall₂_same]
  intro b _ hb
  exact filtersBox_reason_last cam b hb

theorem filters_last_match_wins_witness :
    List.Forall₂ (fun b b' => b.RejectReason = "" →
        b'.RejectReason = lastReason narrowPortraitCam b)
      [wideBox] (NextFrameFromCam.filters narrowPortraitCam ⟨[wideBox], []⟩).Boxes ∧
    wideBox.RejectReason = "" ∧
    lastReason narrowPortraitCam wideBox = "Rejected landscape: 300 > 100, Person: 50%" :=
  ⟨filters_last_match_wins narrowPortraitCam ⟨[wideBox], []⟩, by decide, by decide!⟩

/-! ## C2: hits are the boxes that pass every enabled filter -/

/-- C2: for every box that starts with an empty RejectReason and every
policy, after the four filters the box has an empty reason if and only if
it passes every enabled filter; a zero bound, requirePortrait = false and a
nil region of interest switch the corresponding constraint off. -/
theorem filters_empty_iff_passes (cam : Cam) (f : FrameDetectResult) :
    List.Forall₂
      (fun b b' => b.RejectReason = "" → (b'.RejectReason = "" ↔ passesAll cam b))
      f.Boxes (NextFrameFromCam.filters cam f).Boxes := by
  rw [filters_eq_map]
  simp only [List.forall₂_map_right_iff, List.forall₂_same]
  intro b _ hb
  exact filtersBox_empty_iff cam b hb

theorem filters_empty_iff_passes_witness :
    List.Forall₂
      (fun b b' => b.RejectReason = "" →
        (b'.RejectReason = "" ↔ passesAll narrowPortraitCam b))
      [wideBox, tallBox]
      (NextFrameFromCam.filters narrowPortraitCam ⟨[wideBox, tallBox], []⟩).Boxes ∧
    (NextFrameFromCam.filters narrowPortraitCam ⟨[wideBox, tallBox], []⟩).Boxes.map
      (fun b => b.RejectReason) = ["Rejected landscape: 300 > 100, Person: 50%", ""] :=
  ⟨filters_empty_iff_passes narrowPortraitCam ⟨[wideBox, tallBox], []⟩, by decide!⟩

/-! ## C3: running the filters twice -/

/-- C3: the rejection pipeline is idempotent.  For every frame and every
policy (whatever the initial reasons, so in particular when they are empty)
a second run of the four filters with the same policy returns the frame of
the first run: every box keeps the reason it had after the first run. -/
theorem filters_idempotent (cam : Cam) (f : FrameDetectResult) :
    NextFrameFromCam.filters cam (NextFrameFromCam.filters cam f) =
      NextFrameFromCam.filters cam f := by
  rw [filters_eq_map cam f, filters_eq_map]
  simp only [List.map_map]
  congr 1
  apply List.map_congr_left
  intro b _
  exact (reasonOnly_filtersBox cam).idem b

/-! ## C4: the allow-list of labels -/

theorem parseAlerts_found_eq (label : String) (labels : List String) :
    ParseAlerts.found label labels = decide (label ∈ labels) := by
  induction labels with
  | nil => simp [ParseAlerts.found]
  | cons l ls ih =>
    by_cases h : label = l
    · simp [ParseAlerts.found, h]
    · simp [ParseAlerts.found, h, ih]

theorem parseAlerts_loop_eq (labels : List String) (boxes result : List Box) :
    ParseAlerts.loop labels boxes result =
      result ++ boxes.filter (fun b => decide (b.Label ∈ labels)) := by
  induction boxes generalizing result with
  | nil => simp [ParseAlerts.loop]
  | cons b bs ih =>
    by_cases h : b.Label ∈ labels
    · simp [ParseAlerts.loop, parseAlerts_found_eq, h, ih]
    · simp [ParseAlerts.loop, parseAlerts_found_eq, h, ih]

/-- C4: for every frame and every allow-list, ParseAlerts replaces Boxes by
the boxes whose Label is in the allow-list, in their original order and
unchanged in every field (the retained boxes are the same values, so their
reject reasons are untouched); a box whose label is not listed is absent
from the result rather than marked rejected, the frame image is kept, and
the empty allow-list removes every box. -/
theorem parseAlerts_keeps_listed (f : FrameDetectResult) (alertLabels : List String) :
    (f.ParseAlerts alertLabels).Boxes =
        f.Boxes.filter (fun b => decide (b.Label ∈ alertLabels)) ∧
      (f.ParseAlerts alertLabels).Boxes.Sublist f.Boxes ∧
      (∀ b, b ∈ (f.ParseAlerts alertLabels).Boxes ↔ b ∈ f.Boxes ∧ b.Label ∈ alertLabels) ∧
      (f.ParseAlerts alertLabels).JPEGBytes = f.JPEGBytes ∧
      (f.ParseAlerts []).Boxes = [] := by
  have e : ∀ ls, (f.ParseAlerts ls).Boxes = f.Boxes.filter (fun b => decide (b.Label ∈ ls)) := by
    intro ls
    simp [FrameDetectResult.ParseAlerts, parseAlerts_loop_eq]
  refine ⟨e _, ?_, ?_, rfl, ?_⟩
  · rw [e]
    exact List.filter_sublist _
  · intro b
    rw [e]
    simp [List.mem_filter]
  · rw [e]
    simp

/-! ## C5: hits and rejected boxes -/

theorem hitBoxes_loop_eq (boxes ret : List Box) :
    HitBoxes.loop boxes ret = ret ++ boxes.filter (fun b => decide (b.RejectReason = "")) := by
  induction boxes generalizing ret with
  | nil => simp [HitBoxes.loop]
  | cons b bs ih =>
    by_cases h : b.RejectReason = ""
    · simp [HitBoxes.loop, h, ih]
    · simp [HitBoxes.loop, h, ih]

theorem rejectedBoxes_loop_eq (boxes ret : List Box) :
    RejectedBoxes.loop boxes ret =
      ret ++ boxes.filter (fun b => decide (b.RejectReason ≠ "")) := by
  induction boxes generalizing ret with
  | nil => simp [RejectedBoxes.loop]
  | cons b bs ih =>
    by_cases h : b.RejectReason = ""
    · simp [RejectedBoxes.loop, h, ih]
    · simp [RejectedBoxes.loop, h, ih]

theorem filter_length_add (boxes : List Box) :
    (boxes.filter (fun b => decide (b.RejectReason = ""))).length +
      (boxes.filter (fun b => decide (b.RejectReason ≠ ""))).length = boxes.length := by
  induction boxes with
  | nil => rfl
  | cons b bs ih =>
    by_cases h : b.RejectReason = ""
    · simp [h] at ih ⊢
      omega
    · simp [h] at ih ⊢
      omega

/-- C5: for every frame, HitBoxes is the boxes with an empty reason and
RejectedBoxes the boxes with a non-empty reason, both in the original
order; every box of the frame is in exactly one of the two, and the two
lengths add up to the number of boxes. -/
theorem hit_rejected_partition (f : FrameDetectResult) :
    f.HitBoxes = f.Boxes.filter (fun b => decide (b.RejectReason = "")) ∧
      f.RejectedBoxes = f.Boxes.filter (fun b => decide (b.RejectReason ≠ "")) ∧
      f.HitBoxes.Sublist f.Boxes ∧ f.RejectedBoxes.Sublist f.Boxes ∧
      (∀ b ∈ f.Boxes, (b ∈ f.HitBoxes ∧ b ∉ f.RejectedBoxes) ∨
        (b ∉ f.HitBoxes ∧ b ∈ f.RejectedBoxes)) ∧
      (∀ b, b ∈ f.HitBoxes ∨ b ∈ f.RejectedBoxes → b ∈ f.Boxes) ∧
      f.HitBoxes.length + f.RejectedBoxes.length = f.Boxes.length := by
  have eh : f.HitBoxes = f.Boxes.filter (fun b => decide (b.RejectReason = "")) := by
    simp [FrameDetectResult.HitBoxes, hitBoxes_loop_eq]
  have er : f.RejectedBoxes = f.Boxes.filter (fun b => decide (b.RejectReason ≠ "")) := by
    simp [FrameDetectResult.RejectedBoxes, rejectedBoxes_loop_eq]
  refine ⟨eh, er, ?_, ?_, ?_, ?_, ?_⟩
  · rw [eh]
    exact List.filter_sublist _
  · rw [er]
    exact List.filter_sublist _
  · intro b hb
    rw [eh, er]
    by_cases h : b.RejectReason = "" <;> simp [List.mem_filter, hb, h]
  · intro b
    rw [eh, er]
    simp only [List.mem_filter]
    rintro (h | h) <;> exact h.1
  · rw [eh, er]
    exact filter_length_add _

/-! ## C6: the word in the reason of RejectSize -/

theorem contains_width (x y : String) :
    Contains ("Rejected width: " ++ x ++ ", " ++ y) "width" := by
  have e : "Rejected width: " = "Rejected " ++ "width" ++ ": " := by decide
  rw [e]
  exact ⟨"Rejected ".data, ": ".data ++ x.data ++ ", ".data ++ y.data, by
    simp [String.data_append, List.append_assoc]⟩

theorem contains_height (x y : String) :
    Contains ("Rejected height: " ++ x ++ ", " ++ y) "height" := by
  have e : "Rejected height: " = "Rejected " ++ "height" ++ ": " := by decide
  rw [e]
  exact ⟨"Rejected ".data, ": ".data ++ x.data ++ ", ".data ++ y.data, by
    simp [String.data_append, List.append_assoc]⟩

/-- C6: for every frame and every non-zero bound m, a call of RejectSize
with m as its only non-zero bound leaves on every box that violates the
bound a reason containing "width" when the bound is minWidth or maxWidth
and "height" when it is minHeight or maxHeight, whatever reason the box
had before. -/
theorem rejectSize_names_bound (f : FrameDetectResult) (m : Int) (hm : m ≠ 0) :
    List.Forall₂ (fun b b' => b.GetWidth < m → Contains b'.RejectReason "width")
        f.Boxes (f.RejectSize m 0 0 0).Boxes ∧
      List.Forall₂ (fun b b' => b.GetHeight < m → Contains b'.RejectReason "height")
        f.Boxes (f.RejectSize 0 m 0 0).Boxes ∧
      List.Forall₂ (fun b b' => b.GetWidth > m → Contains b'.RejectReason "width")
        f.Boxes (f.RejectSize 0 0 m 0).Boxes ∧
      List.Forall₂ (fun b b' => b.GetHeight > m → Contains b'.RejectReason "height")
        f.Boxes (f.RejectSize 0 0 0 m).Boxes := by
  simp only [FrameDetectResult.RejectSize, List.forall₂_map_right_iff, List.forall₂_same]
  refine ⟨?_, ?_, ?_, ?_⟩ <;> intro b _ hv <;>
    simp only [RejectSize.body, hm, hv, ne_eq, not_true_eq_false, not_false_eq_true,
      false_and, true_and, and_self, if_true, if_false] <;>
    first | exact contains_width _ _ | exact contains_height _ _

/-- The four calls of TestRejectSize, each on the frame the previous call
left, and the reasons they leave on its 300 by 300 box. -/
theorem rejectSize_names_bound_witness :
    (200 : Int) ≠ 0 ∧ (400 : Int) ≠ 0 ∧
    List.Forall₂ (fun b b' => b.GetWidth > 200 → Contains b'.RejectReason "width")
      testFrame.Boxes (testFrame.RejectSize 0 0 200 0).Boxes ∧
    List.Forall₂ (fun b b' => b.GetHeight > 200 → Contains b'.RejectReason "height")
      (testFrame.RejectSize 0 0 200 0).Boxes
      ((testFrame.RejectSize 0 0 200 0).RejectSize 0 0 0 200).Boxes ∧
    List.Forall₂ (fun b b' => b.GetWidth < 400 → Contains b'.RejectReason "width")
      testFrame.Boxes (testFrame.RejectSize 400 0 0 0).Boxes ∧
    List.Forall₂ (fun b b' => b.GetHeight < 400 → Contains b'.RejectReason "height")
      testFrame.Boxes (testFrame.RejectSize 0 400 0 0).Boxes ∧
    (testFrame.RejectSize 0 0 200 0).Boxes.map (fun b => b.RejectReason) =
      ["Rejected width: 300, : 0%"] ∧
    ((testFrame.RejectSize 0 0 200 0).RejectSize 0 0 0 200).Boxes.map
      (fun b => b.RejectReason) = ["Rejected height: 300, : 0%"] :=
  ⟨by decide, by decide,
    (rejectSize_names_bound testFrame 200 (by decide)).2.2.1,
    (rejectSize_names_bound (testFrame.RejectSize 0 0 200 0) 200 (by decide)).2.2.2,
    (rejectSize_names_bound testFrame 400 (by decide)).1,
    (rejectSize_names_bound testFrame 400 (by decide)).2.1,
    by decide!, by decide!⟩

/-! ## Decimal digits -/

theorem digitVal_digitChar (d : Nat) (hd : d < 10) : digitVal (Nat.digitChar d) = some d := by
  interval_cases d <;> rfl

theorem parseDigits_toDigitsCore (fuel : Nat) :
    ∀ (n : Nat) (acc : List Char) (k : Nat), n < fuel →
      ∃ m, parseDigits (Nat.toDigitsCore 10 fuel n acc) k = parseDigits acc (k * 10 ^ m + n) := by
  induction fuel with
  | zero => intro n acc k hn; omega
  | succ fuel ih =>
    intro n acc k hn
    have hd := digitVal_digitChar (n % 10) (Nat.mod_lt _ (by decide))
    by_cases h0 : n / 10 = 0
    · refine ⟨1, ?_⟩
      simp only [Nat.toDigitsCore, h0, if_true, parseDigits, hd, pow_one]
      congr 1
      omega
    · obtain ⟨m, hm⟩ := ih (n / 10) (Nat.digitChar (n % 10) :: acc) k (by omega)
      refine ⟨m + 1, ?_⟩
      simp only [Nat.toDigitsCore, h0, if_false, hm, parseDigits, hd, pow_succ]
      congr 1
      have := Nat.div_add_mod n 10
      ring_nf
      omega

theorem parseDigits_repr (n : Nat) : parseDigits (Nat.repr n).data 0 = some n := by
  obtain ⟨m, hm⟩ := parseDigits_toDigitsCore (n + 1) n [] 0 (by omega)
  simpa [parseDigits] using hm

theorem toDigitsCore_digits (fuel : Nat) :
    ∀ (n : Nat) (acc : List Char), ∀ c ∈ Nat.toDigitsCore 10 fuel n acc,
      c ∈ acc ∨ (48 ≤ c.toNat ∧ c.toNat ≤ 57) := by
  induction fuel with
  | zero => intro n acc c hc; left; simpa [Nat.toDigitsCore] using hc
  | succ fuel ih =>
    intro n acc c hc
    have hd : 48 ≤ (Nat.digitChar (n % 10)).toNat ∧ (Nat.digitChar (n % 10)).toNat ≤ 57 := by
      have : n % 10 < 10 := Nat.mod_lt _ (by decide)
      interval_cases (n % 10) <;> decide
    by_cases h0 : n / 10 = 0
    · simp only [Nat.toDigitsCore, h0, if_true, List.mem_cons] at hc
      rcases hc with rfl | hc
      · exact Or.inr hd
      · exact Or.inl hc
    · simp only [Nat.toDigitsCore, h0, if_false] at hc
      rcases ih _ _ c hc with h | h
      · rcases List.mem_cons.mp h with rfl | h
        · exact Or.inr hd
        · exact Or.inl h
      · exact Or.inr h

theorem repr_digits (n : Nat) : ∀ c ∈ (Nat.repr n).data, 48 ≤ c.toNat ∧ c.toNat ≤ 57 := by
  intro c hc
  rcases toDigitsCore_digits (n + 1) n [] c hc with h | h
  · simp at h
  · exact h

theorem toDigitsCore_ne_nil (fuel : Nat) :
    ∀ (n : Nat) (acc : List Char), acc ≠ [] → Nat.toDigitsCore 10 fuel n acc ≠ [] := by
  induction fuel with
  | zero => intro n acc h; simpa [Nat.toDigitsCore] using h
  | succ fuel ih =>
    intro n acc _
    by_cases h0 : n / 10 = 0
    · simp [Nat.toDigitsCore, h0]
    · simp only [Nat.toDigitsCore, h0, if_false]
      exact ih _ _ (List.cons_ne_nil _ _)

theorem repr_ne_nil (n : Nat) : (Nat.repr n).data ≠ [] := by
  show Nat.toDigitsCore 10 (n + 1) n [] ≠ []
  by_cases h0 : n / 10 = 0
  · simp [Nat.toDigitsCore, h0]
  · simp only [Nat.toDigitsCore, h0, if_false]
    exact toDigitsCore_ne_nil _ _ _ (List.cons_ne_nil _ _)

/-! ## Runes that the parser passes through unchanged -/

theorem digit_ne_dash {c : Char} (h : 48 ≤ c.toNat ∧ c.toNat ≤ 57) : c ≠ '-' := by
  rintro rfl
  revert h
  decide

theorem digit_ne_plus {c : Char} (h : 48 ≤ c.toNat ∧ c.toNat ≤ 57) : c ≠ '+' := by
  rintro rfl
  revert h
  decide

theorem digit_not_space {c : Char} (h : 48 ≤ c.toNat ∧ c.toNat ≤ 57) : IsSpace c = false := by
  simp only [IsSpace, Bool.or_eq_false_iff, Bool.and_eq_false_iff, decide_eq_false_iff_not,
    beq_eq_false_iff_ne]
  omega

theorem digit_lower {c : Char} (h : 48 ≤ c.toNat ∧ c.toNat ≤ 57) : unicodeToLower c = c := by
  unfold unicodeToLower
  rw [if_neg]
  omega

theorem map_lower_repr (n : Nat) : (Nat.repr n).data.map unicodeToLower = (Nat.repr n).data := by
  conv_rhs => rw [← List.map_id (Nat.repr n).data]
  apply List.map_congr_left
  intro c hc
  exact digit_lower (repr_digits n c hc)

theorem dash_not_mem_repr (n : Nat) : '-' ∉ (Nat.repr n).data := by
  intro h
  exact digit_ne_dash (repr_digits n _ h) rfl

theorem trimSpace_noop (l : List Char) (h : ∀ c ∈ l, IsSpace c = false) :
    TrimSpace ⟨l⟩ = ⟨l⟩ := by
  have drop : ∀ l : List Char, (∀ c ∈ l, IsSpace c = false) → l.dropWhile IsSpace = l := by
    intro l hl
    cases l with
    | nil => rfl
    | cons a t => simp [List.dropWhile, hl a (List.mem_cons_self _ _)]
  unfold TrimSpace
  simp only [drop l h]
  rw [drop l.reverse (by simpa using h), List.reverse_reverse]

theorem splitRunes_of_not_mem (sep : Char) (a : List Char) (ha : sep ∉ a) :
    splitRunes sep a = [a] := by
  induction a with
  | nil => rfl
  | cons c cs ih =>
    have hc : c ≠ sep := fun e => ha (e ▸ List.mem_cons_self _ _)
    have hcs : sep ∉ cs := fun m => ha (List.mem_cons_of_mem _ m)
    simp [splitRunes, hc, ih hcs]

theorem splitRunes_append (sep : Char) (a b : List Char) (ha : sep ∉ a) :
    splitRunes sep (a ++ sep :: b) = a :: splitRunes sep b := by
  induction a with
  | nil => simp [splitRunes]
  | cons c cs ih =>
    have hc : c ≠ sep := fun e => ha (e ▸ List.mem_cons_self _ _)
    have hcs : sep ∉ cs := fun m => ha (List.mem_cons_of_mem _ m)
    simp [splitRunes, hc, ih hcs]

theorem atoi_repr (n : Nat) (hn : n < 2 ^ 63) : Atoi (Nat.repr n) = some (n : Int) := by
  have hne := repr_ne_nil n
  have hp := parseDigits_repr n
  have hd := repr_digits n
  unfold Atoi
  cases hl : (Nat.repr n).data with
  | nil => exact absurd hl hne
  | cons c rest =>
    have hc := hd c (by rw [hl]; exact List.mem_cons_self _ _)
    rw [hl] at hp
    have hn' : n < 9223372036854775808 := by simpa using hn
    simp [digit_ne_dash hc, digit_ne_plus hc, hp, atoiRange, hn']

/-! ## C7: the three forms of a schedule entry -/

theorem upperAt_length (l : List Char) (mask : List Bool) :
    (upperAt l mask).length = l.length := by
  induction l generalizing mask with
  | nil => simp [upperAt]
  | cons c cs ih => cases mask <;> simp [upperAt, ih]

theorem lower_upperAt (wd : Weekday) (mask : List Bool) :
    (upperAt (weekdayAbbr wd).data mask).map unicodeToLower = (weekdayAbbr wd).data := by
  rcases mask with _ | ⟨u0, _ | ⟨u1, _ | ⟨u2, m⟩⟩⟩ <;> cases wd <;>
    first
    | (simp only [weekdayAbbr, upperAt]; decide)
    | (cases u0 <;> simp only [weekdayAbbr, upperAt] <;> decide)
    | (cases u0 <;> cases u1 <;> simp only [weekdayAbbr, upperAt] <;> decide)
    | (cases u0 <;> cases u1 <;> cases u2 <;> simp only [weekdayAbbr, upperAt] <;> decide)

theorem abbr_facts (wd : Weekday) :
    StrToWeekday (weekdayAbbr wd) = some wd ∧ Atoi (weekdayAbbr wd) = none ∧
      '-' ∉ (weekdayAbbr wd).data ∧ (∀ c ∈ (weekdayAbbr wd).data, IsSpace c = false) ∧
      (weekdayAbbr wd).data ≠ [] := by
  cases wd <;> decide

/-- A spec whose lower-cased runes are an abbreviation, a dash and a decimal
number parses to that weekday and that hour, whatever the hour. -/
theorem parse_day_hour (s : String) (wd : Weekday) (n : Nat) (hn : n < 2 ^ 63)
    (hs : s.data.map unicodeToLower = (weekdayAbbr wd).data ++ '-' :: (Nat.repr n).data) :
    ParseDayHour s = .ok (some wd, (n : Int)) := by
  obtain ⟨hw, _, hdash, hsp, hne⟩ := abbr_facts wd
  have hlen : ¬ s.length < 1 := by
    have := congrArg List.length hs
    simp only [List.length_map, List.length_append, List.length_cons] at this
    simp only [String.length]
    omega
  have htrim : TrimSpace (ToLower s) = ⟨(weekdayAbbr wd).data ++ '-' :: (Nat.repr n).data⟩ := by
    unfold ToLower
    rw [hs]
    apply trimSpace_noop
    intro c hc
    rcases List.mem_append.mp hc with h | h
    · exact hsp c h
    · rcases List.mem_cons.mp h with rfl | h
      · decide
      · exact digit_not_space (repr_digits n c h)
  have hsplit : Split ⟨(weekdayAbbr wd).data ++ '-' :: (Nat.repr n).data⟩ '-' =
      [weekdayAbbr wd, Nat.repr n] := by
    simp only [Split, splitRunes_append _ _ _ hdash,
      splitRunes_of_not_mem _ _ (dash_not_mem_repr n), List.map]
  simp only [ParseDayHour, hlen, if_false, htrim, hsplit, atoi_repr n hn, hw]

/-- A spec whose lower-cased runes are a decimal number parses to that hour
on every day, whatever the hour. -/
theorem parse_hour (s : String) (n : Nat) (hn : n < 2 ^ 63)
    (hs : s.data.map unicodeToLower = (Nat.repr n).data) :
    ParseDayHour s = .ok (none, (n : Int)) := by
  have hlen : ¬ s.length < 1 := by
    have := congrArg List.length hs
    have hne := repr_ne_nil n
    simp only [List.length_map] at this
    simp only [String.length]
    have : (Nat.repr n).data.length ≠ 0 := fun h => hne (List.length_eq_zero.mp h)
    omega
  have htrim : TrimSpace (ToLower s) = Nat.repr n := by
    unfold ToLower
    rw [hs]
    exact trimSpace_noop _ (fun c hc => digit_not_space (repr_digits n c hc))
  have hsplit : Split (Nat.repr n) '-' = [Nat.repr n] := by
    simp only [Split, splitRunes_of_not_mem _ _ (dash_not_mem_repr n), List.map]
  simp only [ParseDayHour, hlen, if_false, htrim, hsplit, atoi_repr n hn]

/-- A spec whose lower-cased runes are an abbreviation parses to that
weekday and the hour -1. -/
theorem parse_day (s : String) (wd : Weekday)
    (hs : s.data.map unicodeToLower = (weekdayAbbr wd).data) :
    ParseDayHour s = .ok (some wd, -1) := by
  obtain ⟨hw, ha, hdash, hsp, hne⟩ := abbr_facts wd
  have hlen : ¬ s.length < 1 := by
    have := congrArg List.length hs
    simp only [List.length_map] at this
    simp only [String.length]
    have : (weekdayAbbr wd).data.length ≠ 0 := fun h => hne (List.length_eq_zero.mp h)
    omega
  have htrim : TrimSpace (ToLower s) = weekdayAbbr wd := by
    unfold ToLower
    rw [hs]
    exact trimSpace_noop _ hsp
  have hsplit : Split (weekdayAbbr wd) '-' = [weekdayAbbr wd] := by
    simp only [Split, splitRunes_of_not_mem _ _ hdash, List.map]
  simp only [ParseDayHour, hlen, if_false, htrim, hsplit, ha, hw]

/-- C7: for every weekday abbreviation d among mon, tue, wed, thu, fri, sat,
sun, spelled in any letter case, and every hour h with 0 <= h <= 23 written
in decimal, ParseDayHour succeeds on "d-h" with (weekday d, h), on "d" with
(weekday d, -1) and on "h" with (nil, h). -/
theorem parseDayHour_accepts (wd : Weekday) (mask : List Bool) (h : Nat) (hh : h ≤ 23) :
    ParseDayHour (withCase (weekdayAbbr wd) mask ++ "-" ++ Nat.repr h) =
        .ok (some wd, (h : Int)) ∧
      ParseDayHour (withCase (weekdayAbbr wd) mask) = .ok (some wd, -1) ∧
      ParseDayHour (Nat.repr h) = .ok (none, (h : Int)) := by
  have h63 : h < 2 ^ 63 := lt_of_le_of_lt hh (by norm_num)
  refine ⟨?_, ?_, ?_⟩
  · apply parse_day_hour _ wd h h63
    have hdash : unicodeToLower '-' = '-' := by decide
    simp only [String.data_append, withCase, List.map_append, lower_upperAt, map_lower_repr,
      List.append_assoc]
    simp only [List.map_cons, hdash, map_lower_repr, List.singleton_append, List.map_nil,
      List.cons_append, List.nil_append]
  · apply parse_day
    simp only [withCase, lower_upperAt]
  · apply parse_hour _ h h63
    exact map_lower_repr h

theorem parseDayHour_accepts_witness :
    (5 : Nat) ≤ 23 ∧
    ParseDayHour "mon-5" = .ok (some .Monday, 5) ∧
    ParseDayHour "mon" = .ok (some .Monday, -1) ∧
    ParseDayHour "5" = .ok (none, 5) :=
  ⟨by decide, parseDayHour_accepts .Monday [] 5 (by decide)⟩

theorem parseDayHour_mixed_case :
    ParseDayHour "MoN-23" = .ok (some .Monday, 23) ∧
    withCase (weekdayAbbr .Monday) [true, false, true] ++ "-" ++ Nat.repr 23 = "MoN-23" := by
  decide!

/-! ## C8: what ParseDayHour refuses -/

/-- C8, as stated, fails: ParseDayHour returns no error for "mon-24" nor for
"24"; it returns the hour 24, on Monday and on every day. -/
theorem parseDayHour_accepts_hour_24 :
    ParseDayHour "mon-24" = .ok (some .Monday, 24) ∧ ParseDayHour "24" = .ok (none, 24) := by
  decide!

theorem strToWeekday_eq_abbr (s : String) (wd : Weekday) (h : StrToWeekday s = some wd) :
    s = weekdayAbbr wd := by
  unfold StrToWeekday at h
  split_ifs at h with h1 h2 h3 h4 h5 h6 h7 <;> simp only [Option.some.injEq] at h <;>
    subst h <;> simp_all [weekdayAbbr]

theorem strToWeekday_repr (n : Nat) : StrToWeekday (Nat.repr n) = none := by
  cases hw : StrToWeekday (Nat.repr n) with
  | none => rfl
  | some wd =>
    have e := strToWeekday_eq_abbr _ _ hw
    have hp := parseDigits_repr n
    have hnone : parseDigits (weekdayAbbr wd).data 0 = none := by cases wd <;> decide
    rw [e, hnone] at hp
    cases hp

theorem atoi_repr_big (n : Nat) (hn : 2 ^ 63 ≤ n) : Atoi (Nat.repr n) = none := by
  have hne := repr_ne_nil n
  have hp := parseDigits_repr n
  have hd := repr_digits n
  unfold Atoi
  cases hl : (Nat.repr n).data with
  | nil => exact absurd hl hne
  | cons c rest =>
    have hc := hd c (by rw [hl]; exact List.mem_cons_self _ _)
    rw [hl] at hp
    have hn' : ¬ n < 9223372036854775808 := by
      have : (2 : Nat) ^ 63 = 9223372036854775808 := by norm_num
      omega
    simp [digit_ne_dash hc, digit_ne_plus hc, hp, atoiRange, hn']

/-- C8, amended: ParseDayHour returns an error for the empty string, and it
makes no test of the hour's range.  For every valid weekday abbreviation d
and every integer h > 23: when h fits the 64-bit int (h < 2^63),
ParseDayHour("d-h") returns (weekday d, h) and ParseDayHour("h") returns
(nil, h), without error; only when h does not fit do both return an
error. -/
theorem parseDayHour_hour_unchecked (wd : Weekday) (h : Nat) (h23 : 23 < h) :
    ParseDayHour "" = .error "No input given" ∧
      (h < 2 ^ 63 →
        ParseDayHour (weekdayAbbr wd ++ "-" ++ Nat.repr h) = .ok (some wd, (h : Int)) ∧
        ParseDayHour (Nat.repr h) = .ok (none, (h : Int))) ∧
      (2 ^ 63 ≤ h →
        ParseDayHour (weekdayAbbr wd ++ "-" ++ Nat.repr h) =
          .error ("Invalid day or hour: " ++ (weekdayAbbr wd ++ "-" ++ Nat.repr h)) ∧
        ParseDayHour (Nat.repr h) = .error ("Invalid day: " ++ Nat.repr h)) := by
  have _ := h23
  obtain ⟨hw, _, hdash, hsp, hne⟩ := abbr_facts wd
  have hlow : (weekdayAbbr wd).data.map unicodeToLower = (weekdayAbbr wd).data := by
    cases wd <;> decide
  have hdl : unicodeToLower '-' = '-' := by decide
  have hdata : (weekdayAbbr wd ++ "-" ++ Nat.repr h).data.map unicodeToLower =
      (weekdayAbbr wd).data ++ '-' :: (Nat.repr h).data := by
    simp only [String.data_append, List.map_append, hlow, map_lower_repr, List.append_assoc]
    simp only [List.map_cons, hdl, List.map_nil, List.singleton_append]
  refine ⟨by decide, ?_, ?_⟩
  · intro h63
    exact ⟨parse_day_hour _ wd h h63 hdata, parse_hour _ h h63 (map_lower_repr h)⟩
  · intro h63
    have hstr : (⟨(weekdayAbbr wd).data ++ '-' :: (Nat.repr h).data⟩ : String) =
        weekdayAbbr wd ++ "-" ++ Nat.repr h := by
      apply String.ext
      simp only [String.data_append, List.append_assoc]
      rfl
    constructor
    · have hlen : ¬ (weekdayAbbr wd ++ "-" ++ Nat.repr h).length < 1 := by
        have := congrArg List.length hdata
        simp only [List.length_map, List.length_append, List.length_cons] at this
        show ¬ (weekdayAbbr wd ++ "-" ++ Nat.repr h).data.length < 1
        omega
      have htrim : TrimSpace (ToLower (weekdayAbbr wd ++ "-" ++ Nat.repr h)) =
          weekdayAbbr wd ++ "-" ++ Nat.repr h := by
        unfold ToLower
        rw [hdata, ← hstr]
        apply trimSpace_noop
        intro c hc
        rcases List.mem_append.mp hc with hm | hm
        · exact hsp c hm
        · rcases List.mem_cons.mp hm with rfl | hm
          · decide
          · exact digit_not_space (repr_digits h c hm)
      have hsplit : Split (weekdayAbbr wd ++ "-" ++ Nat.repr h) '-' =
          [weekdayAbbr wd, Nat.repr h] := by
        rw [← hstr]
        simp only [Split, splitRunes_append _ _ _ hdash,
          splitRunes_of_not_mem _ _ (dash_not_mem_repr h), List.map]
      simp only [ParseDayHour, hlen, if_false, htrim, hsplit, atoi_repr_big h h63]
    · have hlen : ¬ (Nat.repr h).length < 1 := by
        have := repr_ne_nil h
        simp only [String.length]
        have : (Nat.repr h).data.length ≠ 0 := fun e => this (List.length_eq_zero.mp e)
        omega
      have htrim : TrimSpace (ToLower (Nat.repr h)) = Nat.repr h := by
        unfold ToLower
        rw [map_lower_repr]
        exact trimSpace_noop _ (fun c hc => digit_not_space (repr_digits h c hc))
      have hsplit : Split (Nat.repr h) '-' = [Nat.repr h] := by
        simp only [Split, splitRunes_of_not_mem _ _ (dash_not_mem_repr h), List.map]
      simp only [ParseDayHour, hlen, if_false, htrim, hsplit, atoi_repr_big h h63,
        strToWeekday_repr]

theorem parseDayHour_hour_unchecked_witness :
    (23 : Nat) < 100 ∧ (100 : Nat) < 2 ^ 63 ∧
    ParseDayHour "" = .error "No input given" ∧
    ParseDayHour "tue-100" = .ok (some .Tuesday, 100) ∧
    ParseDayHour "100" = .ok (none, 100) :=
  ⟨by decide, by decide, (parseDayHour_hour_unchecked .Tuesday 100 (by decide)).1,
    (parseDayHour_hour_unchecked .Tuesday 100 (by decide)).2.1 (by decide)⟩

/-! ## C9: what Activate and Deactivate write -/

theorem splitRunes_no_sep (sep : Char) (l : List Char) :
    ∀ p ∈ splitRunes sep l, sep ∉ p := by
  induction l with
  | nil => simp [splitRunes]
  | cons c cs ih =>
    by_cases hc : c = sep
    · simp only [splitRunes, hc, if_true, List.mem_cons]
      rintro p (rfl | hp)
      · simp
      · exact ih p hp
    · simp only [splitRunes, hc, if_false]
      cases hs : splitRunes sep cs with
      | nil => simp [Ne.symm hc]
      | cons piece pieces =>
        rw [hs] at ih
        simp only [List.mem_cons]
        rintro p (rfl | hp)
        · have := ih piece (List.mem_cons_self _ _)
          simp [Ne.symm hc, this]
        · exact ih p (List.mem_cons_of_mem _ hp)

theorem atoi_nonneg (s : String) (v : Int) (hs : '-' ∉ s.data) (h : Atoi s = some v) :
    0 ≤ v := by
  unfold Atoi at h
  cases hl : s.data with
  | nil => simp [hl] at h
  | cons c rest =>
    have hc : c ≠ '-' := fun e => hs (by rw [hl, e]; exact List.mem_cons_self _ _)
    simp only [hl, hc, decide_False, false_or] at h
    split_ifs at h
    all_goals
      first
      | cases h
      | (split at h
         · cases h
         · rename_i n _
           simp only [atoiRange, Bool.false_eq_true, if_false] at h
           split_ifs at h
           simp only [Option.some.injEq] at h
           omega)

/-- What ParseDayHour returns without error: an hour that is not negative,
or the hour -1 together with a weekday. -/
theorem parseDayHour_shape (s : String) (day : Option Weekday) (hour : Int)
    (h : ParseDayHour s = .ok (day, hour)) : 0 ≤ hour ∨ (hour = -1 ∧ day ≠ none) := by
  unfold ParseDayHour at h
  split_ifs at h
  dsimp only at h
  have hall : ∀ p ∈ Split (TrimSpace (ToLower s)) '-', '-' ∉ p.data := by
    intro p hp
    simp only [Split, List.mem_map] at hp
    obtain ⟨q, hq, rfl⟩ := hp
    exact splitRunes_no_sep _ _ q hq
  revert h hall
  generalize Split (TrimSpace (ToLower s)) '-' = pieces
  intro h hall
  rcases pieces with _ | ⟨s0, _ | ⟨s1, _ | ⟨s2, rest⟩⟩⟩
  · simp at h
  · simp only at h
    cases ha : Atoi s0 with
    | some v =>
      simp only [ha, Except.ok.injEq, Prod.mk.injEq] at h
      left
      rw [← h.2]
      exact atoi_nonneg s0 v (hall s0 (List.mem_cons_self _ _)) ha
    | none =>
      simp only [ha] at h
      cases hw : StrToWeekday s0 with
      | none => simp [hw] at h
      | some wd =>
        simp only [hw, Except.ok.injEq, Prod.mk.injEq] at h
        right
        exact ⟨h.2.symm, by rw [← h.1]; simp⟩
  · simp only at h
    cases ha : Atoi s1 with
    | none => simp [ha] at h
    | some v =>
      simp only [ha] at h
      cases hw : StrToWeekday s0 with
      | none => simp [hw] at h
      | some wd =>
        simp only [hw, Except.ok.injEq, Prod.mk.injEq] at h
        left
        rw [← h.2]
        exact atoi_nonneg s1 v (hall s1 (by simp)) ha
  · simp at h

theorem weekdayString_no_dash (d : Weekday) : '-' ∉ (weekdayString d).data := by
  cases d <;> decide

theorem weekdayString_inj (d d' : Weekday) (h : weekdayString d = weekdayString d') :
    d = d' := by
  revert h
  cases d <;> cases d' <;> decide

theorem itoa_of_nonneg (h : Int) (h0 : 0 ≤ h) : Itoa h = Nat.repr h.natAbs := by
  unfold Itoa
  rw [if_neg (by omega)]

/-- Two cells with hours that are not negative are stored under different
keys. -/
theorem dayHourToString_inj (d d' : Weekday) (h h' : Int) (h0 : 0 ≤ h) (h0' : 0 ≤ h')
    (e : DayHourToString d h = DayHourToString d' h') : d = d' ∧ h = h' := by
  unfold DayHourToString at e
  rw [itoa_of_nonneg h h0, itoa_of_nonneg h' h0'] at e
  have e1 := congrArg String.data e
  simp only [String.data_append, List.append_assoc] at e1
  rw [List.singleton_append, List.singleton_append] at e1
  have e2 := congrArg (splitRunes '-') e1
  rw [splitRunes_append _ _ _ (weekdayString_no_dash d),
    splitRunes_append _ _ _ (weekdayString_no_dash d')] at e2
  have e3 : (weekdayString d).data = (weekdayString d').data := (List.cons.inj e2).1
  have hdd : d = d' := weekdayString_inj d d' (String.ext e3)
  subst hdd
  have e4 := List.append_cancel_left e1
  have e5 : (Nat.repr h.natAbs).data = (Nat.repr h'.natAbs).data := (List.cons.inj e4).2
  have p1 := parseDigits_repr h.natAbs
  have p2 := parseDigits_repr h'.natAbs
  rw [e5, p2] at p1
  simp only [Option.some.injEq] at p1
  exact ⟨rfl, by omega⟩

theorem forEachRow_insert {α : Type} (key : α → String)
    (body : Rows → α → Rows × Option String)
    (hbody : ∀ r x, body r x = (insert (key x) r, none)) (xs : List α) (rows : Rows) :
    forEachRow body xs rows = (rows ∪ (xs.map key).toFinset, none) := by
  induction xs generalizing rows with
  | nil => simp [forEachRow]
  | cons x xs ih =>
    simp only [forEachRow, hbody, ih, List.map_cons, List.toFinset_cons, Prod.mk.injEq,
      and_true]
    ext k
    simp only [Finset.mem_union, Finset.mem_insert]
    tauto

theorem forEachRow_erase {α : Type} (key : α → String)
    (body : Rows → α → Rows × Option String)
    (hbody : ∀ r x, body r x = (r.erase (key x), none)) (xs : List α) (rows : Rows) :
    forEachRow body xs rows = (rows \ (xs.map key).toFinset, none) := by
  induction xs generalizing rows with
  | nil => simp [forEachRow]
  | cons x xs ih =>
    simp only [forEachRow, hbody, ih, List.map_cons, List.toFinset_cons, Prod.mk.injEq,
      and_true]
    ext k
    simp only [Finset.mem_sdiff, Finset.mem_erase, Finset.mem_insert]
    tauto

theorem hours24_nonneg : ∀ h ∈ hours24, 0 ≤ h ∧ h ≤ 23 := by decide

theorem activate_eq (rows : Rows) (spec : String) (day : Option Weekday) (hour : Int)
    (hp : ParseDayHour spec = .ok (day, hour)) :
    Activate rows spec = (rows ∪ cellKeys day hour, none) := by
  have hshape := parseDayHour_shape spec day hour hp
  unfold Activate
  rw [hp]
  simp only [cellKeys, cells]
  cases day with
  | none =>
    have h1 : hour ≠ -1 := by rcases hshape with h | ⟨_, h⟩ <;> [omega; exact absurd rfl h]
    simp only [h1, false_and, if_false, List.map_map]
    exact forEachRow_insert (fun d => DayHourToString d hour) _ (fun _ _ => rfl) _ _
  | some d =>
    by_cases h1 : hour = -1
    · simp only [h1, reduceCtorEq, and_false, if_false, if_true, List.map_map]
      exact forEachRow_insert (fun h => DayHourToString d h) _ (fun _ _ => rfl) _ _
    · simp only [h1, false_and, if_false, SetActive, List.map_cons, List.map_nil,
        List.toFinset_cons, List.toFinset_nil, Prod.mk.injEq, and_true]
      ext k
      simp only [Finset.mem_union, Finset.mem_insert, Finset.not_mem_empty, or_false]
      tauto

theorem deactivate_eq (rows : Rows) (spec : String) (day : Option Weekday) (hour : Int)
    (hp : ParseDayHour spec = .ok (day, hour)) (h23 : hour ≤ 23) :
    Deactivate rows spec = (rows \ cellKeys day hour, none) := by
  have hshape := parseDayHour_shape spec day hour hp
  have hr : ¬ (hour < -1 ∨ hour > 23) := by
    rcases hshape with h | ⟨h, _⟩ <;> omega
  unfold Deactivate
  rw [hp]
  simp only [cellKeys, cells]
  cases day with
  | none =>
    have h1 : hour ≠ -1 := by rcases hshape with h | ⟨_, h⟩ <;> [omega; exact absurd rfl h]
    simp only [h1, hr, false_and, if_false, List.map_map]
    exact forEachRow_erase (fun d => DayHourToString d hour) _ (fun _ _ => rfl) _ _
  | some d =>
    by_cases h1 : hour = -1
    · simp only [h1, reduceCtorEq, and_false, if_false, if_true, List.map_map]
      have : ¬ ((-1 : Int) < -1 ∨ (-1 : Int) > 23) := by omega
      simp only [this, if_false]
      exact forEachRow_erase (fun h => DayHourToString d h) _ (fun _ _ => rfl) _ _
    · simp only [h1, hr, false_and, if_false, SetDeactive, List.map_cons, List.map_nil,
        List.toFinset_cons, List.toFinset_nil, Prod.mk.injEq, and_true]
      ext k
      simp only [Finset.mem_sdiff, Finset.mem_erase, Finset.mem_insert, Finset.not_mem_empty,
        or_false]
      tauto

theorem cells_hour_nonneg (spec : String) (day : Option Weekday) (hour : Int)
    (hp : ParseDayHour spec = .ok (day, hour)) : ∀ c ∈ cells day hour, 0 ≤ c.2 := by
  have hshape := parseDayHour_shape spec day hour hp
  intro c hc
  unfold cells at hc
  cases day with
  | none =>
    have h1 : 0 ≤ hour := by rcases hshape with h | ⟨_, h⟩ <;> [omega; exact absurd rfl h]
    simp only [List.mem_map] at hc
    obtain ⟨d, _, rfl⟩ := hc
    exact h1
  | some d =>
    by_cases h1 : hour = -1
    · simp only [h1, if_true, List.mem_map] at hc
      obtain ⟨h, hh, rfl⟩ := hc
      exact (hours24_nonneg h hh).1
    · simp only [h1, if_false, List.mem_singleton] at hc
      subst hc
      rcases hshape with h | ⟨h, _⟩ <;> [exact h; exact absurd h h1]

theorem key_mem_cellKeys (spec : String) (day : Option Weekday) (hour : Int)
    (hp : ParseDayHour spec = .ok (day, hour)) (d : Weekday) (h : Int) (h0 : 0 ≤ h) :
    DayHourToString d h ∈ cellKeys day hour ↔ (d, h) ∈ cells day hour := by
  simp only [cellKeys, List.mem_toFinset, List.mem_map]
  constructor
  · rintro ⟨c, hc, e⟩
    obtain ⟨e1, e2⟩ := dayHourToString_inj c.1 d c.2 h (cells_hour_nonneg spec day hour hp c hc) h0 e
    have : c = (d, h) := Prod.ext e1 e2
    rw [← this]
    exact hc
  · intro hc
    exact ⟨(d, h), hc, rfl⟩

/-- C9: over the table as the set of stored keys, with no failing statement:
for every valid spec (one that ParseDayHour accepts, with an hour of at most
23), Activate returns nil and leaves the old rows united with the keys of
cells(spec), and Deactivate returns nil and leaves the old rows minus those
keys, where cells(spec) is the 7 cells (every weekday, h) for "h", the 24
cells (d, 0..23) for "d" and the one cell (d, h) for "d-h".  So every cell
of cells(spec) is active after Activate and inactive after Deactivate, and
every other cell keeps its previous state. -/
theorem activate_deactivate_cells (rows : Rows) (spec : String) (day : Option Weekday)
    (hour : Int) (hp : ParseDayHour spec = .ok (day, hour)) (h23 : hour ≤ 23) :
    Activate rows spec = (rows ∪ cellKeys day hour, none) ∧
      Deactivate rows spec = (rows \ cellKeys day hour, none) ∧
      (∀ c ∈ cells day hour,
        IsActiveDayHour (Activate rows spec).1 c.1 c.2 = true ∧
        IsActiveDayHour (Deactivate rows spec).1 c.1 c.2 = false) ∧
      (∀ d h, 0 ≤ h → (d, h) ∉ cells day hour →
        IsActiveDayHour (Activate rows spec).1 d h = IsActiveDayHour rows d h ∧
        IsActiveDayHour (Deactivate rows spec).1 d h = IsActiveDayHour rows d h) := by
  have ha := activate_eq rows spec day hour hp
  have hd := deactivate_eq rows spec day hour hp h23
  refine ⟨ha, hd, ?_, ?_⟩
  · intro c hc
    have hk : DayHourToString c.1 c.2 ∈ cellKeys day hour :=
      (key_mem_cellKeys spec day hour hp c.1 c.2 (cells_hour_nonneg spec day hour hp c hc)).mpr hc
    rw [ha, hd]
    simp [IsActiveDayHour, hk]
  · intro d h h0 hc
    have hk : DayHourToString d h ∉ cellKeys day hour :=
      fun hm => hc ((key_mem_cellKeys spec day hour hp d h h0).mp hm)
    rw [ha, hd]
    simp [IsActiveDayHour, hk]

theorem activate_deactivate_cells_witness :
    ParseDayHour "mon-5" = .ok (some .Monday, 5) ∧ (5 : Int) ≤ 23 ∧
    Activate {"Tuesday-3"} "mon-5" = ({"Tuesday-3"} ∪ cellKeys (some .Monday) 5, none) ∧
    Deactivate {"Monday-5", "Tuesday-3"} "mon-5" =
      ({"Monday-5", "Tuesday-3"} \ cellKeys (some .Monday) 5, none) ∧
    cells (some .Monday) 5 = [(.Monday, 5)] ∧
    (cells (some .Monday) (-1)).length = 24 ∧ (cells none 5).length = 7 :=
  ⟨by decide, by decide,
    (activate_deactivate_cells {"Tuesday-3"} "mon-5" (some .Monday) 5 (by decide) (by decide)).1,
    (activate_deactivate_cells {"Monday-5", "Tuesday-3"} "mon-5" (some .Monday) 5
      (by decide) (by decide)).2.1,
    by decide, by decide, by decide⟩

/-! ## C10: refused entries -/

/-- A spec that ParseDayHour refuses makes Activate and Deactivate return its
error with the rows as they were. -/
theorem refused_spec_keeps_rows (rows : Rows) (spec err : String)
    (h : ParseDayHour spec = .error err) :
    Activate rows spec = (rows, some err) ∧ Deactivate rows spec = (rows, some err) := by
  simp [Activate, Deactivate, h]

/-- An hour above 23 makes Deactivate return an error with the rows as they
were. -/
theorem deactivate_refuses_hour (rows : Rows) (spec : String) (day : Option Weekday)
    (hour : Int) (hp : ParseDayHour spec = .ok (day, hour)) (h : 23 < hour) :
    Deactivate rows spec = (rows, some "Invalid hour, only 0-23 allowed") := by
  have h1 : hour ≠ -1 := by omega
  have h2 : hour < -1 ∨ hour > 23 := Or.inr h
  simp [Deactivate, hp, h1, h2]

/-- C10 fails for Activate at the hour 24.  On the empty table the entry
"mon-24" parses to (Monday, 24); Deactivate refuses it and writes nothing,
while Activate, which has no test of the hour, returns nil and stores the
row "Monday-24"; the entry "24" stores seven such rows. -/
theorem activate_stores_hour_24 :
    ParseDayHour "mon-24" = .ok (some .Monday, 24) ∧
    Deactivate ∅ "mon-24" = (∅, some "Invalid hour, only 0-23 allowed") ∧
    Activate ∅ "mon-24" = ({"Monday-24"}, none) ∧
    (Activate ∅ "24").2 = none ∧ (Activate ∅ "24").1.card = 7 := by
  decide!

/-! ## C16, C17: the three buckets -/

theorem new_fields (config : Config) (now : Time) (cam : Cam)
    (h : New config now = some (.ok cam)) :
    cam.FrameLimit = NewBucketWithQuantum (1 * Minute) 20 20 ∧
      cam.BurstLimit = NewBucketWithQuantum (1 * Second) 3 1 ∧
      cam.PaceLimit = NewBucketWithQuantum (15 * Second) 6 6 ∧
      cam.LastOverviewSent = now.Add (-10 * Second) ∧ cam.Index = config.Index := by
  unfold New at h
  dsimp only at h
  split at h
  · split_ifs at h <;>
      (simp only [Option.some.injEq, Except.ok.injEq] at h
       subst h
       exact ⟨rfl, rfl, rfl, rfl, rfl⟩)
  · split at h
    · cases h
    · split_ifs at h <;>
        first
        | (simp only [Option.some.injEq, Except.ok.injEq] at h
           subst h
           exact ⟨rfl, rfl, rfl, rfl, rfl⟩)
        | simp at h

theorem takeAvailable_one (tb : Bucket) :
    tb.TakeAvailable 1 =
      if tb.availableTokens ≤ 0 then (tb, 0)
      else ({ tb with availableTokens := tb.availableTokens - 1 }, 1) := by
  unfold Bucket.TakeAvailable
  by_cases h : tb.availableTokens ≤ 0
  · simp [h]
  · have h1 : ¬ (1 > tb.availableTokens) := by omega
    simp [h, h1]


theorem takeFrameBuckets_cases (c : Cam) :
    c.TakeFrameBuckets =
      if c.FrameLimit.availableTokens ≤ 0 then (c, false)
      else if c.BurstLimit.availableTokens ≤ 0 then
        ({ c with FrameLimit :=
            { c.FrameLimit with availableTokens := c.FrameLimit.availableTokens - 1 } }, false)
      else if c.PaceLimit.availableTokens ≤ 0 then
        ({ c with
            FrameLimit :=
              { c.FrameLimit with availableTokens := c.FrameLimit.availableTokens - 1 }
            BurstLimit :=
              { c.BurstLimit with availableTokens := c.BurstLimit.availableTokens - 1 } },
          false)
      else
        ({ c with
            FrameLimit :=
              { c.FrameLimit with availableTokens := c.FrameLimit.availableTokens - 1 }
            BurstLimit :=
              { c.BurstLimit with availableTokens := c.BurstLimit.availableTokens - 1 }
            PaceLimit :=
              { c.PaceLimit with availableTokens := c.PaceLimit.availableTokens - 1 } },
          true) := by
  unfold Cam.TakeFrameBuckets
  simp only [takeAvailable_one]
  by_cases hf : c.FrameLimit.availableTokens ≤ 0
  · simp [hf]
  · by_cases hb : c.BurstLimit.availableTokens ≤ 0
    · simp [hf, hb]
    · by_cases hp : c.PaceLimit.availableTokens ≤ 0
      · simp [hf, hb, hp]
      · simp [hf, hb, hp]

/-- C17: for every state of the three buckets, TakeFrameBuckets returns true
if and only if the frame, burst and pace buckets each hold at least one
token at the call, and then each bucket has one token less.  When it returns
false the buckets are consulted in the order frame, burst, pace up to the
first empty one: each bucket consulted before it has one token less (no
refund), the empty one and those after it are unchanged.  No other field of
the camera changes. -/
theorem takeFrameBuckets_spec (c : Cam) :
    ((c.TakeFrameBuckets).2 = true ↔
        1 ≤ c.FrameLimit.availableTokens ∧ 1 ≤ c.BurstLimit.availableTokens ∧
          1 ≤ c.PaceLimit.availableTokens) ∧
      ((c.TakeFrameBuckets).2 = true →
        (c.TakeFrameBuckets).1.FrameLimit.availableTokens = c.FrameLimit.availableTokens - 1 ∧
        (c.TakeFrameBuckets).1.BurstLimit.availableTokens = c.BurstLimit.availableTokens - 1 ∧
        (c.TakeFrameBuckets).1.PaceLimit.availableTokens = c.PaceLimit.availableTokens - 1) ∧
      (c.FrameLimit.availableTokens < 1 → c.TakeFrameBuckets = (c, false)) ∧
      (1 ≤ c.FrameLimit.availableTokens → c.BurstLimit.availableTokens < 1 →
        (c.TakeFrameBuckets).2 = false ∧
        (c.TakeFrameBuckets).1.FrameLimit.availableTokens = c.FrameLimit.availableTokens - 1 ∧
        (c.TakeFrameBuckets).1.BurstLimit = c.BurstLimit ∧
        (c.TakeFrameBuckets).1.PaceLimit = c.PaceLimit) ∧
      (1 ≤ c.FrameLimit.availableTokens → 1 ≤ c.BurstLimit.availableTokens →
        c.PaceLimit.availableTokens < 1 →
        (c.TakeFrameBuckets).2 = false ∧
        (c.TakeFrameBuckets).1.FrameLimit.availableTokens = c.FrameLimit.availableTokens - 1 ∧
        (c.TakeFrameBuckets).1.BurstLimit.availableTokens = c.BurstLimit.availableTokens - 1 ∧
        (c.TakeFrameBuckets).1.PaceLimit = c.PaceLimit) ∧
      (c.TakeFrameBuckets).1 =
        { c with
          FrameLimit := (c.TakeFrameBuckets).1.FrameLimit
          BurstLimit := (c.TakeFrameBuckets).1.BurstLimit
          PaceLimit := (c.TakeFrameBuckets).1.PaceLimit } := by
  rw [takeFrameBuckets_cases]
  by_cases hf : c.FrameLimit.availableTokens ≤ 0
  · simp only [hf, if_true]
    refine ⟨?_, ?_, ?_, ?_, ?_, ?_⟩ <;> simp <;> omega
  · by_cases hb : c.BurstLimit.availableTokens ≤ 0
    · simp only [hf, hb, if_true, if_false]
      refine ⟨?_, ?_, ?_, ?_, ?_, ?_⟩ <;> simp <;> omega
    · by_cases hp : c.PaceLimit.availableTokens ≤ 0
      · simp only [hf, hb, hp, if_true, if_false]
        refine ⟨?_, ?_, ?_, ?_, ?_, ?_⟩ <;> simp <;> omega
      · simp only [hf, hb, hp, if_false]
        refine ⟨?_, ?_, ?_, ?_, ?_, ?_⟩ <;> simp <;> omega


theorem takeFrameBuckets_spec_witness :
    ((plainCam.TakeFrameBuckets).2 = true ↔
        1 ≤ plainCam.FrameLimit.availableTokens ∧ 1 ≤ plainCam.BurstLimit.availableTokens ∧
          1 ≤ plainCam.PaceLimit.availableTokens) ∧
    (plainCam.TakeFrameBuckets).2 = true ∧
    (plainCam.TakeFrameBuckets).1.FrameLimit.availableTokens = 19 :=
  ⟨(takeFrameBuckets_spec plainCam).1, by decide, by decide⟩

theorem takeRepeatedly_succ (n : Nat) (c : Cam) :
    takeRepeatedly (n + 1) c =
      ((takeRepeatedly n (c.TakeFrameBuckets).1).1,
        (c.TakeFrameBuckets).2 :: (takeRepeatedly n (c.TakeFrameBuckets).1).2) := rfl

theorem takeRepeatedly_zero (c : Cam) : takeRepeatedly 0 c = (c, []) := rfl

theorem takeFrameBuckets_grant (c : Cam) (f b p : Int)
    (hf : c.FrameLimit.availableTokens = f) (hb : c.BurstLimit.availableTokens = b)
    (hp : c.PaceLimit.availableTokens = p) (f1 : 1 ≤ f) (b1 : 1 ≤ b) (p1 : 1 ≤ p) :
    (c.TakeFrameBuckets).2 = true ∧
      (c.TakeFrameBuckets).1.FrameLimit.availableTokens = f - 1 ∧
      (c.TakeFrameBuckets).1.BurstLimit.availableTokens = b - 1 ∧
      (c.TakeFrameBuckets).1.PaceLimit.availableTokens = p - 1 := by
  rw [takeFrameBuckets_cases, if_neg (by omega), if_neg (by omega), if_neg (by omega)]
  subst hf hb hp
  exact ⟨rfl, rfl, rfl, rfl⟩

theorem takeFrameBuckets_deny_burst (c : Cam) (hf : 1 ≤ c.FrameLimit.availableTokens)
    (hb : c.BurstLimit.availableTokens < 1) :
    (c.TakeFrameBuckets).2 = false ∧
      (c.TakeFrameBuckets).1.FrameLimit.availableTokens = c.FrameLimit.availableTokens - 1 ∧
      (c.TakeFrameBuckets).1.BurstLimit = c.BurstLimit ∧
      (c.TakeFrameBuckets).1.PaceLimit = c.PaceLimit := by
  rw [takeFrameBuckets_cases, if_neg (by omega), if_pos (by omega)]
  exact ⟨rfl, rfl, rfl, rfl⟩

/-- C16: a camera fresh from New has full buckets (frame 20, burst 3, pace
6); with no time elapsing between the calls, the first three calls of
TakeFrameBuckets return true and the fourth returns false.  The denial is
the burst bucket's: after three calls it is empty while the frame bucket
holds 17 tokens and the pace bucket 3, and the fourth call takes one frame
token and leaves burst and pace as they were. -/
theorem fresh_buckets_grant_three (config : Config) (now : Time) (cam : Cam)
    (h : New config now = some (.ok cam)) :
    cam.FrameLimit.availableTokens = 20 ∧ cam.BurstLimit.availableTokens = 3 ∧
      cam.PaceLimit.availableTokens = 6 ∧
      (takeRepeatedly 4 cam).2 = [true, true, true, false] ∧
      (takeRepeatedly 3 cam).1.FrameLimit.availableTokens = 17 ∧
      (takeRepeatedly 3 cam).1.BurstLimit.availableTokens = 0 ∧
      (takeRepeatedly 3 cam).1.PaceLimit.availableTokens = 3 ∧
      (takeRepeatedly 4 cam).1.FrameLimit.availableTokens = 16 ∧
      (takeRepeatedly 4 cam).1.BurstLimit.availableTokens = 0 ∧
      (takeRepeatedly 4 cam).1.PaceLimit.availableTokens = 3 := by
  obtain ⟨hf, hb, hp, _, _⟩ := new_fields config now cam h
  have f0 : cam.FrameLimit.availableTokens = 20 := by rw [hf]; rfl
  have b0 : cam.BurstLimit.availableTokens = 3 := by rw [hb]; rfl
  have p0 : cam.PaceLimit.availableTokens = 6 := by rw [hp]; rfl
  obtain ⟨r1, f1, b1, p1⟩ :=
    takeFrameBuckets_grant cam 20 3 6 f0 b0 p0 (by decide) (by decide) (by decide)
  obtain ⟨r2, f2, b2, p2⟩ :=
    takeFrameBuckets_grant _ _ _ _ f1 b1 p1 (by decide) (by decide) (by decide)
  obtain ⟨r3, f3, b3, p3⟩ :=
    takeFrameBuckets_grant _ _ _ _ f2 b2 p2 (by decide) (by decide) (by decide)
  obtain ⟨r4, f4, b4, p4⟩ := takeFrameBuckets_deny_burst
    ((cam.TakeFrameBuckets).1.TakeFrameBuckets).1.TakeFrameBuckets.1
    (by rw [f3]; decide) (by rw [b3]; decide)
  simp only [takeRepeatedly_succ, takeRepeatedly_zero, r1, r2, r3, r4, f3, b3, p3, f4, b4, p4]
  refine ⟨f0, b0, p0, ?_⟩
  decide

theorem fresh_buckets_grant_three_witness :
    New plainConfig ⟨1000 * Second, 0⟩ = some (.ok plainCam) ∧
    (takeRepeatedly 4 plainCam).2 = [true, true, true, false] :=
  ⟨by decide,
    (fresh_buckets_grant_three plainConfig ⟨1000 * Second, 0⟩ plainCam (by decide)).2.2.2.1⟩


/-! ## C11 to C14: the mode and the schedule -/

theorem strMode_modeStr (m : ScheduleMode)
    (hm : m = ModeOn ∨ m = ModeOff ∨ m = ModeSched) : StrMode (ModeStr m) = m := by
  rcases hm with rfl | rfl | rfl <;> decide

/-- C13: for every mode m among On, Off and Scheduled and every prior state
of the store, SetMode(m) returns nil and a GetMode() that follows returns m
with no error and leaves the store as SetMode left it; and
StrMode(ModeStr(m)) = m. -/
theorem mode_round_trip (s : Schedule) (m : ScheduleMode)
    (hm : m = ModeOn ∨ m = ModeOff ∨ m = ModeSched) :
    (SetMode s m).2 = none ∧
      GetMode (SetMode s m).1 = ((SetMode s m).1, m, none) ∧
      StrMode (ModeStr m) = m := by
  refine ⟨rfl, ?_, strMode_modeStr m hm⟩
  simp only [SetMode, GetMode, strMode_modeStr m hm]

theorem mode_round_trip_witness :
    (ModeOn = ModeOn ∨ ModeOn = ModeOff ∨ ModeOn = ModeSched) ∧
    (SetMode ⟨∅, some "Off"⟩ ModeOn).2 = none ∧
    GetMode (SetMode ⟨∅, some "Off"⟩ ModeOn).1 = (⟨∅, some "On"⟩, ModeOn, none) ∧
    StrMode (ModeStr ModeOn) = ModeOn :=
  ⟨by decide, mode_round_trip ⟨∅, some "Off"⟩ ModeOn (by decide)⟩

/-- C14: for a schedule with no stored mode, the first GetMode() returns
Scheduled with no error and leaves the text of Scheduled stored, the rows
untouched; a second GetMode() returns Scheduled as well and leaves the store
as the first left it. -/
theorem getMode_default (s : Schedule) (h : s.mode = none) :
    GetMode s = ({ s with mode := some "Sched" }, ModeSched, none) ∧
      GetMode (GetMode s).1 = ((GetMode s).1, ModeSched, none) ∧
      (GetMode s).1.rows = s.rows ∧
      StrMode "Sched" = ModeSched := by
  have e : GetMode s = ({ s with mode := some "Sched" }, ModeSched, none) := by
    simp only [GetMode, h, SetMode]
    rfl
  have d : StrMode "Sched" = ModeSched := by decide
  refine ⟨e, ?_, ?_, d⟩
  · rw [e]
    simp only [GetMode, d]
  · rw [e]

theorem getMode_default_witness :
    (⟨{"Monday-5"}, none⟩ : Schedule).mode = none ∧
    GetMode ⟨{"Monday-5"}, none⟩ = (⟨{"Monday-5"}, some "Sched"⟩, ModeSched, none) ∧
    GetMode ⟨{"Monday-5"}, some "Sched"⟩ = (⟨{"Monday-5"}, some "Sched"⟩, ModeSched, none) :=
  ⟨rfl, (getMode_default ⟨{"Monday-5"}, none⟩ rfl).1,
    (getMode_default ⟨{"Monday-5"}, none⟩ rfl).2.1⟩

theorem getMode_error (s : Schedule) : (GetMode s).2.2 = none := by
  unfold GetMode
  cases s.mode <;> rfl

theorem getMode_rows (s : Schedule) : (GetMode s).1.rows = s.rows := by
  unfold GetMode
  cases s.mode <;> rfl

theorem isActiveNow_eq (s : Schedule) (now : Time) :
    IsActiveNow s now =
      ((GetMode s).1,
        if (GetMode s).2.1 = ModeOn then true
        else if (GetMode s).2.1 = ModeOff then false
        else decide (TimeToDayHourString now ∈ s.rows),
        none) := by
  have he := getMode_error s
  have hr := getMode_rows s
  unfold IsActiveNow
  rcases hg : GetMode s with ⟨s1, sm, err⟩
  rw [hg] at he hr
  simp only at he hr
  subst he
  simp only [IsActiveTime, hr]
  split_ifs <;> rfl

/-- C12: for every stored state and every current time, with sm the mode
that GetMode reads from the store: IsActiveNow returns true when sm is On,
false when sm is Off, and when sm is Scheduled it returns true exactly when
the key of the cell (weekday of now, hour of now) is among the stored rows;
no error is returned.  When sm is On or Off the answer is the same whatever
rows are stored. -/
theorem isActiveNow_by_mode (s : Schedule) (now : Time) :
    ((GetMode s).2.1 = ModeOn → IsActiveNow s now = ((GetMode s).1, true, none)) ∧
      ((GetMode s).2.1 = ModeOff → IsActiveNow s now = ((GetMode s).1, false, none)) ∧
      ((GetMode s).2.1 = ModeSched →
        IsActiveNow s now =
          ((GetMode s).1, decide (DayHourToString now.Weekday now.Hour ∈ s.rows), none)) ∧
      ((GetMode s).2.1 = ModeOn ∨ (GetMode s).2.1 = ModeOff →
        ∀ rows : Rows, (IsActiveNow { s with rows := rows } now).2 = (IsActiveNow s now).2) := by
  rw [isActiveNow_eq]
  refine ⟨?_, ?_, ?_, ?_⟩
  · intro h
    simp [h]
  · intro h
    have : ModeOff ≠ ModeOn := by decide
    simp [h, this]
  · intro h
    have h1 : ModeSched ≠ ModeOn := by decide
    have h2 : ModeSched ≠ ModeOff := by decide
    simp [h, h1, h2, TimeToDayHourString]
  · intro h rows
    rw [isActiveNow_eq]
    have hm : (GetMode { s with rows := rows }).2.1 = (GetMode s).2.1 := by
      unfold GetMode
      cases s.mode <;> rfl
    rw [hm]
    rcases h with h | h
    · simp [h]
    · have : ModeOff ≠ ModeOn := by decide
      simp [h, this]


theorem isActiveNow_by_mode_example :
    IsActiveNow ⟨∅, some "On"⟩ ⟨0, 0⟩ = (⟨∅, some "On"⟩, true, none) ∧
    IsActiveNow ⟨{"Thursday-0"}, some "off"⟩ ⟨0, 0⟩ = (⟨{"Thursday-0"}, some "off"⟩, false, none) ∧
    IsActiveNow ⟨{"Thursday-0"}, some "Sched"⟩ ⟨0, 0⟩ =
      (⟨{"Thursday-0"}, some "Sched"⟩, true, none) ∧
    IsActiveNow ⟨{"Thursday-0"}, none⟩ ⟨3600 * Second, 0⟩ =
      (⟨{"Thursday-0"}, some "Sched"⟩, false, none) := by
  decide!

theorem forEachRow_union {α : Type} (keys : α → Finset String)
    (body : Rows → α → Rows × Option String)
    (hbody : ∀ r x, body r x = (r ∪ keys x, none)) (xs : List α) (rows : Rows) :
    forEachRow body xs rows = (rows ∪ xs.foldr (fun x acc => keys x ∪ acc) ∅, none) := by
  induction xs generalizing rows with
  | nil => simp [forEachRow]
  | cons x xs ih =>
    simp only [forEachRow, hbody, ih, List.foldr_cons, Prod.mk.injEq, and_true]
    ext k
    simp only [Finset.mem_union]
    tauto

theorem mem_foldr_union {α : Type} (keys : α → Finset String) (xs : List α) (k : String) :
    k ∈ xs.foldr (fun x acc => keys x ∪ acc) ∅ ↔ ∃ x ∈ xs, k ∈ keys x := by
  induction xs with
  | nil => simp
  | cons x xs ih => simp [ih]

theorem activateAll_mem (rows : Rows) (k : String) :
    (ActivateAll rows).2 = none ∧
      (k ∈ (ActivateAll rows).1 ↔
        k ∈ rows ∨ ∃ d ∈ Weekdays, ∃ h ∈ hours24, k = DayHourToString d h) := by
  have e : ActivateAll rows =
      (rows ∪ Weekdays.foldr
        (fun d acc => (hours24.map (fun h => DayHourToString d h)).toFinset ∪ acc) ∅, none) := by
    unfold ActivateAll
    apply forEachRow_union (fun d => (hours24.map (fun h => DayHourToString d h)).toFinset)
    intro r d
    exact forEachRow_insert (fun h => DayHourToString d h) _ (fun _ _ => rfl) _ _
  rw [e]
  refine ⟨rfl, ?_⟩
  simp only [Finset.mem_union, mem_foldr_union, List.mem_toFinset, List.mem_map]
  constructor
  · rintro (h | ⟨d, hd, h, hh, rfl⟩)
    · exact Or.inl h
    · exact Or.inr ⟨d, hd, h, hh, rfl⟩
  · rintro (h | ⟨d, hd, h, hh, rfl⟩)
    · exact Or.inl h
    · exact Or.inr ⟨d, hd, h, hh, rfl⟩

theorem weekday_mem_weekdays (d : Weekday) : d ∈ Weekdays := by
  cases d <;> decide

theorem hour_range (t : Time) : 0 ≤ t.Hour ∧ t.Hour ≤ 23 := by
  unfold Time.Hour
  have h1 := Int.emod_nonneg t.localSeconds (show (86400 : Int) ≠ 0 by decide)
  have h2 := Int.emod_lt_of_pos t.localSeconds (show (0 : Int) < 86400 by decide)
  omega

theorem hour_mem_hours24 (t : Time) : t.Hour ∈ hours24 := by
  obtain ⟨h0, h23⟩ := hour_range t
  unfold hours24
  rw [List.mem_map]
  refine ⟨t.Hour.toNat, ?_, ?_⟩
  · rw [List.mem_range]
    omega
  · simp only [Int.ofNat_eq_coe]
    omega

/-- Every weekday and every hour from 0 to 23 is the weekday and hour of some
time. -/
theorem every_cell_is_a_time (d : Weekday) (h : Int) (h0 : 0 ≤ h) (h23 : h ≤ 23) :
    ∃ t : Time, t.Weekday = d ∧ t.Hour = h := by
  have key : ∀ n : Int, 0 ≤ n → n ≤ 6 →
      (⟨(n * 86400 + h * 3600) * 1000000000, 0⟩ : Time).Weekday = weekdayOfIndex ((n + 4) % 7) ∧
      (⟨(n * 86400 + h * 3600) * 1000000000, 0⟩ : Time).Hour = h := by
    intro n n0 n6
    have e : (⟨(n * 86400 + h * 3600) * 1000000000, 0⟩ : Time).localSeconds =
        n * 86400 + h * 3600 := by
      simp only [Time.localSeconds]
      omega
    simp only [Time.Weekday, Time.Hour, e]
    constructor
    · congr 2
      omega
    · omega
  cases d
  · exact ⟨_, (key 3 (by decide) (by decide)).1.trans (by decide), (key 3 (by decide) (by decide)).2⟩
  · exact ⟨_, (key 4 (by decide) (by decide)).1.trans (by decide), (key 4 (by decide) (by decide)).2⟩
  · exact ⟨_, (key 5 (by decide) (by decide)).1.trans (by decide), (key 5 (by decide) (by decide)).2⟩
  · exact ⟨_, (key 6 (by decide) (by decide)).1.trans (by decide), (key 6 (by decide) (by decide)).2⟩
  · exact ⟨_, (key 0 (by decide) (by decide)).1.trans (by decide), (key 0 (by decide) (by decide)).2⟩
  · exact ⟨_, (key 1 (by decide) (by decide)).1.trans (by decide), (key 1 (by decide) (by decide)).2⟩
  · exact ⟨_, (key 2 (by decide) (by decide)).1.trans (by decide), (key 2 (by decide) (by decide)).2⟩

theorem isActiveTime_activateAll (rows : Rows) (mode : Option String) (now : Time) :
    IsActiveTime ⟨(ActivateAll rows).1, mode⟩ now = (true, none) := by
  have hmem : TimeToDayHourString now ∈ (ActivateAll rows).1 ↔ True := by
    rw [(activateAll_mem rows (TimeToDayHourString now)).2]
    simp only [iff_true]
    right
    refine ⟨now.Weekday, weekday_mem_weekdays _, now.Hour, hour_mem_hours24 now, ?_⟩
    unfold TimeToDayHourString
    rfl
  simp only [IsActiveTime, hmem, decide_True]

/-- C11: with the mode read from the store equal to Scheduled and no failing
statement: ActivateAll returns nil and after it IsActiveNow returns true for
every current time, the key TimeToDayHourString gives for the time being one
of the rows ActivateAll wrote (the count query of IsActiveTime finds it);
DeactivateAll returns nil and after it IsActiveNow returns false for every
current time. -/
theorem activateAll_then_active (s : Schedule) (now : Time)
    (hm : (GetMode s).2.1 = ModeSched) :
    (ActivateAll s.rows).2 = none ∧
      IsActiveTime { s with rows := (ActivateAll s.rows).1 } now = (true, none) ∧
      (IsActiveNow { s with rows := (ActivateAll s.rows).1 } now).2 = (true, none) ∧
      (DeactivateAll s.rows).2 = none ∧
      (IsActiveNow { s with rows := (DeactivateAll s.rows).1 } now).2 = (false, none) := by
  have hk := isActiveTime_activateAll s.rows s.mode now
  have hg : ∀ rows : Rows, (GetMode { s with rows := rows }).2.1 = ModeSched := by
    intro rows
    rw [← hm]
    unfold GetMode
    cases s.mode <;> rfl
  have h1 : ModeSched ≠ ModeOn := by decide
  have h2 : ModeSched ≠ ModeOff := by decide
  have ha : (ActivateAll s.rows).2 = none := (activateAll_mem s.rows "").1
  have hd : (DeactivateAll s.rows).2 = none := rfl
  have r1 : (IsActiveNow { s with rows := (ActivateAll s.rows).1 } now).2 = (true, none) := by
    rw [isActiveNow_eq]
    simp only [IsActiveTime, Prod.mk.injEq, and_true] at hk
    simp only [hg, h1, h2, if_false, hk]
  have r2 : (IsActiveNow { s with rows := (DeactivateAll s.rows).1 } now).2 = (false, none) := by
    rw [isActiveNow_eq]
    simp [hg, h1, h2, DeactivateAll]
  exact ⟨ha, hk, r1, hd, r2⟩

theorem activateAll_then_active_witness :
    (GetMode ⟨{"Monday-5"}, some "Sched"⟩).2.1 = ModeSched ∧
    (IsActiveNow
      { (⟨{"Monday-5"}, some "Sched"⟩ : Schedule) with
        rows := (ActivateAll (⟨{"Monday-5"}, some "Sched"⟩ : Schedule).rows).1 }
      ⟨1762214400 * Second, 0⟩).2 = (true, none) ∧
    (IsActiveNow
      { (⟨{"Monday-5"}, some "Sched"⟩ : Schedule) with
        rows := (DeactivateAll (⟨{"Monday-5"}, some "Sched"⟩ : Schedule).rows).1 }
      ⟨1762214400 * Second, 0⟩).2 = (false, none) ∧
    (ActivateAll ∅).1.card = 168 :=
  ⟨by decide,
    (activateAll_then_active ⟨{"Monday-5"}, some "Sched"⟩ ⟨1762214400 * Second, 0⟩
      (by decide)).2.2.1,
    (activateAll_then_active ⟨{"Monday-5"}, some "Sched"⟩ ⟨1762214400 * Second, 0⟩
      (by decide)).2.2.2.2,
    by decide!⟩


/-! ## C15: the command "mode set" -/

theorem upper_char_cases (c : Char) (h : 65 ≤ c.toNat ∧ c.toNat ≤ 90) :
    c = unicodeToTitle (Char.ofNat (c.toNat + 32)) := by
  have e : c = Char.ofNat c.toNat := (Char.ofNat_toNat c).symm
  obtain ⟨h1, h2⟩ := h
  generalize c.toNat = n at e h1 h2
  subst e
  interval_cases n <;> decide

theorem lower_char_cases (x : Char) (h : 97 ≤ x.toNat ∧ x.toNat ≤ 122) :
    unicodeToLower x = x ∧ unicodeToLower (unicodeToTitle x) = x := by
  have e : x = Char.ofNat x.toNat := (Char.ofNat_toNat x).symm
  obtain ⟨h1, h2⟩ := h
  generalize x.toNat = n at e h1 h2
  subst e
  interval_cases n <;> decide

theorem lower_eq (c x : Char) (h : unicodeToLower c = x) : c = x ∨ c = unicodeToTitle x := by
  unfold unicodeToLower at h
  split_ifs at h with hc
  · right
    rw [← h]
    exact upper_char_cases c hc
  · exact Or.inl h

theorem map_lower_eq_upperAt (l t : List Char) (h : l.map unicodeToLower = t) :
    ∃ upper : List Bool, l = upperAt t upper := by
  induction l generalizing t with
  | nil =>
    subst h
    exact ⟨[], rfl⟩
  | cons c cs ih =>
    subst h
    obtain ⟨us, hus⟩ := ih (cs.map unicodeToLower) rfl
    rcases lower_eq c (unicodeToLower c) rfl with hc | hc
    · refine ⟨false :: us, ?_⟩
      simp only [List.map_cons, upperAt, Bool.false_eq_true, if_false]
      rw [← hus, ← hc]
    · refine ⟨true :: us, ?_⟩
      simp only [List.map_cons, upperAt, if_true]
      rw [← hus, ← hc]

theorem lower_upperAt_letters (t : List Char) (upper : List Bool)
    (ht : ∀ x ∈ t, 97 ≤ x.toNat ∧ x.toNat ≤ 122) :
    (upperAt t upper).map unicodeToLower = t := by
  induction t generalizing upper with
  | nil => simp [upperAt]
  | cons x xs ih =>
    have hx := lower_char_cases x (ht x (List.mem_cons_self _ _))
    have hxs : ∀ y ∈ xs, 97 ≤ y.toNat ∧ y.toNat ≤ 122 :=
      fun y hy => ht y (List.mem_cons_of_mem _ hy)
    cases upper with
    | nil =>
      have := ih [] hxs
      simp only [upperAt, List.map_cons, hx.1, List.cons.injEq, true_and]
      conv_rhs => rw [← ih [] hxs]
      cases xs <;> simp [upperAt]
    | cons u us =>
      cases u
      · simp only [upperAt, Bool.false_eq_true, if_false, List.map_cons, hx.1, ih us hxs]
      · simp only [upperAt, if_true, List.map_cons, hx.2, ih us hxs]

/-- For a word of lower-case letters, being the word up to letter case is
the same as having the word as `strings.ToLower`. -/
theorem sameLetters_iff (s t : String) (ht : ∀ x ∈ t.data, 97 ≤ x.toNat ∧ x.toNat ≤ 122) :
    sameLetters s t ↔ ToLower s = t := by
  constructor
  · rintro ⟨upper, rfl⟩
    apply String.ext
    simp only [ToLower, withCase]
    exact lower_upperAt_letters t.data upper ht
  · intro h
    have hd : s.data.map unicodeToLower = t.data := by
      rw [← h]
      rfl
    obtain ⟨upper, hu⟩ := map_lower_eq_upperAt s.data t.data hd
    exact ⟨upper, String.ext hu⟩

theorem strMode_cases (obj : String) :
    (sameLetters obj "on" → StrMode obj = ModeOn) ∧
      (sameLetters obj "off" → StrMode obj = ModeOff) ∧
      (sameLetters obj "sched" → StrMode obj = ModeSched) ∧
      (¬ sameLetters obj "on" → ¬ sameLetters obj "off" → ¬ sameLetters obj "sched" →
        StrMode obj = ModeInvalid) := by
  rw [sameLetters_iff obj "on" (by decide), sameLetters_iff obj "off" (by decide),
    sameLetters_iff obj "sched" (by decide)]
  unfold StrMode
  refine ⟨?_, ?_, ?_, ?_⟩
  · intro h
    rw [h]
    decide
  · intro h
    rw [h]
    decide
  · intro h
    rw [h]
    decide
  · intro h1 h2 h3
    simp only [h1, h2, h3, if_false]

/-- C15: for every command with noun "mode" and verb "set": when the object
is "on", "off" or "sched" up to letter case, handleIncomingCmd stores the
text of the mode On, Off or Scheduled, leaves the schedule rows as they were
and reports the new mode; for every other object, the empty string
included, StrMode returns ModeInvalid and handleIncomingCmd sends the usage
message and leaves stored mode and rows unchanged. -/
theorem mode_set_command (s : Schedule) (cmd : Cmd)
    (hn : cmd.Noun = "mode") (hv : cmd.Verb = "set") :
    (sameLetters cmd.Obj "on" →
        handleIncomingCmd s cmd =
          some ({ s with mode := some "On" }, ["Mode set to 'On'"])) ∧
      (sameLetters cmd.Obj "off" →
        handleIncomingCmd s cmd =
          some ({ s with mode := some "Off" }, ["Mode set to 'Off'"])) ∧
      (sameLetters cmd.Obj "sched" →
        handleIncomingCmd s cmd =
          some ({ s with mode := some "Sched" }, ["Mode set to 'Sched'"])) ∧
      (¬ sameLetters cmd.Obj "on" → ¬ sameLetters cmd.Obj "off" →
        ¬ sameLetters cmd.Obj "sched" →
        StrMode cmd.Obj = ModeInvalid ∧
        handleIncomingCmd s cmd = some (s, ["usage: bot mode <on|off|sched>"])) := by
  obtain ⟨c1, c2, c3, c4⟩ := strMode_cases cmd.Obj
  have hg : "set" ≠ "get" := by decide
  refine ⟨?_, ?_, ?_, ?_⟩
  · intro h
    have e := c1 h
    have d : StrMode (ModeStr ModeOn) = ModeOn := by decide
    have i : ModeOn ≠ ModeInvalid := by decide
    simp only [handleIncomingCmd, hn, hv, hg, e, i, SetMode, GetMode, d, ne_eq,
      not_true_eq_false, if_false, if_true, List.nil_append]
    rfl
  · intro h
    have e := c2 h
    have d : StrMode (ModeStr ModeOff) = ModeOff := by decide
    have i : ModeOff ≠ ModeInvalid := by decide
    simp only [handleIncomingCmd, hn, hv, hg, e, i, SetMode, GetMode, d, ne_eq,
      not_true_eq_false, if_false, if_true, List.nil_append]
    rfl
  · intro h
    have e := c3 h
    have d : StrMode (ModeStr ModeSched) = ModeSched := by decide
    have i : ModeSched ≠ ModeInvalid := by decide
    simp only [handleIncomingCmd, hn, hv, hg, e, i, SetMode, GetMode, d, ne_eq,
      not_true_eq_false, if_false, if_true, List.nil_append]
    rfl
  · intro h1 h2 h3
    have e := c4 h1 h2 h3
    refine ⟨e, ?_⟩
    simp only [handleIncomingCmd, hn, hv, hg, e, ne_eq, not_true_eq_false, if_false, if_true,
      List.nil_append]

theorem mode_set_command_witness :
    (⟨0, "mode", "set", "ON"⟩ : Cmd).Noun = "mode" ∧
    (⟨0, "mode", "set", "ON"⟩ : Cmd).Verb = "set" ∧
    sameLetters "ON" "on" ∧
    handleIncomingCmd ⟨{"Monday-5"}, some "Off"⟩ ⟨0, "mode", "set", "ON"⟩ =
      some (⟨{"Monday-5"}, some "On"⟩, ["Mode set to 'On'"]) ∧
    handleIncomingCmd ⟨{"Monday-5"}, some "Off"⟩ ⟨0, "mode", "set", ""⟩ =
      some (⟨{"Monday-5"}, some "Off"⟩, ["usage: bot mode <on|off|sched>"]) :=
  ⟨rfl, rfl, ⟨[true, true], by decide⟩,
    (mode_set_command ⟨{"Monday-5"}, some "Off"⟩ ⟨0, "mode", "set", "ON"⟩ rfl rfl).1
      ⟨[true, true], by decide⟩,
    by decide!⟩


/-! ## C18: the overview cooldown -/

theorem sliceAt_sliceSet_same {α : Type} (xs : List α) (i : Int) (x y : α)
    (h : sliceAt xs i = some y) : sliceAt (sliceSet xs i x) i = some x := by
  unfold sliceAt at h ⊢
  unfold sliceSet
  by_cases hi : i < 0
  · simp [hi] at h
  · simp only [hi, if_false] at h ⊢
    have hlt : i.toNat < xs.length := by
      by_contra hge
      rw [List.getElem?_eq_none (by omega)] at h
      cases h
    simp [List.getElem?_set, hlt]

theorem sliceAt_sliceSet_ne {α : Type} (xs : List α) (i j : Int) (x : α) (hij : i ≠ j) :
    sliceAt (sliceSet xs i x) j = sliceAt xs j := by
  unfold sliceAt sliceSet
  by_cases hi : i < 0
  · simp [hi]
  · by_cases hj : j < 0
    · simp [hj]
    · have hne : i.toNat ≠ j.toNat := by omega
      simp [hi, hj, List.getElem?_set, hne]

theorem sliceSet_length {α : Type} (xs : List α) (i : Int) (x : α) :
    (sliceSet xs i x).length = xs.length := by
  unfold sliceSet
  split_ifs <;> simp

theorem clamp_ge (x : Int) (h : ¬ clampDuration x < 10 * Second) : 10 * Second ≤ x := by
  unfold clampDuration at h
  unfold Second at h ⊢
  split_ifs at h <;> omega

theorem maybeSendOverview_eq (a : App) (camIndex : Int) (cam : Cam) (jpegBytes : List Nat)
    (nowCheck nowSent : Time) (hcam : sliceAt a.Cams camIndex = some cam) :
    maybeSendOverview a camIndex jpegBytes nowCheck nowSent =
      some
        (if nowCheck.Sub cam.LastOverviewSent < 10 * Second then a
         else if (cam.TakeFrameBuckets).2 = false then
           { a with Cams := sliceSet a.Cams camIndex (cam.TakeFrameBuckets).1 }
         else
           { a with
             Cams := sliceSet a.Cams camIndex
               { (cam.TakeFrameBuckets).1 with LastOverviewSent := nowSent }
             AlertUploadChan := a.AlertUploadChan ++
               [{ CamIndex := camIndex, Caption := "", Data := jpegBytes }] }) := by
  unfold maybeSendOverview
  simp only [hcam]
  by_cases hc : nowCheck.Sub cam.LastOverviewSent < 10 * Second
  · simp [hc]
  · rcases hr : cam.TakeFrameBuckets with ⟨cam1, ok⟩
    cases ok <;> simp [hc]

theorem takeFrameBuckets_last (c : Cam) :
    (c.TakeFrameBuckets).1.LastOverviewSent = c.LastOverviewSent ∧
      (c.TakeFrameBuckets).1.Index = c.Index := by
  rw [takeFrameBuckets_cases]
  split_ifs <;> exact ⟨rfl, rfl⟩

/-- One call of maybeSendOverview on a state that has the camera: the call
returns; either it appends the overview job, and then the cooldown had
elapsed, the buckets granted and the last-overview time is `nowSent`, or it
leaves the channel and the last-overview time as they were. -/
theorem maybeSendOverview_step (a : App) (camIndex : Int) (cam : Cam) (jpegBytes : List Nat)
    (nowCheck nowSent : Time) (hcam : sliceAt a.Cams camIndex = some cam) :
    ∃ a', maybeSendOverview a camIndex jpegBytes nowCheck nowSent = some a' ∧
      ((a'.AlertUploadChan = a.AlertUploadChan ++
            [{ CamIndex := camIndex, Caption := "", Data := jpegBytes }] ∧
          ¬ nowCheck.Sub cam.LastOverviewSent < 10 * Second ∧
          (cam.TakeFrameBuckets).2 = true ∧
          lastOverview a' camIndex = some nowSent) ∨
        (a'.AlertUploadChan = a.AlertUploadChan ∧
          (nowCheck.Sub cam.LastOverviewSent < 10 * Second ∨
            (cam.TakeFrameBuckets).2 = false) ∧
          lastOverview a' camIndex = some cam.LastOverviewSent)) ∧
      (nowCheck.Sub cam.LastOverviewSent < 10 * Second → a' = a) := by
  refine ⟨_, maybeSendOverview_eq a camIndex cam jpegBytes nowCheck nowSent hcam, ?_, ?_⟩
  · by_cases hc : nowCheck.Sub cam.LastOverviewSent < 10 * Second
    · right
      simp only [hc, if_true, lastOverview, hcam, Option.map_some', true_or, and_self]
    · by_cases hr : (cam.TakeFrameBuckets).2 = false
      · right
        simp only [hc, hr, if_true, if_false, lastOverview, or_true, true_and,
          sliceAt_sliceSet_same _ _ _ _ hcam, Option.map_some', (takeFrameBuckets_last cam).1]
      · left
        have ht : (cam.TakeFrameBuckets).2 = true := by
          cases h : (cam.TakeFrameBuckets).2
          · exact absurd h hr
          · rfl
        simp [hc, ht, lastOverview, sliceAt_sliceSet_same _ _ _ _ hcam]
  · intro hc
    simp only [hc, if_true]


theorem maybeSendOverview_has_cam (a : App) (camIndex : Int) (jpegBytes : List Nat)
    (nowCheck nowSent : Time) (a' : App)
    (h : maybeSendOverview a camIndex jpegBytes nowCheck nowSent = some a') :
    ∃ cam, sliceAt a.Cams camIndex = some cam := by
  unfold maybeSendOverview at h
  cases hc : sliceAt a.Cams camIndex with
  | none => simp [hc] at h
  | some cam => exact ⟨cam, rfl⟩

theorem overviewStamps_spaced (camIndex : Int) (calls : List OverviewCall) :
    ∀ a : App,
      (∀ c ∈ calls, c.nowCheck.nanos ≤ c.nowSent.nanos) →
      (∀ c ∈ calls, ∀ b : App, lastOverview (c.before b) camIndex = lastOverview b camIndex) →
      (∀ t ∈ overviewStamps camIndex a calls, ∀ last, lastOverview a camIndex = some last →
        last.nanos + 10 * Second ≤ t.nanos) ∧
      List.Pairwise (fun t1 t2 : Time => t1.nanos + 10 * Second ≤ t2.nanos)
        (overviewStamps camIndex a calls) := by
  induction calls with
  | nil =>
    intro a _ _
    simp [overviewStamps]
  | cons c cs ih =>
    intro a hmono henv
    have hmono' : ∀ c ∈ cs, c.nowCheck.nanos ≤ c.nowSent.nanos :=
      fun x hx => hmono x (List.mem_cons_of_mem _ hx)
    have henv' : ∀ c ∈ cs, ∀ b : App,
        lastOverview (c.before b) camIndex = lastOverview b camIndex :=
      fun x hx => henv x (List.mem_cons_of_mem _ hx)
    have hb := henv c (List.mem_cons_self _ _) a
    have hc := hmono c (List.mem_cons_self _ _)
    unfold overviewStamps
    cases hm : maybeSendOverview (c.before a) camIndex c.jpegBytes c.nowCheck c.nowSent with
    | none => simp
    | some a' =>
      obtain ⟨cam, hcam⟩ := maybeSendOverview_has_cam _ _ _ _ _ _ hm
      obtain ⟨a2, h2, hstep, _⟩ :=
        maybeSendOverview_step (c.before a) camIndex cam c.jpegBytes c.nowCheck c.nowSent hcam
      rw [hm] at h2
      simp only [Option.some.injEq] at h2
      subst h2
      obtain ⟨ih1, ih2⟩ := ih a' hmono' henv'
      have hlast : lastOverview a camIndex = some cam.LastOverviewSent := by
        rw [← hb]
        simp [lastOverview, hcam]
      simp only
      rcases hstep with ⟨hch, hcool, _, hnew⟩ | ⟨hch, _, hnew⟩
      · have hlen : a'.AlertUploadChan.length > (c.before a).AlertUploadChan.length := by
          rw [hch]
          simp
        have hge := clamp_ge _ hcool
        simp only [hlen, if_true]
        constructor
        · intro t ht last hl
          rw [hlast] at hl
          simp only [Option.some.injEq] at hl
          subst hl
          rcases List.mem_cons.mp ht with rfl | ht
          · omega
          · have := ih1 t ht c.nowSent hnew
            unfold Second at *
            omega
        · rw [List.pairwise_cons]
          exact ⟨fun t ht => ih1 t ht c.nowSent hnew, ih2⟩
      · have hlen : ¬ a'.AlertUploadChan.length > (c.before a).AlertUploadChan.length := by
          rw [hch]
          omega
        simp only [hlen, if_false]
        constructor
        · intro t ht last hl
          rw [hlast] at hl
          simp only [Option.some.injEq] at hl
          subst hl
          exact ih1 t ht cam.LastOverviewSent hnew
        · exact ih2

/-- C18: on a state that has the camera, maybeSendOverview returns and puts
the overview job on the alert channel only when the cooldown has elapsed
(the time since LastOverviewSent is not below 10 seconds) and
TakeFrameBuckets grants; it sets LastOverviewSent, to the reading
`nowSent`, only when it sends; when the cooldown has not elapsed the whole
state, buckets included, is unchanged.  Consequently, in any run of calls
for the camera whose two clock readings do not decrease within a call, the
rest of the program writing LastOverviewSent nowhere between the calls, the
times of any two calls that sent are at least 10 seconds apart. -/
theorem overview_cooldown (a : App) (camIndex : Int) (cam : Cam) (jpegBytes : List Nat)
    (nowCheck nowSent : Time) (hcam : sliceAt a.Cams camIndex = some cam) :
    (∃ a', maybeSendOverview a camIndex jpegBytes nowCheck nowSent = some a' ∧
      ((a'.AlertUploadChan = a.AlertUploadChan ++
            [{ CamIndex := camIndex, Caption := "", Data := jpegBytes }] ∧
          ¬ nowCheck.Sub cam.LastOverviewSent < 10 * Second ∧
          (cam.TakeFrameBuckets).2 = true ∧
          lastOverview a' camIndex = some nowSent) ∨
        (a'.AlertUploadChan = a.AlertUploadChan ∧
          (nowCheck.Sub cam.LastOverviewSent < 10 * Second ∨
            (cam.TakeFrameBuckets).2 = false) ∧
          lastOverview a' camIndex = some cam.LastOverviewSent)) ∧
      (nowCheck.Sub cam.LastOverviewSent < 10 * Second → a' = a)) ∧
    (∀ calls : List OverviewCall,
      (∀ c ∈ calls, c.nowCheck.nanos ≤ c.nowSent.nanos) →
      (∀ c ∈ calls, ∀ b : App, lastOverview (c.before b) camIndex = lastOverview b camIndex) →
      List.Pairwise (fun t1 t2 : Time => t1.nanos + 10 * Second ≤ t2.nanos)
        (overviewStamps camIndex a calls)) :=
  ⟨maybeSendOverview_step a camIndex cam jpegBytes nowCheck nowSent hcam,
    fun calls hmono henv => (overviewStamps_spaced camIndex calls a hmono henv).2⟩


theorem overview_cooldown_witness :
    sliceAt plainApp.Cams 0 = some activeCam ∧
    (maybeSendOverview plainApp 0 [9] ⟨1000 * Second, 0⟩ ⟨1000 * Second + 5, 0⟩).map
      (fun a => (a.AlertUploadChan, lastOverview a 0)) =
      some ([⟨0, "", [9]⟩], some ⟨1000 * Second + 5, 0⟩) ∧
    List.Pairwise (fun t1 t2 : Time => t1.nanos + 10 * Second ≤ t2.nanos)
      (overviewStamps 0 plainApp
        [⟨id, [9], ⟨1000 * Second, 0⟩, ⟨1000 * Second + 5, 0⟩⟩,
         ⟨id, [8], ⟨1003 * Second, 0⟩, ⟨1003 * Second + 5, 0⟩⟩,
         ⟨id, [7], ⟨1012 * Second, 0⟩, ⟨1012 * Second + 5, 0⟩⟩]) ∧
    overviewStamps 0 plainApp
        [⟨id, [9], ⟨1000 * Second, 0⟩, ⟨1000 * Second + 5, 0⟩⟩,
         ⟨id, [8], ⟨1003 * Second, 0⟩, ⟨1003 * Second + 5, 0⟩⟩,
         ⟨id, [7], ⟨1012 * Second, 0⟩, ⟨1012 * Second + 5, 0⟩⟩] =
      [⟨1000 * Second + 5, 0⟩, ⟨1012 * Second + 5, 0⟩] :=
  ⟨by decide, by decide!,
    (overview_cooldown plainApp 0 activeCam [9] ⟨1000 * Second, 0⟩
      ⟨1000 * Second + 5, 0⟩ (by decide)).2 _ (by decide) (by simp),
    by decide!⟩


/-! ## C19, C20: the frame cycle -/

theorem sliceAt_lt {α : Type} (xs : List α) (i : Int) (y : α) (h : sliceAt xs i = some y) :
    0 ≤ i ∧ i.toNat < xs.length := by
  unfold sliceAt at h
  by_cases hi : i < 0
  · simp [hi] at h
  · simp only [hi, if_false] at h
    refine ⟨by omega, ?_⟩
    by_contra hge
    rw [List.getElem?_eq_none (by omega)] at h
    cases h

theorem sliceAt_of_lt {α : Type} (xs : List α) (i : Int) (h0 : 0 ≤ i)
    (hlt : i < xs.length) : ∃ y, sliceAt xs i = some y ∧ y ∈ xs := by
  have hn : i.toNat < xs.length := by omega
  refine ⟨xs[i.toNat], ?_, List.getElem_mem _⟩
  unfold sliceAt
  rw [if_neg (by omega)]
  exact List.getElem?_eq_getElem hn

theorem sliceAt_mem {α : Type} (xs : List α) (i : Int) (y : α) (h : sliceAt xs i = some y) :
    y ∈ xs := by
  unfold sliceAt at h
  split_ifs at h
  exact List.mem_iff_getElem?.mpr ⟨_, h⟩

theorem map_sliceSet {α β : Type} (f : α → β) (xs : List α) (i : Int) (x y : α)
    (h : sliceAt xs i = some y) (hf : f x = f y) : (sliceSet xs i x).map f = xs.map f := by
  obtain ⟨h0, hlt⟩ := sliceAt_lt xs i y h
  unfold sliceAt at h
  unfold sliceSet
  rw [if_neg (by omega)] at h ⊢
  apply List.ext_getElem?
  intro k
  simp only [List.getElem?_map, List.getElem?_set]
  by_cases hk : i.toNat = k
  · subst hk
    simp [hlt, h, hf]
  · simp [hk]

theorem sameCams_refl (a : App) : sameCams a a := ⟨rfl, rfl, rfl⟩

theorem sameCams_trans {a b c : App} (h1 : sameCams a b) (h2 : sameCams b c) : sameCams a c :=
  ⟨h2.1.trans h1.1, h2.2.1.trans h1.2.1, h2.2.2.trans h1.2.2⟩

theorem sameCams_length {a b : App} (h : sameCams a b) : b.Cams.length = a.Cams.length := by
  have := congrArg List.length h.2.2
  simpa using this

theorem sameCams_sliceAt {a b : App} (h : sameCams a b) (i : Int) (c : Cam)
    (hc : sliceAt a.Cams i = some c) :
    ∃ c', sliceAt b.Cams i = some c' ∧ c'.Index = c.Index ∧ c'.active = c.active := by
  obtain ⟨h0, hlt⟩ := sliceAt_lt _ _ _ hc
  have hlen := sameCams_length h
  obtain ⟨c', hc', _⟩ := sliceAt_of_lt b.Cams i h0 (by omega)
  refine ⟨c', hc', ?_⟩
  have hk : (b.Cams.map camKey)[i.toNat]? = (a.Cams.map camKey)[i.toNat]? := by rw [h.2.2]
  unfold sliceAt at hc hc'
  rw [if_neg (by omega)] at hc hc'
  simp only [List.getElem?_map, hc, hc', Option.map_some', Option.some.injEq, camKey,
    Prod.mk.injEq] at hk
  exact hk

theorem takeFrameBuckets_key (c : Cam) : camKey (c.TakeFrameBuckets).1 = camKey c := by
  rw [takeFrameBuckets_cases]
  split_ifs <;> rfl

theorem maybeSendOverview_same (a : App) (camIndex : Int) (cam : Cam) (jpegBytes : List Nat)
    (nowCheck nowSent : Time) (hcam : sliceAt a.Cams camIndex = some cam) :
    ∃ a', maybeSendOverview a camIndex jpegBytes nowCheck nowSent = some a' ∧
      sameCams a a' ∧ a'.InfoUploadChan = a.InfoUploadChan ∧
      (a'.AlertUploadChan = a.AlertUploadChan ∨
        a'.AlertUploadChan = a.AlertUploadChan ++
          [{ CamIndex := camIndex, Caption := "", Data := jpegBytes }]) := by
  refine ⟨_, maybeSendOverview_eq a camIndex cam jpegBytes nowCheck nowSent hcam, ?_⟩
  have k1 := map_sliceSet camKey a.Cams camIndex (cam.TakeFrameBuckets).1 cam hcam
    (takeFrameBuckets_key cam)
  have k2 := map_sliceSet camKey a.Cams camIndex
    { (cam.TakeFrameBuckets).1 with LastOverviewSent := nowSent } cam hcam
    (takeFrameBuckets_key cam)
  split_ifs
  · exact ⟨sameCams_refl a, rfl, Or.inl rfl⟩
  · exact ⟨⟨rfl, rfl, k1⟩, rfl, Or.inl rfl⟩
  · exact ⟨⟨rfl, rfl, k2⟩, rfl, Or.inr rfl⟩

theorem maybeSendBox_eq (a : App) (camIndex : Int) (cam : Cam) (label : String)
    (jpegBytes : List Nat) (hcam : sliceAt a.Cams camIndex = some cam) :
    maybeSendBox a camIndex label jpegBytes =
      some
        (if (cam.TakeFrameBuckets).2 = false then
           { a with Cams := sliceSet a.Cams camIndex (cam.TakeFrameBuckets).1 }
         else
           { a with
             Cams := sliceSet a.Cams camIndex (cam.TakeFrameBuckets).1
             AlertUploadChan := a.AlertUploadChan ++
               [{ CamIndex := camIndex, Caption := label, Data := jpegBytes }] }) := by
  unfold maybeSendBox
  simp only [hcam]
  rcases hr : cam.TakeFrameBuckets with ⟨cam1, ok⟩
  cases ok <;> simp

theorem maybeSendBox_same (a : App) (camIndex : Int) (cam : Cam) (label : String)
    (jpegBytes : List Nat) (hcam : sliceAt a.Cams camIndex = some cam) :
    ∃ a', maybeSendBox a camIndex label jpegBytes = some a' ∧
      sameCams a a' ∧ a'.InfoUploadChan = a.InfoUploadChan ∧
      (a'.AlertUploadChan = a.AlertUploadChan ∨
        a'.AlertUploadChan = a.AlertUploadChan ++
          [{ CamIndex := camIndex, Caption := label, Data := jpegBytes }]) := by
  refine ⟨_, maybeSendBox_eq a camIndex cam label jpegBytes hcam, ?_⟩
  have k1 := map_sliceSet camKey a.Cams camIndex (cam.TakeFrameBuckets).1 cam hcam
    (takeFrameBuckets_key cam)
  split_ifs
  · exact ⟨⟨rfl, rfl, k1⟩, rfl, Or.inl rfl⟩
  · exact ⟨⟨rfl, rfl, k1⟩, rfl, Or.inr rfl⟩

theorem rejectedLoop_frame (cam : Cam) (boxes : List Box) (a : App) :
    (NextFrameFromCam.rejectedLoop cam boxes a).Cams = a.Cams ∧
      (NextFrameFromCam.rejectedLoop cam boxes a).RoundRobin = a.RoundRobin ∧
      (NextFrameFromCam.rejectedLoop cam boxes a).DetectorAsked = a.DetectorAsked ∧
      (NextFrameFromCam.rejectedLoop cam boxes a).AlertUploadChan = a.AlertUploadChan := by
  induction boxes generalizing a with
  | nil => exact ⟨rfl, rfl, rfl, rfl⟩
  | cons b bs ih =>
    unfold NextFrameFromCam.rejectedLoop
    by_cases hs : cam.SendRejected = true
    · simp only [hs, if_true]
      obtain ⟨h1, h2, h3, h4⟩ := ih
        { a with InfoUploadChan := a.InfoUploadChan ++
            [{ CamIndex := cam.Index, Caption := b.RejectReason, Data := b.JPEGBytes }] }
      exact ⟨h1, h2, h3, h4⟩
    · simp only [hs, if_false]
      exact ih a

theorem hitLoop_eq_foldlM (cam : Cam) (boxes : List Box) (a : App) :
    NextFrameFromCam.hitLoop cam boxes a =
      boxes.foldlM (fun s box => maybeSendBox s cam.Index box.LabelConfidence box.JPEGBytes)
        a := by
  induction boxes generalizing a with
  | nil => rfl
  | cons b bs ih =>
    unfold NextFrameFromCam.hitLoop
    rw [List.foldlM_cons]
    cases h : maybeSendBox a cam.Index b.LabelConfidence b.JPEGBytes with
    | none => rfl
    | some a' =>
      simp only [Option.bind_eq_bind, Option.some_bind]
      exact ih a'

theorem hitLoop_same (cam : Cam) (boxes : List Box) (a : App) (c0 : Cam)
    (hcam : sliceAt a.Cams cam.Index = some c0) :
    ∃ (a' : App) (granted : List Box), NextFrameFromCam.hitLoop cam boxes a = some a' ∧
      sameCams a a' ∧ a'.InfoUploadChan = a.InfoUploadChan ∧
      granted.Sublist boxes ∧
      a'.AlertUploadChan = a.AlertUploadChan ++ granted.map (boxJob cam) := by
  induction boxes generalizing a c0 with
  | nil => exact ⟨a, [], rfl, sameCams_refl a, rfl, List.Sublist.refl _, by simp⟩
  | cons b bs ih =>
    obtain ⟨a1, h1, hs1, hi1, hal1⟩ :=
      maybeSendBox_same a cam.Index c0 b.LabelConfidence b.JPEGBytes hcam
    obtain ⟨c1, hc1, _⟩ := sameCams_sliceAt hs1 cam.Index c0 hcam
    obtain ⟨a2, granted, h2, hs2, hi2, hsub, hal2⟩ := ih a1 c1 hc1
    unfold NextFrameFromCam.hitLoop
    simp only [h1]
    rcases hal1 with hal1 | hal1
    · refine ⟨a2, granted, h2, sameCams_trans hs1 hs2, hi2.trans hi1,
        List.Sublist.cons _ hsub, ?_⟩
      rw [hal2, hal1]
    · refine ⟨a2, b :: granted, h2, sameCams_trans hs1 hs2, hi2.trans hi1,
        List.Sublist.cons₂ _ hsub, ?_⟩
      rw [hal2, hal1]
      simp [boxJob]


theorem nextFrameFromCam_ok (a : App) (index : Int) (cam c0 : Cam) (detect : Int → Detection)
    (fdr : FrameDetectResult) (nowCheck nowSent : Time)
    (hcam : sliceAt a.Cams index = some cam) (hidx : sliceAt a.Cams cam.Index = some c0)
    (hdet : detect cam.Index = .ok (some fdr)) :
    NextFrameFromCam a index detect nowCheck nowSent =
      if (NextFrameFromCam.filters cam fdr).HitBoxes.length > 0 then
        ((maybeSendOverview
            (NextFrameFromCam.rejectedLoop cam (NextFrameFromCam.filters cam fdr).RejectedBoxes
              { a with DetectorAsked := a.DetectorAsked ++ [cam.Index] })
            cam.Index (NextFrameFromCam.filters cam fdr).JPEGBytes nowCheck nowSent).bind
          (fun a1 => NextFrameFromCam.hitLoop cam (NextFrameFromCam.filters cam fdr).HitBoxes
            a1)).map (fun a2 => (a2, none))
      else
        some (NextFrameFromCam.rejectedLoop cam (NextFrameFromCam.filters cam fdr).RejectedBoxes
          { a with DetectorAsked := a.DetectorAsked ++ [cam.Index] }, none) := by
  obtain ⟨h0, hlt⟩ := sliceAt_lt _ _ _ hidx
  have hin : ¬ (cam.Index < 0 ∨ (a.Cams.length : Int) ≤ cam.Index) := by omega
  unfold NextFrameFromCam
  simp only [hcam, hdet, if_neg hin]
  split_ifs
  · cases h1 : maybeSendOverview
        (NextFrameFromCam.rejectedLoop cam (NextFrameFromCam.filters cam fdr).RejectedBoxes
          { a with DetectorAsked := a.DetectorAsked ++ [cam.Index] })
        cam.Index (NextFrameFromCam.filters cam fdr).JPEGBytes nowCheck nowSent with
    | none => rfl
    | some a1 =>
      simp only [Option.some_bind]
      cases h2 : NextFrameFromCam.hitLoop cam (NextFrameFromCam.filters cam fdr).HitBoxes a1 with
      | none => rfl
      | some a2 => rfl
  · rfl


theorem overview_then_box (a0 : App) (i : Int) (c0 : Cam) (jpegBytes : List Nat)
    (label : String) (boxBytes : List Nat) (nowCheck nowSent : Time)
    (hidx : sliceAt a0.Cams i = some c0)
    (hcool : ¬ nowCheck.Sub c0.LastOverviewSent < 10 * Second)
    (f2 : 2 ≤ c0.FrameLimit.availableTokens) (b2 : 2 ≤ c0.BurstLimit.availableTokens)
    (p2 : 2 ≤ c0.PaceLimit.availableTokens) :
    ∃ a1 a2, maybeSendOverview a0 i jpegBytes nowCheck nowSent = some a1 ∧
      maybeSendBox a1 i label boxBytes = some a2 ∧
      a2.AlertUploadChan = a0.AlertUploadChan ++
        [{ CamIndex := i, Caption := "", Data := jpegBytes },
         { CamIndex := i, Caption := label, Data := boxBytes }] := by
  obtain ⟨g, gf, gb, gp⟩ := takeFrameBuckets_grant c0 _ _ _ rfl rfl rfl
    (by omega) (by omega) (by omega)
  have h1 := maybeSendOverview_eq a0 i c0 jpegBytes nowCheck nowSent hidx
  rw [if_neg hcool, if_neg (by rw [g]; exact Bool.noConfusion)] at h1
  obtain ⟨g2, _⟩ := takeFrameBuckets_grant
    { (c0.TakeFrameBuckets).1 with LastOverviewSent := nowSent } _ _ _ rfl rfl rfl
    (by show 1 ≤ (c0.TakeFrameBuckets).1.FrameLimit.availableTokens; omega)
    (by show 1 ≤ (c0.TakeFrameBuckets).1.BurstLimit.availableTokens; omega)
    (by show 1 ≤ (c0.TakeFrameBuckets).1.PaceLimit.availableTokens; omega)
  have h2 := maybeSendBox_eq
    { a0 with
      Cams := sliceSet a0.Cams i { (c0.TakeFrameBuckets).1 with LastOverviewSent := nowSent }
      AlertUploadChan := a0.AlertUploadChan ++
        [{ CamIndex := i, Caption := "", Data := jpegBytes }] }
    i _ label boxBytes
    (sliceAt_sliceSet_same a0.Cams i
      { (c0.TakeFrameBuckets).1 with LastOverviewSent := nowSent } c0 hidx)
  rw [if_neg (by rw [g2]; exact Bool.noConfusion)] at h2
  refine ⟨_, _, h1, h2, ?_⟩
  simp only [List.append_assoc, List.singleton_append]

/-- C20: NextFrameFromCam on a detection result, for a camera whose Index is
an index of the camera slice (else the call panics before the detector is
asked).  With no hit box the call returns nil, puts no job on the alert
channel and leaves every camera, hence every bucket, as it was.  With at
least one hit box the call is exactly one maybeSendOverview followed by one
maybeSendBox per hit box, in box order; it returns nil, and the alert jobs
added are the overview job (empty caption) if granted, then the jobs of the
granted hit boxes in box order, each captioned with the LabelConfidence of
its box.  In particular, with a single hit box, an elapsed cooldown and at
least two tokens in each bucket (fresh buckets hold 20, 3 and 6), exactly the
overview job and the box job are added. -/
theorem hits_send_overview_then_boxes (a : App) (index : Int) (cam c0 : Cam)
    (detect : Int → Detection) (fdr : FrameDetectResult) (nowCheck nowSent : Time)
    (hcam : sliceAt a.Cams index = some cam) (hidx : sliceAt a.Cams cam.Index = some c0)
    (hdet : detect cam.Index = .ok (some fdr)) :
    ((NextFrameFromCam.filters cam fdr).HitBoxes = [] →
        ∃ a', NextFrameFromCam a index detect nowCheck nowSent = some (a', none) ∧
          a'.AlertUploadChan = a.AlertUploadChan ∧ a'.Cams = a.Cams) ∧
      ((NextFrameFromCam.filters cam fdr).HitBoxes ≠ [] →
        ∃ (a1 a' : App) (overview : List UploadJob) (granted : List Box),
          maybeSendOverview
              (NextFrameFromCam.rejectedLoop cam
                (NextFrameFromCam.filters cam fdr).RejectedBoxes
                { a with DetectorAsked := a.DetectorAsked ++ [cam.Index] })
              cam.Index (NextFrameFromCam.filters cam fdr).JPEGBytes nowCheck nowSent =
            some a1 ∧
          (NextFrameFromCam.filters cam fdr).HitBoxes.foldlM
              (fun s box => maybeSendBox s cam.Index box.LabelConfidence box.JPEGBytes) a1 =
            some a' ∧
          NextFrameFromCam a index detect nowCheck nowSent = some (a', none) ∧
          overview.Sublist
            [{ CamIndex := cam.Index, Caption := "",
               Data := (NextFrameFromCam.filters cam fdr).JPEGBytes }] ∧
          granted.Sublist (NextFrameFromCam.filters cam fdr).HitBoxes ∧
          a'.AlertUploadChan = a.AlertUploadChan ++ overview ++ granted.map (boxJob cam)) ∧
      (∀ box, (NextFrameFromCam.filters cam fdr).HitBoxes = [box] →
        ¬ nowCheck.Sub c0.LastOverviewSent < 10 * Second →
        2 ≤ c0.FrameLimit.availableTokens → 2 ≤ c0.BurstLimit.availableTokens →
        2 ≤ c0.PaceLimit.availableTokens →
        ∃ a', NextFrameFromCam a index detect nowCheck nowSent = some (a', none) ∧
          a'.AlertUploadChan = a.AlertUploadChan ++
            [{ CamIndex := cam.Index, Caption := "",
               Data := (NextFrameFromCam.filters cam fdr).JPEGBytes },
             { CamIndex := cam.Index, Caption := box.LabelConfidence,
               Data := box.JPEGBytes }]) := by
  have hrun := nextFrameFromCam_ok a index cam c0 detect fdr nowCheck nowSent hcam hidx hdet
  obtain ⟨r1, _, _, r4⟩ := rejectedLoop_frame cam
    (NextFrameFromCam.filters cam fdr).RejectedBoxes
    { a with DetectorAsked := a.DetectorAsked ++ [cam.Index] }
  have hidx0 : sliceAt (NextFrameFromCam.rejectedLoop cam
      (NextFrameFromCam.filters cam fdr).RejectedBoxes
      { a with DetectorAsked := a.DetectorAsked ++ [cam.Index] }).Cams cam.Index = some c0 := by
    rw [r1]
    exact hidx
  refine ⟨?_, ?_, ?_⟩
  · intro hnil
    refine ⟨_, ?_, r4, r1⟩
    rw [hrun, hnil]
    rfl
  · intro hne
    have hpos : (NextFrameFromCam.filters cam fdr).HitBoxes.length > 0 :=
      List.length_pos.mpr hne
    obtain ⟨a1, h1, hs1, _, hal1⟩ := maybeSendOverview_same _ cam.Index c0
      (NextFrameFromCam.filters cam fdr).JPEGBytes nowCheck nowSent hidx0
    obtain ⟨c1, hc1, _⟩ := sameCams_sliceAt hs1 cam.Index c0 hidx0
    obtain ⟨a2, granted, h2, _, _, hsub, hal2⟩ :=
      hitLoop_same cam (NextFrameFromCam.filters cam fdr).HitBoxes a1 c1 hc1
    have hjobs : ∃ overview : List UploadJob,
        overview.Sublist
          [{ CamIndex := cam.Index, Caption := "",
             Data := (NextFrameFromCam.filters cam fdr).JPEGBytes }] ∧
        a1.AlertUploadChan = a.AlertUploadChan ++ overview := by
      rcases hal1 with e | e
      · exact ⟨[], List.nil_sublist _, by rw [e, r4]; simp⟩
      · exact ⟨_, List.Sublist.refl _, by rw [e, r4]⟩
    obtain ⟨overview, hov, hal1⟩ := hjobs
    refine ⟨a1, a2, overview, granted, h1, ?_, ?_, hov, hsub, ?_⟩
    · rw [← hitLoop_eq_foldlM]
      exact h2
    · rw [hrun, if_pos hpos, h1]
      simp only [Option.some_bind, h2, Option.map_some']
    · rw [hal2, hal1]
  · intro box hbox hcool f2 b2 p2
    obtain ⟨a1, a2, h1, h2, hal⟩ := overview_then_box _ cam.Index c0
      (NextFrameFromCam.filters cam fdr).JPEGBytes box.LabelConfidence box.JPEGBytes
      nowCheck nowSent hidx0 hcool f2 b2 p2
    refine ⟨a2, ?_, ?_⟩
    · rw [hrun, hbox, h1]
      simp only [List.length_singleton, gt_iff_lt, zero_lt_one, if_true, Option.some_bind]
      unfold NextFrameFromCam.hitLoop
      simp only [h2]
      rfl
    · rw [hal, r4]


theorem hits_send_overview_then_boxes_witness :
    sliceAt plainApp.Cams 0 = some activeCam ∧
    sliceAt plainApp.Cams activeCam.Index = some activeCam ∧
    detectOneHit activeCam.Index = .ok (some oneHitFrame) ∧
    (NextFrameFromCam.filters activeCam oneHitFrame).HitBoxes =
      [{ tallBox with JPEGBytes := [1] }] ∧
    (∃ a', NextFrameFromCam plainApp 0 detectOneHit ⟨1000 * Second, 0⟩ ⟨1000 * Second + 5, 0⟩ =
        some (a', none) ∧
      a'.AlertUploadChan = plainApp.AlertUploadChan ++
        [{ CamIndex := activeCam.Index, Caption := "",
           Data := (NextFrameFromCam.filters activeCam oneHitFrame).JPEGBytes },
         { CamIndex := activeCam.Index,
           Caption := Box.LabelConfidence { tallBox with JPEGBytes := [1] },
           Data := Box.JPEGBytes { tallBox with JPEGBytes := [1] } }]) ∧
    (NextFrameFromCam plainApp 0 detectOneHit ⟨1000 * Second, 0⟩ ⟨1000 * Second + 5, 0⟩).map
        (fun r => (r.1.AlertUploadChan, r.2)) =
      some ([⟨0, "", [9]⟩, ⟨0, "Person: 50%", [1]⟩], none) :=
  ⟨by decide, by decide, rfl, by decide!,
    (hits_send_overview_then_boxes plainApp 0 activeCam activeCam detectOneHit oneHitFrame
      ⟨1000 * Second, 0⟩ ⟨1000 * Second + 5, 0⟩ (by decide) (by decide) rfl).2.2
      { tallBox with JPEGBytes := [1] } (by decide!) (by decide) (by decide) (by decide)
      (by decide),
    by decide!⟩


theorem keys_length {a b : App} (h : b.Cams.map camKey = a.Cams.map camKey) :
    b.Cams.length = a.Cams.length := by
  have := congrArg List.length h
  simpa using this

theorem keys_indexed {a b : App} (h : b.Cams.map camKey = a.Cams.map camKey)
    (ha : camsIndexed a) : camsIndexed b := by
  intro c hc
  have hlen := keys_length h
  have hm : camKey c ∈ b.Cams.map camKey := List.mem_map_of_mem _ hc
  rw [h, List.mem_map] at hm
  obtain ⟨c0, hc0, hk⟩ := hm
  have := ha c0 hc0
  simp only [camKey, Prod.mk.injEq] at hk
  rw [hlen, ← hk.1]
  exact this

theorem nextFrameFromCam_run (a : App) (index : Int) (cam : Cam) (detect : Int → Detection)
    (nowCheck nowSent : Time) (hcam : sliceAt a.Cams index = some cam)
    (h0 : 0 ≤ cam.Index) (hlt : cam.Index < a.Cams.length) :
    ∃ a', NextFrameFromCam a index detect nowCheck nowSent =
        some (a', returnedError (detect cam.Index)) ∧
      a'.RoundRobin = a.RoundRobin ∧ a'.Cams.map camKey = a.Cams.map camKey ∧
      a'.DetectorAsked = a.DetectorAsked ++ [cam.Index] := by
  have hin : ¬ (cam.Index < 0 ∨ (a.Cams.length : Int) ≤ cam.Index) := by omega
  cases hdet : detect cam.Index with
  | error err =>
    refine ⟨{ a with DetectorAsked := a.DetectorAsked ++ [cam.Index] }, ?_, rfl, rfl, rfl⟩
    unfold NextFrameFromCam
    simp only [hcam, hdet, if_neg hin, returnedError]
  | ok res =>
    cases res with
    | none =>
      refine ⟨{ a with DetectorAsked := a.DetectorAsked ++ [cam.Index] }, ?_, rfl, rfl, rfl⟩
      unfold NextFrameFromCam
      simp only [hcam, hdet, if_neg hin, returnedError]
    | some fdr =>
      obtain ⟨c0, hc0, _⟩ := sliceAt_of_lt a.Cams cam.Index h0 hlt
      have hrun := nextFrameFromCam_ok a index cam c0 detect fdr nowCheck nowSent hcam hc0 hdet
      obtain ⟨r1, r2, r3, _⟩ := rejectedLoop_frame cam
        (NextFrameFromCam.filters cam fdr).RejectedBoxes
        { a with DetectorAsked := a.DetectorAsked ++ [cam.Index] }
      by_cases hpos : (NextFrameFromCam.filters cam fdr).HitBoxes.length > 0
      · have hidx0 : sliceAt (NextFrameFromCam.rejectedLoop cam
            (NextFrameFromCam.filters cam fdr).RejectedBoxes
            { a with DetectorAsked := a.DetectorAsked ++ [cam.Index] }).Cams cam.Index =
            some c0 := by
          rw [r1]
          exact hc0
        obtain ⟨a1, h1, hs1, _, _⟩ := maybeSendOverview_same _ cam.Index c0
          (NextFrameFromCam.filters cam fdr).JPEGBytes nowCheck nowSent hidx0
        obtain ⟨c1, hc1, _⟩ := sameCams_sliceAt hs1 cam.Index c0 hidx0
        obtain ⟨a2, granted, h2, hs2, _⟩ :=
          hitLoop_same cam (NextFrameFromCam.filters cam fdr).HitBoxes a1 c1 hc1
        have hs := sameCams_trans hs1 hs2
        refine ⟨a2, ?_, ?_, ?_, ?_⟩
        · rw [hrun, if_pos hpos, h1]
          simp only [Option.some_bind, h2, Option.map_some', returnedError]
        · rw [hs.1, r2]
        · rw [hs.2.2, r1]
        · rw [hs.2.1, r3]
      · refine ⟨_, ?_, r2, ?_, r3⟩
        · rw [hrun, if_neg hpos]
          rfl
        · rw [r1]

theorem nextFrame_index (a : App) (hlen : (a.Cams.length : Int) < 2 ^ 63)
    (h0 : 0 ≤ a.RoundRobin) (hlt : a.RoundRobin < a.Cams.length) :
    (if wrapInt (a.RoundRobin + 1) ≥ (a.Cams.length : Int) then 0
      else wrapInt (a.RoundRobin + 1)) = (a.RoundRobin + 1) % a.Cams.length := by
  have hw : wrapInt (a.RoundRobin + 1) = a.RoundRobin + 1 := by
    unfold wrapInt
    omega
  rw [hw]
  by_cases hge : a.RoundRobin + 1 ≥ (a.Cams.length : Int)
  · rw [if_pos hge]
    have he : a.RoundRobin + 1 = (a.Cams.length : Int) := by omega
    rw [he, Int.emod_self]
  · rw [if_neg hge]
    exact (Int.emod_eq_of_lt (by omega) (by omega)).symm

theorem nextFrame_step (a : App) (detect : Int → Detection) (nowCheck nowSent : Time)
    (hlen : (a.Cams.length : Int) < 2 ^ 63)
    (h0 : 0 ≤ a.RoundRobin) (hlt : a.RoundRobin < a.Cams.length) (hidx : camsIndexed a) :
    ∃ a' err cam, NextFrame a detect nowCheck nowSent = some (a', err) ∧
      a'.RoundRobin = (a.RoundRobin + 1) % a.Cams.length ∧
      a'.Cams.length = a.Cams.length ∧
      0 ≤ a'.RoundRobin ∧ a'.RoundRobin < a'.Cams.length ∧ camsIndexed a' ∧
      sliceAt a.Cams a'.RoundRobin = some cam ∧
      a'.DetectorAsked = a.DetectorAsked ++ (if cam.active = true then [cam.Index] else []) ∧
      (cam.active = true → err = returnedError (detect cam.Index)) ∧
      (cam.active = false → err = none ∧ a' = { a with RoundRobin := a'.RoundRobin }) := by
  have hnpos : (0 : Int) < a.Cams.length := by omega
  have hr0 : 0 ≤ (a.RoundRobin + 1) % a.Cams.length := Int.emod_nonneg _ (by omega)
  have hr1 : (a.RoundRobin + 1) % a.Cams.length < a.Cams.length := Int.emod_lt_of_pos _ hnpos
  obtain ⟨cam, hcam, hmem⟩ := sliceAt_of_lt a.Cams _ hr0 hr1
  have hix := hidx cam hmem
  have hunf : NextFrame a detect nowCheck nowSent =
      if cam.active = true then
        NextFrameFromCam { a with RoundRobin := (a.RoundRobin + 1) % a.Cams.length }
          ((a.RoundRobin + 1) % a.Cams.length) detect nowCheck nowSent
      else some ({ a with RoundRobin := (a.RoundRobin + 1) % a.Cams.length }, none) := by
    unfold NextFrame
    have e : (if (wrapInt (a.RoundRobin + 1)) ≥ (a.Cams.length : Int) then
          ({ a with RoundRobin := 0 } : App)
        else { a with RoundRobin := wrapInt (a.RoundRobin + 1) }) =
        { a with RoundRobin := (a.RoundRobin + 1) % a.Cams.length } := by
      rw [← nextFrame_index a hlen h0 hlt]
      split_ifs <;> rfl
    simp only [e, hcam, Cam.IsActive]
    by_cases hact : cam.active = true
    · simp only [hact, if_true]
      cases NextFrameFromCam { a with RoundRobin := (a.RoundRobin + 1) % a.Cams.length }
          ((a.RoundRobin + 1) % a.Cams.length) detect nowCheck nowSent with
      | none => rfl
      | some r =>
        obtain ⟨s, e⟩ := r
        cases e <;> rfl
    · simp only [hact]
      rfl
  by_cases hact : cam.active = true
  · obtain ⟨a', hrun, q1, q2, q3⟩ := nextFrameFromCam_run
      { a with RoundRobin := (a.RoundRobin + 1) % a.Cams.length }
      ((a.RoundRobin + 1) % a.Cams.length) cam detect nowCheck nowSent hcam hix.1 hix.2
    have hl : a'.Cams.length = a.Cams.length := keys_length q2
    refine ⟨a', returnedError (detect cam.Index), cam, ?_, q1, hl, ?_, ?_,
      keys_indexed q2 hidx, ?_, ?_, ?_, ?_⟩
    · rw [hunf, if_pos hact]
      exact hrun
    · rw [q1]
      exact hr0
    · rw [q1, hl]
      exact hr1
    · rw [q1]
      exact hcam
    · rw [q3, if_pos hact]
    · intro _
      rfl
    · intro h
      rw [hact] at h
      cases h
  · have hf : cam.active = false := by
      cases h : cam.active
      · rfl
      · exact absurd h hact
    refine ⟨{ a with RoundRobin := (a.RoundRobin + 1) % a.Cams.length }, none, cam, ?_, rfl, rfl,
      hr0, hr1, hidx, hcam, ?_, ?_, ?_⟩
    · rw [hunf, if_neg hact]
    · simp [hf]
    · intro h
      exact absurd h hact
    · intro _
      exact ⟨rfl, rfl⟩


theorem selectedCams_eq (ticks : List Tick) (a : App)
    (hlen : (a.Cams.length : Int) < 2 ^ 63)
    (h0 : 0 ≤ a.RoundRobin) (hlt : a.RoundRobin < a.Cams.length) (hidx : camsIndexed a) :
    selectedCams a ticks =
      (List.range ticks.length).map
        (fun j : Nat => (a.RoundRobin + 1 + (j : Int)) % (a.Cams.length : Int)) := by
  induction ticks generalizing a with
  | nil => rfl
  | cons t ts ih =>
    obtain ⟨a', err, cam, hrun, q1, q2, q3, q4, q5, _⟩ :=
      nextFrame_step a t.detect t.nowCheck t.nowSent hlen h0 hlt hidx
    unfold selectedCams
    simp only [hrun]
    rw [ih a' (by rw [q2]; exact hlen) q3 q4 q5, List.length_cons, List.range_succ_eq_map,
      List.map_cons, List.map_map]
    congr 1
    · rw [q1]
      simp
    · apply List.map_congr_left
      intro j _
      simp only [Function.comp, q1, q2]
      rw [add_assoc ((a.RoundRobin + 1) % (a.Cams.length : Int)), Int.emod_add_emod]
      congr 1
      push_cast
      ring

theorem shift_mod_inj (r n : Int) (i j : Nat) (hi : (i : Int) < n) (hj : (j : Int) < n)
    (h : (r + 1 + (i : Int)) % n = (r + 1 + (j : Int)) % n) : i = j := by
  rw [Int.emod_eq_emod_iff_emod_sub_eq_zero] at h
  obtain ⟨k, hk⟩ := Int.dvd_of_emod_eq_zero h
  have hk2 : (i : Int) - j = n * k := by
    rw [← hk]
    ring
  rcases lt_trichotomy k 0 with hneg | hz | hp
  · have : n * k ≤ n * (-1) := by
      apply Int.mul_le_mul_of_nonneg_left <;> omega
    omega
  · rw [hz, mul_zero] at hk2
    omega
  · have : n * 1 ≤ n * k := by
      apply Int.mul_le_mul_of_nonneg_left <;> omega
    omega

theorem shifted_range_perm (r : Int) (n : Nat) (hn : 1 ≤ n) :
    List.Perm ((List.range n).map (fun j : Nat => (r + 1 + (j : Int)) % (n : Int)))
      ((List.range n).map Int.ofNat) := by
  have hpos : (0 : Int) < n := by omega
  apply List.Subperm.perm_of_length_le
  · apply List.subperm_of_subset
    · apply List.Nodup.map_on _ (List.nodup_range n)
      intro x hx y hy hxy
      rw [List.mem_range] at hx hy
      exact shift_mod_inj r n x y (by omega) (by omega) hxy
    · intro v hv
      rw [List.mem_map] at hv ⊢
      obtain ⟨j, _, rfl⟩ := hv
      have v0 : 0 ≤ (r + 1 + (j : Int)) % (n : Int) := Int.emod_nonneg _ (by omega)
      have v1 : (r + 1 + (j : Int)) % (n : Int) < n := Int.emod_lt_of_pos _ hpos
      refine ⟨((r + 1 + (j : Int)) % (n : Int)).toNat, ?_, ?_⟩
      · rw [List.mem_range]
        omega
      · show (((r + 1 + (j : Int)) % (n : Int)).toNat : Int) = _
        omega
  · simp

/-- One call of NextFrame on a state with at least one camera, the
round-robin index among the positions of the camera slice, and every
camera's Index a position of the slice (the length of a Go slice is an int,
hence below 2^63).  The call returns, whatever the detector answers, and the
index afterwards is (old + 1) mod n, again a position of the slice, with the
slice as long as before and its Index fields still positions.  The camera
selected is the one at the new index: if its active flag is true the detector
is asked once, for the Index of that camera, and the error of the detection
cycle is what NextFrame returns; if the flag is false NextFrame returns nil,
the detector is not asked and nothing but the index changes, so no job is put
on a channel.  Any n consecutive calls select every position of the slice
exactly once. -/
theorem nextFrame_round_robin (a : App) (detect : Int → Detection) (nowCheck nowSent : Time)
    (hn : 1 ≤ a.Cams.length) (hlen : (a.Cams.length : Int) < 2 ^ 63)
    (h0 : 0 ≤ a.RoundRobin) (hlt : a.RoundRobin < a.Cams.length) (hidx : camsIndexed a) :
    (∃ a' err cam, NextFrame a detect nowCheck nowSent = some (a', err) ∧
      a'.RoundRobin = (a.RoundRobin + 1) % a.Cams.length ∧
      a'.Cams.length = a.Cams.length ∧
      0 ≤ a'.RoundRobin ∧ a'.RoundRobin < a'.Cams.length ∧ camsIndexed a' ∧
      sliceAt a.Cams a'.RoundRobin = some cam ∧
      a'.DetectorAsked = a.DetectorAsked ++ (if cam.active = true then [cam.Index] else []) ∧
      (cam.active = true → err = returnedError (detect cam.Index)) ∧
      (cam.active = false → err = none ∧ a' = { a with RoundRobin := a'.RoundRobin })) ∧
    (∀ ticks : List Tick, ticks.length = a.Cams.length →
      List.Perm (selectedCams a ticks) ((List.range a.Cams.length).map Int.ofNat)) := by
  refine ⟨nextFrame_step a detect nowCheck nowSent hlen h0 hlt hidx, ?_⟩
  intro ticks hticks
  rw [selectedCams_eq ticks a hlen h0 hlt hidx, hticks]
  exact shifted_range_perm a.RoundRobin a.Cams.length hn


theorem nextFrame_round_robin_witness :
    1 ≤ threeCams.Cams.length ∧ (threeCams.Cams.length : Int) < 2 ^ 63 ∧
    0 ≤ threeCams.RoundRobin ∧ threeCams.RoundRobin < threeCams.Cams.length ∧
    camsIndexed threeCams ∧
    List.Perm
      (selectedCams threeCams
        [⟨detectOneHit, ⟨1000 * Second, 0⟩, ⟨1000 * Second, 0⟩⟩,
         ⟨detectNothing, ⟨1001 * Second, 0⟩, ⟨1001 * Second, 0⟩⟩,
         ⟨detectOneHit, ⟨1002 * Second, 0⟩, ⟨1002 * Second, 0⟩⟩])
      ((List.range threeCams.Cams.length).map Int.ofNat) ∧
    selectedCams threeCams
        [⟨detectOneHit, ⟨1000 * Second, 0⟩, ⟨1000 * Second, 0⟩⟩,
         ⟨detectNothing, ⟨1001 * Second, 0⟩, ⟨1001 * Second, 0⟩⟩,
         ⟨detectOneHit, ⟨1002 * Second, 0⟩, ⟨1002 * Second, 0⟩⟩] = [2, 0, 1] :=
  ⟨by decide, by decide, by decide, by decide, by unfold camsIndexed; decide,
    (nextFrame_round_robin threeCams detectNothing ⟨0, 0⟩ ⟨0, 0⟩ (by decide) (by decide)
      (by decide) (by decide) (by unfold camsIndexed; decide)).2 _ rfl,
    by decide!⟩

/-- C19 fails for cameras that are not numbered by their position.  The
state `gapApp`, which `main` builds from a configuration with a camera1 and
no camera0, has one camera and the round-robin index 0, as the claim asks;
the camera NextFrame selects is active and its Index is 1, no position of
the slice, and NextFrameFromCam indexes `stats.cams` by that Index: the call
panics, so it neither asks the detector nor returns. -/
theorem nextFrame_gap_panics :
    (1 ≤ gapApp.Cams.length ∧ 0 ≤ gapApp.RoundRobin ∧
      gapApp.RoundRobin < gapApp.Cams.length) ∧
    (sliceAt gapApp.Cams ((gapApp.RoundRobin + 1) % gapApp.Cams.length)).map
      (fun cam => (cam.active, cam.Index)) = some (true, 1) ∧
    NextFrame gapApp detectOneHit ⟨1000 * Second, 0⟩ ⟨1000 * Second, 0⟩ = none :=
  ⟨by decide, by decide, by decide!⟩

/-- On the state `gapTwoApp` NextFrame selects position 0 of the slice, the
camera "one", whose Index is 1: the detector is asked for the index 1, which
is the position of the camera "two", and the overview takes its tokens from
the buckets of the camera "two". -/
theorem nextFrame_gap_asks_other_camera :
    (NextFrame gapTwoApp detectOneHit ⟨1000 * Second, 0⟩ ⟨1000 * Second, 0⟩).map
        (fun r => (r.1.RoundRobin, r.1.DetectorAsked,
          r.1.Cams.map (fun cam => (cam.Name, cam.BurstLimit.availableTokens)))) =
      some (0, [1], [("one", 3), ("two", 1)]) ∧
    (sliceAt gapTwoApp.Cams 0).map (fun cam => (cam.Name, cam.Index)) = some ("one", 1) ∧
    (sliceAt gapTwoApp.Cams 1).map (fun cam => (cam.Name, cam.Index)) = some ("two", 2) := by
  decide!


theorem nextFrameFromCam_needs_index (a : App) (index : Int) (cam : Cam)
    (detect : Int → Detection) (nowCheck nowSent : Time)
    (hcam : sliceAt a.Cams index = some cam) (hno : sliceAt a.Cams cam.Index = none) :
    NextFrameFromCam a index detect nowCheck nowSent = none := by
  have hout : cam.Index < 0 ∨ (a.Cams.length : Int) ≤ cam.Index := by
    by_contra hin
    obtain ⟨y, hy, _⟩ := sliceAt_of_lt a.Cams cam.Index (by omega) (by omega)
    rw [hno] at hy
    cases hy
  unfold NextFrameFromCam
  simp only [hcam, if_pos hout]

/-! ## C23: the stall threshold of the supervisor -/

/-- With exactly 600 ticks counted and a rate of 1 per second, below 2,
checkMainTicker broadcasts nothing and does not call CancelAndExit: the
count must exceed 600. -/
theorem checkMainTicker_idle_at_600 :
    (600 : Int) ≥ 600 ∧ (1 : ℚ) < 2 ∧ checkMainTicker threeCams 600 1 "1.0" = ([], 0) := by
  refine ⟨by decide, by norm_num, ?_⟩
  have h : ¬ ((600 : Int) > 600 ∧ (1 : ℚ) < 2) := by norm_num
  simp only [checkMainTicker, h, if_false]

/-- C23, amended: for every snapshot of the meter (count c, one-minute rate
r), checkMainTicker declares the stream dead, that is, it broadcasts the
alert through the bot of every camera and calls CancelAndExit once, whenever
more than 600 ticks have been counted (c > 600) and r < 2; it sends nothing
and does not call CancelAndExit when at most 600 ticks have been counted or
r >= 2. -/
theorem checkMainTicker_threshold (a : App) (c : Int) (r : ℚ) (rateText : String) :
    (600 < c ∧ r < 2 →
        checkMainTicker a c r rateText =
          ((List.range a.Cams.length).map
            (fun i => (i, "Frame rate too low: " ++ rateText ++ ", halting!")), 1)) ∧
      (c ≤ 600 ∨ 2 ≤ r → checkMainTicker a c r rateText = ([], 0)) := by
  constructor
  · intro h
    have h1 : c > 600 ∧ r < 2 := h
    simp only [checkMainTicker, h1, and_self, if_true, BotBroadcastMsg]
  · intro h
    have h1 : ¬ (c > 600 ∧ r < 2) := by
      rintro ⟨hc, hr⟩
      rcases h with h | h
      · omega
      · exact absurd hr (not_lt.mpr h)
    simp only [checkMainTicker, h1, if_false]

/-! ## C27: the parameters of a camera -/

theorem splitSep_ne_nil (sep : List Char) (l : List Char) :
    ∀ (skip : Nat) (piece : List Char), splitSep sep skip piece l ≠ [] := by
  induction l with
  | nil =>
    intro skip piece
    simp [splitSep]
  | cons c cs ih =>
    intro skip piece
    cases skip with
    | zero =>
      unfold splitSep
      split_ifs
      · simp
      · exact ih 0 _
    | succ k =>
      unfold splitSep
      exact ih k piece

theorem splitOn_length_pos (s sep : String) : 1 ≤ (SplitOn s sep).length := by
  unfold SplitOn
  rw [List.length_map]
  exact List.length_pos.mpr (splitSep_ne_nil _ _ _ _)

/-- The method GetParams panics exactly when the split of the URI on "://"
has two pieces and the split on "@" has one. -/
theorem getParams_panics_iff (c : Cam) :
    c.GetParams = none ↔
      (SplitOn c.VideoCaptureURI "://").length = 2 ∧
        (SplitOn c.VideoCaptureURI "@").length = 1 := by
  have hb := splitOn_length_pos c.VideoCaptureURI "://"
  have ha := splitOn_length_pos c.VideoCaptureURI "@"
  unfold Cam.GetParams
  rcases hbe : SplitOn c.VideoCaptureURI "://" with _ | ⟨b0, _ | ⟨b1, _ | ⟨b2, bs⟩⟩⟩ <;>
    rcases hae : SplitOn c.VideoCaptureURI "@" with _ | ⟨a0, _ | ⟨a1, _ | ⟨a2, as⟩⟩⟩ <;>
    rw [hbe] at hb <;> rw [hae] at ha <;> simp at hb ha ⊢

/-- C27 fails for a capture URI without credentials.  For the URI
"rtsp://host/stream" the split on "://" has two pieces and the split on "@"
has one, so GetParams indexes `after[1]` out of range and panics; for
"rtsp://user:pw@host/stream" it returns, and the Capture line reads
"rtsp://host/stream". -/
theorem getParams_panics_without_credentials :
    SplitOn "rtsp://host/stream" "://" = ["rtsp", "host/stream"] ∧
    SplitOn "rtsp://host/stream" "@" = ["rtsp://host/stream"] ∧
    Cam.GetParams { plainCam with VideoCaptureURI := "rtsp://host/stream" } = none ∧
    (Cam.GetParams { plainCam with VideoCaptureURI := "rtsp://user:pw@host/stream" }).map
        (fun out => decide (Contains out "Capture: rtsp://host/stream\n")) = some true := by
  decide!

/-! ## C28: a region of interest without a crop -/

/-- The function New panics exactly when the configuration gives a region
of interest (both sides at least 20) and no crop (a side below 20). -/
theorem new_panics_iff (config : Config) (now : Time) :
    New config now = none ↔
      (20 ≤ config.ROIWidth ∧ 20 ≤ config.ROIHeight) ∧
        (config.CropWidth < 20 ∨ config.CropHeight < 20) := by
  unfold New GetRectForROI
  by_cases hr : config.ROIWidth < 20 ∨ config.ROIHeight < 20
  · have : ¬ (20 ≤ config.ROIWidth ∧ 20 ≤ config.ROIHeight) := by omega
    simp [hr, this]
  · have hr2 : 20 ≤ config.ROIWidth ∧ 20 ≤ config.ROIHeight := by omega
    by_cases hc : config.CropWidth < 20 ∨ config.CropHeight < 20
    · simp [hr, hc, hr2]
    · simp only [hr, hc, if_false, hr2, and_self, true_and, iff_false]
      split_ifs <;> simp

/-- C28 fails for a region of interest without a crop.  For the
configuration with ROIWidth = ROIHeight = 20 and no crop, GetRectForROI
returns a rectangle for the region and nil for the crop, and New panics on
`cropRect.Dx()`: it returns neither a camera nor an error. -/
theorem new_panics_on_roi_without_crop :
    GetRectForROI roiOnlyConfig.ROIX roiOnlyConfig.ROIY roiOnlyConfig.ROIWidth
        roiOnlyConfig.ROIHeight = some ⟨⟨0, 0⟩, ⟨20, 20⟩⟩ ∧
    GetRectForROI roiOnlyConfig.CropX roiOnlyConfig.CropY roiOnlyConfig.CropWidth
        roiOnlyConfig.CropHeight = none ∧
    New roiOnlyConfig ⟨1000 * Second, 0⟩ = none := by
  decide!

/-! ## C30: the number in the reason of RejectSize -/

/-- C30 fails for the minimum height.  The box `flatBox` is 30 wide and 10
high; with a minimum height of 20 and no other bound RejectSize rejects it
for its height, and the reason reads "Rejected height: 30", the width of the
box.  With a maximum height of 5 the reason reads "Rejected height: 10", and
with a minimum width of 40 or a maximum width of 20 it reads "Rejected
width: 30". -/
theorem rejectSize_prints_width_for_min_height :
    flatBox.GetWidth = 30 ∧ flatBox.GetHeight = 10 ∧
    (RejectSize.body 0 20 0 0 flatBox).RejectReason = "Rejected height: 30, Person: 50%" ∧
    (RejectSize.body 0 0 0 5 flatBox).RejectReason = "Rejected height: 10, Person: 50%" ∧
    (RejectSize.body 40 0 0 0 flatBox).RejectReason = "Rejected width: 30, Person: 50%" ∧
    (RejectSize.body 0 0 20 0 flatBox).RejectReason = "Rejected width: 30, Person: 50%" := by
  decide!


/-! ## C24: what New compares -/

theorem getRect_sides (x y w h : Int) (hw : 20 ≤ w) (hh : 20 ≤ h)
    (hr : rectInRange x y w h) : (GetRect x y w h).Dx = w ∧ (GetRect x y w h).Dy = h := by
  obtain ⟨hx, hy, hw2, hh2, hxw, hyh⟩ := hr
  have e1 : wrapInt (x + w) = x + w := by
    unfold wrapInt
    omega
  have e2 : wrapInt (y + h) = y + h := by
    unfold wrapInt
    omega
  have n1 : ¬ x > x + w := by omega
  have n2 : ¬ y > y + h := by omega
  simp only [GetRect, Rect, e1, e2, n1, n2, if_false, Rectangle.Dx, Rectangle.Dy]
  constructor
  · unfold wrapInt
    omega
  · unfold wrapInt
    omega

/-- With a crop of 100 by 100 and a region of interest of 50 by 50 at
(90, 90), which reaches to (140, 140), beyond the crop image, New returns a
camera. -/
theorem new_accepts_roi_beyond_crop :
    (20 ≤ offsetRoiConfig.CropWidth ∧ 20 ≤ offsetRoiConfig.CropHeight ∧
      20 ≤ offsetRoiConfig.ROIWidth ∧ 20 ≤ offsetRoiConfig.ROIHeight) ∧
    ¬ roiInsideCrop offsetRoiConfig ∧
    returnsCamera (New offsetRoiConfig ⟨1000 * Second, 0⟩) = true ∧
    returnsError (New offsetRoiConfig ⟨1000 * Second, 0⟩) = false := by
  decide

/-- C24, amended: for every Config with both a crop rectangle and a region
of interest (width and height of each at least 20), New returns a camera if
and only if the ROI rectangle is no wider and no taller than the crop
rectangle, and returns an error when the ROI rectangle is wider or taller;
the position (ROIX, ROIY) of the ROI is not compared.  The width and height
of a rectangle are Dx and Dy, which are the configured width and height
when the corners are values of a 64-bit int. -/
theorem new_compares_sides (config : Config) (now : Time)
    (hcrop : 20 ≤ config.CropWidth ∧ 20 ≤ config.CropHeight)
    (hroi : 20 ≤ config.ROIWidth ∧ 20 ≤ config.ROIHeight) :
    (returnsCamera (New config now) = true ↔
        (GetRect config.ROIX config.ROIY config.ROIWidth config.ROIHeight).Dx ≤
            (GetRect config.CropX config.CropY config.CropWidth config.CropHeight).Dx ∧
          (GetRect config.ROIX config.ROIY config.ROIWidth config.ROIHeight).Dy ≤
            (GetRect config.CropX config.CropY config.CropWidth config.CropHeight).Dy) ∧
      (returnsError (New config now) = true ↔
        (GetRect config.ROIX config.ROIY config.ROIWidth config.ROIHeight).Dx >
            (GetRect config.CropX config.CropY config.CropWidth config.CropHeight).Dx ∨
          (GetRect config.ROIX config.ROIY config.ROIWidth config.ROIHeight).Dy >
            (GetRect config.CropX config.CropY config.CropWidth config.CropHeight).Dy) ∧
      (rectInRange config.CropX config.CropY config.CropWidth config.CropHeight →
        rectInRange config.ROIX config.ROIY config.ROIWidth config.ROIHeight →
        (returnsCamera (New config now) = true ↔
          config.ROIWidth ≤ config.CropWidth ∧ config.ROIHeight ≤ config.CropHeight) ∧
        (returnsError (New config now) = true ↔
          config.CropWidth < config.ROIWidth ∨ config.CropHeight < config.ROIHeight)) := by
  have hc : ¬ (config.CropWidth < 20 ∨ config.CropHeight < 20) := by omega
  have hr : ¬ (config.ROIWidth < 20 ∨ config.ROIHeight < 20) := by omega
  have key : New config now =
      if (GetRect config.ROIX config.ROIY config.ROIWidth config.ROIHeight).Dx >
            (GetRect config.CropX config.CropY config.CropWidth config.CropHeight).Dx ∨
          (GetRect config.ROIX config.ROIY config.ROIWidth config.ROIHeight).Dy >
            (GetRect config.CropX config.CropY config.CropWidth config.CropHeight).Dy then
        some (.error ("ROI: " ++
          rectangleString (GetRect config.ROIX config.ROIY config.ROIWidth config.ROIHeight) ++
          " must be smaller and relative to the crop image: " ++
          rectangleString
            (GetRect config.CropX config.CropY config.CropWidth config.CropHeight)))
      else
        some (.ok
          { Name := config.Name
            Index := config.Index
            LastOverviewSent := now.Add (-10 * Second)
            MinConfidence := if config.MinConfidence = 0 then 15 else config.MinConfidence
            MaxWidth := config.MaxWidth
            MaxHeight := config.MaxHeight
            MinWidth := config.MinWidth
            MinHeight := config.MinHeight
            RequirePortrait := config.RequirePortrait
            CropRect := some
              (GetRect config.CropX config.CropY config.CropWidth config.CropHeight)
            ROIRect := some (GetRect config.ROIX config.ROIY config.ROIWidth config.ROIHeight)
            SendRejected := config.SendRejected
            VideoCaptureURI := config.VideoCaptureURI
            active := false }) := by
    simp only [New, GetRectForROI, hc, hr, if_false]
  have main : (returnsCamera (New config now) = true ↔
        (GetRect config.ROIX config.ROIY config.ROIWidth config.ROIHeight).Dx ≤
            (GetRect config.CropX config.CropY config.CropWidth config.CropHeight).Dx ∧
          (GetRect config.ROIX config.ROIY config.ROIWidth config.ROIHeight).Dy ≤
            (GetRect config.CropX config.CropY config.CropWidth config.CropHeight).Dy) ∧
      (returnsError (New config now) = true ↔
        (GetRect config.ROIX config.ROIY config.ROIWidth config.ROIHeight).Dx >
            (GetRect config.CropX config.CropY config.CropWidth config.CropHeight).Dx ∨
          (GetRect config.ROIX config.ROIY config.ROIWidth config.ROIHeight).Dy >
            (GetRect config.CropX config.CropY config.CropWidth config.CropHeight).Dy) := by
    rw [key]
    by_cases hbig :
        (GetRect config.ROIX config.ROIY config.ROIWidth config.ROIHeight).Dx >
            (GetRect config.CropX config.CropY config.CropWidth config.CropHeight).Dx ∨
          (GetRect config.ROIX config.ROIY config.ROIWidth config.ROIHeight).Dy >
            (GetRect config.CropX config.CropY config.CropWidth config.CropHeight).Dy
    · rw [if_pos hbig]
      refine ⟨?_, ?_⟩
      · simp only [returnsCamera, Bool.false_eq_true, false_iff]
        omega
      · simp only [returnsError, true_iff]
        exact hbig
    · rw [if_neg hbig]
      refine ⟨?_, ?_⟩
      · simp only [returnsCamera, true_iff]
        omega
      · simp only [returnsError, Bool.false_eq_true, false_iff]
        exact hbig
  refine ⟨main.1, main.2, ?_⟩
  intro hcr hrr
  obtain ⟨c1, c2⟩ := getRect_sides _ _ _ _ hcrop.1 hcrop.2 hcr
  obtain ⟨r1, r2⟩ := getRect_sides _ _ _ _ hroi.1 hroi.2 hrr
  rw [c1, c2, r1, r2] at main
  exact ⟨main.1, main.2⟩

theorem new_compares_sides_witness :
    (20 ≤ offsetRoiConfig.CropWidth ∧ 20 ≤ offsetRoiConfig.CropHeight) ∧
    (20 ≤ offsetRoiConfig.ROIWidth ∧ 20 ≤ offsetRoiConfig.ROIHeight) ∧
    rectInRange offsetRoiConfig.CropX offsetRoiConfig.CropY offsetRoiConfig.CropWidth
      offsetRoiConfig.CropHeight ∧
    rectInRange offsetRoiConfig.ROIX offsetRoiConfig.ROIY offsetRoiConfig.ROIWidth
      offsetRoiConfig.ROIHeight ∧
    (returnsCamera (New offsetRoiConfig ⟨1000 * Second, 0⟩) = true ↔
      offsetRoiConfig.ROIWidth ≤ offsetRoiConfig.CropWidth ∧
        offsetRoiConfig.ROIHeight ≤ offsetRoiConfig.CropHeight) :=
  ⟨by decide, by decide, by unfold rectInRange; decide, by unfold rectInRange; decide,
    ((new_compares_sides offsetRoiConfig ⟨1000 * Second, 0⟩ (by decide) (by decide)).2.2
      (by unfold rectInRange; decide) (by unfold rectInRange; decide)).1⟩

/-! ## C29: what a parsed entry holds -/

/-- C29: for every input on which ParseDayHour succeeds, either a weekday is
returned together with the hour -1, or the returned hour is at least 0; the
tests `hour == -1 && day == nil` of Activate and Deactivate and the test
`hour < -1` of Deactivate are false, so neither method returns "No day or hour
found", and Deactivate returns "Invalid hour, only 0-23 allowed" exactly for an
hour above 23. -/
theorem parseDayHour_day_or_hour (s : String) (day : Option Weekday) (hour : Int)
    (h : ParseDayHour s = .ok (day, hour)) :
    ((day ≠ none ∧ hour = -1) ∨ 0 ≤ hour) ∧
      ¬ (hour = -1 ∧ day = none) ∧ ¬ hour < -1 ∧
      (∀ rows : Rows, (Activate rows s).2 ≠ some "No day or hour found") ∧
      (∀ rows : Rows, (Deactivate rows s).2 ≠ some "No day or hour found") ∧
      (∀ rows : Rows,
        (Deactivate rows s).2 = some "Invalid hour, only 0-23 allowed" ↔ 23 < hour) := by
  have hshape := parseDayHour_shape s day hour h
  refine ⟨?_, ?_, ?_, ?_, ?_, ?_⟩
  · rcases hshape with h0 | ⟨h1, hd⟩
    · exact Or.inr h0
    · exact Or.inl ⟨hd, h1⟩
  · rintro ⟨h1, hd⟩
    rcases hshape with h0 | ⟨_, hd2⟩
    · omega
    · exact hd2 hd
  · rcases hshape with h0 | ⟨h1, _⟩ <;> omega
  · intro rows
    rw [activate_eq rows s day hour h]
    simp
  · intro rows
    by_cases h23 : hour ≤ 23
    · rw [deactivate_eq rows s day hour h h23]
      simp
    · rw [deactivate_refuses_hour rows s day hour h (by omega)]
      show some "Invalid hour, only 0-23 allowed" ≠ some "No day or hour found"
      decide
  · intro rows
    by_cases h23 : hour ≤ 23
    · rw [deactivate_eq rows s day hour h h23]
      simp only [reduceCtorEq, false_iff, not_lt]
      exact h23
    · rw [deactivate_refuses_hour rows s day hour h (by omega)]
      simp only [true_iff]
      omega

theorem parseDayHour_day_or_hour_witness :
    ParseDayHour "mon" = .ok (some .Monday, -1) ∧
    (((some Weekday.Monday : Option Weekday) ≠ none ∧ (-1 : Int) = -1) ∨ (0 : Int) ≤ -1) ∧
    (Activate ∅ "mon").2 ≠ some "No day or hour found" :=
  ⟨by decide!,
    (parseDayHour_day_or_hour "mon" (some .Monday) (-1) (by decide!)).1,
    (parseDayHour_day_or_hour "mon" (some .Monday) (-1) (by decide!)).2.2.2.1 ∅⟩


/-! ## C21: rejected boxes on the informational channel -/

theorem rejectedLoop_info (cam : Cam) (boxes : List Box) (a : App) :
    (NextFrameFromCam.rejectedLoop cam boxes a).InfoUploadChan =
      a.InfoUploadChan ++
        (if cam.SendRejected = true then boxes.map (rejectedJob cam) else []) := by
  induction boxes generalizing a with
  | nil =>
    unfold NextFrameFromCam.rejectedLoop
    split_ifs <;> simp
  | cons b bs ih =>
    unfold NextFrameFromCam.rejectedLoop
    by_cases hs : cam.SendRejected = true
    · simp only [hs, if_true] at ih ⊢
      rw [ih]
      simp [rejectedJob]
    · simp only [hs, if_false] at ih ⊢
      rw [ih]
      simp

/-- C21: NextFrameFromCam on a detection result, for a camera whose Index is
a position of the camera slice, returns nil.  When SendRejected is true the
informational channel receives exactly one job for each rejected box, in box
order, with the RejectReason of the box as caption and its image as data;
when SendRejected is false the informational channel is as before.  Either
way the jobs do not depend on the buckets, and the loop over the rejected
boxes leaves every camera, hence every bucket, and the alert channel as they
were; with no hit box the whole call leaves the cameras as they were. -/
theorem rejected_boxes_to_info (a : App) (index : Int) (cam c0 : Cam)
    (detect : Int → Detection) (fdr : FrameDetectResult) (nowCheck nowSent : Time)
    (hcam : sliceAt a.Cams index = some cam) (hidx : sliceAt a.Cams cam.Index = some c0)
    (hdet : detect cam.Index = .ok (some fdr)) :
    ∃ a', NextFrameFromCam a index detect nowCheck nowSent = some (a', none) ∧
      (cam.SendRejected = true →
        a'.InfoUploadChan = a.InfoUploadChan ++
          (NextFrameFromCam.filters cam fdr).RejectedBoxes.map (rejectedJob cam)) ∧
      (cam.SendRejected = false → a'.InfoUploadChan = a.InfoUploadChan) ∧
      (NextFrameFromCam.rejectedLoop cam (NextFrameFromCam.filters cam fdr).RejectedBoxes
        { a with DetectorAsked := a.DetectorAsked ++ [cam.Index] }).Cams = a.Cams ∧
      (NextFrameFromCam.rejectedLoop cam (NextFrameFromCam.filters cam fdr).RejectedBoxes
        { a with DetectorAsked := a.DetectorAsked ++ [cam.Index] }).AlertUploadChan =
          a.AlertUploadChan ∧
      ((NextFrameFromCam.filters cam fdr).HitBoxes = [] → a'.Cams = a.Cams) := by
  have hrun := nextFrameFromCam_ok a index cam c0 detect fdr nowCheck nowSent hcam hidx hdet
  obtain ⟨r1, _, _, r4⟩ := rejectedLoop_frame cam
    (NextFrameFromCam.filters cam fdr).RejectedBoxes
    { a with DetectorAsked := a.DetectorAsked ++ [cam.Index] }
  have rinfo := rejectedLoop_info cam (NextFrameFromCam.filters cam fdr).RejectedBoxes
    { a with DetectorAsked := a.DetectorAsked ++ [cam.Index] }
  have hidx0 : sliceAt (NextFrameFromCam.rejectedLoop cam
      (NextFrameFromCam.filters cam fdr).RejectedBoxes
      { a with DetectorAsked := a.DetectorAsked ++ [cam.Index] }).Cams cam.Index = some c0 := by
    rw [r1]
    exact hidx
  have hfinal : ∃ a', NextFrameFromCam a index detect nowCheck nowSent = some (a', none) ∧
      a'.InfoUploadChan = (NextFrameFromCam.rejectedLoop cam
        (NextFrameFromCam.filters cam fdr).RejectedBoxes
        { a with DetectorAsked := a.DetectorAsked ++ [cam.Index] }).InfoUploadChan ∧
      ((NextFrameFromCam.filters cam fdr).HitBoxes = [] → a'.Cams = a.Cams) := by
    by_cases hpos : (NextFrameFromCam.filters cam fdr).HitBoxes.length > 0
    · obtain ⟨a1, h1, hs1, hi1, _⟩ := maybeSendOverview_same _ cam.Index c0
        (NextFrameFromCam.filters cam fdr).JPEGBytes nowCheck nowSent hidx0
      obtain ⟨c1, hc1, _⟩ := sameCams_sliceAt hs1 cam.Index c0 hidx0
      obtain ⟨a2, granted, h2, _, hi2, _, _⟩ :=
        hitLoop_same cam (NextFrameFromCam.filters cam fdr).HitBoxes a1 c1 hc1
      refine ⟨a2, ?_, hi2.trans hi1, ?_⟩
      · rw [hrun, if_pos hpos, h1]
        simp only [Option.some_bind, h2, Option.map_some']
      · intro hnil
        rw [hnil] at hpos
        simp at hpos
    · refine ⟨_, ?_, rfl, fun _ => r1⟩
      rw [hrun, if_neg hpos]
  obtain ⟨a', hres, hinfo, hcams⟩ := hfinal
  refine ⟨a', hres, ?_, ?_, r1, r4, hcams⟩
  · intro hs
    rw [hinfo, rinfo, if_pos hs]
  · intro hs
    rw [hinfo, rinfo, if_neg (by rw [hs]; exact Bool.noConfusion)]
    simp

theorem rejected_boxes_to_info_witness :
    sliceAt forwardingApp.Cams 0 = some forwardingCam ∧
    sliceAt forwardingApp.Cams forwardingCam.Index = some forwardingCam ∧
    detectOneHit forwardingCam.Index = .ok (some oneHitFrame) ∧
    forwardingCam.SendRejected = true ∧
    (∃ a', NextFrameFromCam forwardingApp 0 detectOneHit ⟨1000 * Second, 0⟩
          ⟨1000 * Second + 5, 0⟩ = some (a', none) ∧
        a'.InfoUploadChan = forwardingApp.InfoUploadChan ++
          (NextFrameFromCam.filters forwardingCam oneHitFrame).RejectedBoxes.map
            (rejectedJob forwardingCam)) ∧
    (NextFrameFromCam forwardingApp 0 detectOneHit ⟨1000 * Second, 0⟩
        ⟨1000 * Second + 5, 0⟩).map
        (fun r => (r.1.InfoUploadChan, r.1.AlertUploadChan, r.1.Cams, r.2)) =
      some ([⟨0, "Rejected width: 500, Person: 50%", [1]⟩], [], [forwardingCam], none) := by
  obtain ⟨a', h1, h2, _⟩ := rejected_boxes_to_info forwardingApp 0 forwardingCam forwardingCam
    detectOneHit oneHitFrame ⟨1000 * Second, 0⟩ ⟨1000 * Second + 5, 0⟩ (by decide) (by decide) rfl
  exact ⟨by decide, by decide, rfl, by decide, ⟨a', h1, h2 (by decide)⟩, by decide!⟩


/-! ## C22: the mode switch of the supervisor -/

theorem setActive_same (c : Cam) : c.SetActive c.active = c := by
  cases c
  rfl

theorem checkModeSwitch_loop_eq (schedActiveNow : Nat → Bool × Option String)
    (cams : List Cam) (n : Nat) (b : Bool)
    (hok : ∀ i, n ≤ i → i < n + cams.length → (schedActiveNow i).2 = none) :
    checkModeSwitch.loop schedActiveNow n cams b =
      ((cams.enumFrom n).map (fun p => p.2.SetActive (schedActiveNow p.1).1),
        ((cams.enumFrom n).filter (flagDiffers schedActiveNow)).map
          (stateMessage schedActiveNow),
        b || (cams.enumFrom n).any (flagDiffers schedActiveNow)) := by
  induction cams generalizing n b with
  | nil => simp [checkModeSwitch.loop]
  | cons cam rest ih =>
    have herr : (schedActiveNow n).2 = none :=
      hok n (Nat.le_refl n) (by simp)
    have hrest : ∀ i, n + 1 ≤ i → i < n + 1 + rest.length → (schedActiveNow i).2 = none := by
      intro i h1 h2
      exact hok i (by omega) (by simp only [List.length_cons]; omega)
    unfold checkModeSwitch.loop
    rcases hr : schedActiveNow n with ⟨active, err⟩
    rw [hr] at herr
    simp only at herr
    subst herr
    simp only [ne_eq, not_true_eq_false, if_false, Cam.IsActive]
    by_cases hd : active = cam.active
    · subst hd
      simp only [not_true_eq_false, if_false, ih (n + 1) b hrest, List.enumFrom_cons,
        List.map_cons, List.filter_cons, List.any_cons, flagDiffers, hr, bne_self_eq_false,
        Bool.false_eq_true, Bool.false_or, setActive_same]
    · have hne : (active != cam.active) = true := by
        cases active <;> cases h : cam.active <;> simp_all
      simp only [hd, not_false_eq_true, if_true, ih (n + 1) true hrest, List.enumFrom_cons,
        List.map_cons, List.filter_cons, List.any_cons, flagDiffers, hr, hne, stateMessage,
        Bool.true_or, Bool.or_true]

/-- C22: for every list of cameras whose reads of the store all succeed,
checkModeSwitch leaves each camera as it was except for its active flag,
which is the value SchedActiveNow returned for the camera; it sends one
message, ON or OFF after that value, through the bot of each camera whose
flag differed, in the order of the cameras, and none for the others; and it
calls ToggleFeeds once when at least one flag differed and not at all when
none did. -/
theorem checkModeSwitch_sets_flags (a : App) (schedActiveNow : Nat → Bool × Option String)
    (hok : ∀ i, i < a.Cams.length → (schedActiveNow i).2 = none) :
    checkModeSwitch a schedActiveNow =
        ({ a with Cams := a.Cams.enum.map (fun p => p.2.SetActive (schedActiveNow p.1).1) },
          (a.Cams.enum.filter (flagDiffers schedActiveNow)).map (stateMessage schedActiveNow),
          if a.Cams.enum.any (flagDiffers schedActiveNow) = true then 1 else 0) ∧
      (∀ (i : Nat) (cam : Cam), a.Cams[i]? = some cam →
        (checkModeSwitch a schedActiveNow).1.Cams[i]? =
            some { cam with active := (schedActiveNow i).1 } ∧
          (((i, "Detector changed state: ON") ∈ (checkModeSwitch a schedActiveNow).2.1 ↔
              (schedActiveNow i).1 = true ∧ cam.active = false) ∧
            ((i, "Detector changed state: OFF") ∈ (checkModeSwitch a schedActiveNow).2.1 ↔
              (schedActiveNow i).1 = false ∧ cam.active = true))) ∧
      ((checkModeSwitch a schedActiveNow).2.2 = 1 ↔
        ∃ (i : Nat) (cam : Cam), a.Cams[i]? = some cam ∧ (schedActiveNow i).1 ≠ cam.active) ∧
      ((checkModeSwitch a schedActiveNow).2.2 = 0 ↔
        ∀ (i : Nat) (cam : Cam), a.Cams[i]? = some cam → (schedActiveNow i).1 = cam.active) := by
  have hloop := checkModeSwitch_loop_eq schedActiveNow a.Cams 0 false
    (fun i _ h => hok i (by omega))
  have hmain : checkModeSwitch a schedActiveNow =
      ({ a with Cams := a.Cams.enum.map (fun p => p.2.SetActive (schedActiveNow p.1).1) },
        (a.Cams.enum.filter (flagDiffers schedActiveNow)).map (stateMessage schedActiveNow),
        if a.Cams.enum.any (flagDiffers schedActiveNow) = true then 1 else 0) := by
    unfold checkModeSwitch
    rw [hloop]
    simp only [Bool.false_or, List.enum]
  have hany : a.Cams.enum.any (flagDiffers schedActiveNow) = true ↔
      ∃ (i : Nat) (cam : Cam), a.Cams[i]? = some cam ∧ (schedActiveNow i).1 ≠ cam.active := by
    rw [List.any_eq_true]
    constructor
    · rintro ⟨⟨i, cam⟩, hmem, hd⟩
      refine ⟨i, cam, List.mk_mem_enum_iff_getElem?.mp hmem, ?_⟩
      simpa [flagDiffers] using hd
    · rintro ⟨i, cam, hget, hd⟩
      refine ⟨(i, cam), List.mk_mem_enum_iff_getElem?.mpr hget, ?_⟩
      simpa [flagDiffers] using hd
  have hmsg : ∀ (i : Nat) (cam : Cam) (msg : String), a.Cams[i]? = some cam →
      ((i, msg) ∈ (a.Cams.enum.filter (flagDiffers schedActiveNow)).map
          (stateMessage schedActiveNow) ↔
        (schedActiveNow i).1 ≠ cam.active ∧
          msg = if (schedActiveNow i).1 = true then "Detector changed state: ON"
            else "Detector changed state: OFF") := by
    intro i cam msg hget
    rw [List.mem_map]
    constructor
    · rintro ⟨⟨j, c⟩, hmem, heq⟩
      rw [List.mem_filter] at hmem
      simp only [stateMessage, Prod.mk.injEq] at heq
      obtain ⟨hj, hm⟩ := heq
      subst hj
      have hc := List.mk_mem_enum_iff_getElem?.mp hmem.1
      rw [hget] at hc
      cases hc
      exact ⟨by simpa [flagDiffers] using hmem.2, hm.symm⟩
    · rintro ⟨hd, hm⟩
      refine ⟨(i, cam), List.mem_filter.mpr
        ⟨List.mk_mem_enum_iff_getElem?.mpr hget, by simpa [flagDiffers] using hd⟩, ?_⟩
      simp only [stateMessage, hm]
  refine ⟨hmain, ?_, ?_, ?_⟩
  · intro i cam hget
    rw [hmain]
    refine ⟨?_, ?_, ?_⟩
    · simp only [List.getElem?_map, List.getElem?_enum, hget, Option.map_some']
      rfl
    · rw [hmsg i cam _ hget]
      cases h1 : (schedActiveNow i).1 <;> cases h2 : cam.active <;> simp
    · rw [hmsg i cam _ hget]
      cases h1 : (schedActiveNow i).1 <;> cases h2 : cam.active <;> simp
  · rw [hmain, ← hany]
    simp only
    split_ifs with h
    · simp [h]
    · simp [h]
  · rw [hmain]
    simp only
    have hnone : ¬ a.Cams.enum.any (flagDiffers schedActiveNow) = true ↔
        ∀ (i : Nat) (cam : Cam), a.Cams[i]? = some cam → (schedActiveNow i).1 = cam.active := by
      rw [hany]
      push_neg
      rfl
    rw [← hnone]
    split_ifs with h
    · simp [h]
    · simp [h]

theorem checkModeSwitch_sets_flags_witness :
    (∀ i, i < threeCams.Cams.length →
      (readStores [⟨∅, some "Off"⟩, ⟨∅, some "On"⟩, ⟨∅, some "On"⟩] ⟨0, 0⟩ i).2 = none) ∧
    checkModeSwitch threeCams
        (readStores [⟨∅, some "Off"⟩, ⟨∅, some "On"⟩, ⟨∅, some "On"⟩] ⟨0, 0⟩) =
      ({ threeCams with
          Cams := [plainCam, { activeCam with Index := 1 }, { activeCam with Index := 2 }] },
        [(0, "Detector changed state: OFF"), (1, "Detector changed state: ON")], 1) ∧
    ((checkModeSwitch threeCams
        (readStores [⟨∅, some "Off"⟩, ⟨∅, some "On"⟩, ⟨∅, some "On"⟩] ⟨0, 0⟩)).2.2 = 1 ↔
      ∃ (i : Nat) (cam : Cam), threeCams.Cams[i]? = some cam ∧
        (readStores [⟨∅, some "Off"⟩, ⟨∅, some "On"⟩, ⟨∅, some "On"⟩] ⟨0, 0⟩ i).1 ≠
          cam.active) :=
  ⟨by decide!, by decide!,
    (checkModeSwitch_sets_flags threeCams
      (readStores [⟨∅, some "Off"⟩, ⟨∅, some "On"⟩, ⟨∅, some "On"⟩] ⟨0, 0⟩)
      (by decide!)).2.2.1⟩


/-! ## C25: one iteration of the main loop -/

/-- C25: one iteration of the select loop of Run.  On a tick whose NextFrame
returns CamStatusInactive the loop continues, and on a tick whose NextFrame
returns another non-nil error Run returns that error (with nil the loop
continues).  On a snapshot or frame command that names a camera of the App:
when the detector answers CamStatusInactive, the notice is sent through the
bot of that camera, the App, hence every channel, is as before and the loop
continues; when it answers another error Run returns that error and nothing
is sent or enqueued; when it answers an image, one job for the camera is put
on the informational channel and the loop continues.  On cancellation Run
returns nil. -/
theorem run_step_cases (s : RunState) :
    (∀ (detect : Int → Detection) (nowCheck nowSent : Time) (a : App) (err : Option Error),
      NextFrame s.app detect nowCheck nowSent = some (a, err) →
        (err = some Error.CamStatusInactive →
          Run.step s (.tick detect nowCheck nowSent) =
            some (.continues { s with app := a })) ∧
        (∀ e, err = some e → e ≠ Error.CamStatusInactive →
          Run.step s (.tick detect nowCheck nowSent) =
            some (.returns { s with app := a } (some e))) ∧
        (err = none →
          Run.step s (.tick detect nowCheck nowSent) =
            some (.continues { s with app := a }))) ∧
    (∀ (cmd : Cmd) (cam : Cam), sliceAt s.app.Cams cmd.CamIndex = some cam →
      (∀ stamp, Run.step s (.snapshot cmd stamp (.error Error.CamStatusInactive)) =
          some (.continues { s with sent := s.sent ++
            [(cmd.CamIndex, "Camera feed is currently inactive, turn it on first")] })) ∧
        (Run.step s (.frame cmd (.error Error.CamStatusInactive)) =
          some (.continues { s with sent := s.sent ++
            [(cmd.CamIndex, "Camera feed is currently inactive, turn it on first")] })) ∧
        (∀ stamp e, e ≠ Error.CamStatusInactive →
          Run.step s (.snapshot cmd stamp (.error e)) = some (.returns s (some e))) ∧
        (∀ e, e ≠ Error.CamStatusInactive →
          Run.step s (.frame cmd (.error e)) = some (.returns s (some e))) ∧
        (∀ stamp jpegBytes, Run.step s (.snapshot cmd stamp (.ok jpegBytes)) =
          some (.continues { s with app := { s.app with
            InfoUploadChan := s.app.InfoUploadChan ++
              [{ CamIndex := cmd.CamIndex, Caption := "Snapshot: " ++ stamp,
                 Data := jpegBytes }] } })) ∧
        (∀ caption jpegBytes, Run.step s (.frame cmd (.ok (caption, jpegBytes))) =
          some (.continues { s with app := { s.app with
            InfoUploadChan := s.app.InfoUploadChan ++
              [{ CamIndex := cmd.CamIndex, Caption := caption, Data := jpegBytes }] } }))) ∧
    Run.step s .done = some (.returns s none) := by
  refine ⟨?_, ?_, rfl⟩
  · intro detect nowCheck nowSent a err hrun
    refine ⟨?_, ?_, ?_⟩
    · intro he
      simp only [Run.step, hrun, he, if_true]
    · intro e he hne
      have h1 : ¬ (some e = some Error.CamStatusInactive) := by
        intro h
        exact hne (Option.some.inj h)
      simp only [Run.step, hrun, he, h1, if_false, ne_eq, reduceCtorEq, not_false_eq_true,
        if_true]
    · intro he
      simp only [Run.step, hrun, he, reduceCtorEq, if_false, ne_eq, not_true_eq_false]
  · intro cmd cam hcam
    refine ⟨?_, ?_, ?_, ?_, ?_, ?_⟩
    · intro stamp
      simp only [Run.step, hcam, if_true]
    · simp only [Run.step, hcam, if_true]
    · intro stamp e hne
      simp only [Run.step, hcam, hne, if_false]
    · intro e hne
      simp only [Run.step, hcam, hne, if_false]
    · intro stamp jpegBytes
      simp only [Run.step, hcam]
    · intro caption jpegBytes
      simp only [Run.step, hcam]

/-- An instance of each case of the main loop on the state with the one
camera `activeCam`. -/
theorem run_step_examples :
    Run.step ⟨plainApp, []⟩ (.tick (fun _ => .error Error.CamStatusInactive) ⟨0, 0⟩ ⟨0, 0⟩) =
      some (.continues ⟨{ plainApp with DetectorAsked := [0] }, []⟩) ∧
    Run.step ⟨plainApp, []⟩ (.tick (fun _ => .error (Error.other "no frame")) ⟨0, 0⟩ ⟨0, 0⟩) =
      some (.returns ⟨{ plainApp with DetectorAsked := [0] }, []⟩
        (some (Error.other "no frame"))) ∧
    Run.step ⟨plainApp, []⟩ (.snapshot ⟨0, "snap", "", ""⟩ "now" (.error Error.CamStatusInactive)) =
      some (.continues
        ⟨plainApp, [(0, "Camera feed is currently inactive, turn it on first")]⟩) ∧
    Run.step ⟨plainApp, []⟩ (.frame ⟨0, "frame", "", ""⟩ (.error (Error.other "no frame"))) =
      some (.returns ⟨plainApp, []⟩ (some (Error.other "no frame"))) ∧
    Run.step ⟨plainApp, []⟩ .done = some (.returns ⟨plainApp, []⟩ none) := by
  decide


/-! ## C26: from a message to a command -/

theorem splitNRunes_ne_nil (sep : Char) (n : Nat) (l : List Char) :
    splitNRunes sep (n + 1) l ≠ [] := by
  induction l generalizing n with
  | nil => cases n <;> simp [splitNRunes]
  | cons c cs ih =>
    cases n with
    | zero => simp [splitNRunes]
    | succ k =>
      unfold splitNRunes
      split_ifs
      · simp
      · cases h : splitNRunes sep (k + 2) cs <;> simp

theorem splitNRunes_length_le (sep : Char) (n : Nat) (l : List Char) :
    (splitNRunes sep n l).length ≤ n := by
  induction l generalizing n with
  | nil =>
    rcases n with _ | _ | k <;> simp [splitNRunes]
  | cons c cs ih =>
    rcases n with _ | _ | k
    · simp [splitNRunes]
    · simp [splitNRunes]
    · unfold splitNRunes
      split_ifs
      · have := ih (k + 1)
        simp only [List.length_cons]
        omega
      · have := ih (k + 2)
        cases h : splitNRunes sep (k + 2) cs with
        | nil => simp
        | cons p ps =>
          rw [h] at this
          simpa using this

theorem intercalate_cons_cons (sep p : List Char) (q : List Char) (ps : List (List Char)) :
    List.intercalate sep (p :: q :: ps) = p ++ sep ++ List.intercalate sep (q :: ps) := by
  simp [List.intercalate, List.intersperse]

theorem intercalate_single (sep p : List Char) : List.intercalate sep [p] = p := by
  simp [List.intercalate, List.intersperse]

theorem intercalate_cons_head (sep : List Char) (c : Char) (p : List Char)
    (ps : List (List Char)) :
    List.intercalate sep ((c :: p) :: ps) = c :: List.intercalate sep (p :: ps) := by
  cases ps with
  | nil => simp [intercalate_single]
  | cons q qs => simp [intercalate_cons_cons]

theorem splitNRunes_join (sep : Char) (n : Nat) (l : List Char) :
    List.intercalate [sep] (splitNRunes sep (n + 1) l) = l := by
  induction l generalizing n with
  | nil => cases n <;> simp [splitNRunes, intercalate_single]
  | cons c cs ih =>
    cases n with
    | zero => simp [splitNRunes, intercalate_single]
    | succ k =>
      unfold splitNRunes
      split_ifs with hc
      · have hne := splitNRunes_ne_nil sep k cs
        cases h : splitNRunes sep (k + 1) cs with
        | nil => exact absurd h hne
        | cons q qs =>
          rw [intercalate_cons_cons, ← h, ih k, hc]
          rfl
      · have hne := splitNRunes_ne_nil sep (k + 1) cs
        cases h : splitNRunes sep (k + 2) cs with
        | nil => exact absurd h hne
        | cons q qs =>
          simp only
          rw [intercalate_cons_head, ← h, ih (k + 1)]

theorem splitNRunes_no_sep (sep : Char) (n : Nat) (l : List Char) :
    ∀ (i : Nat) (p : List Char), (splitNRunes sep n l)[i]? = some p → i + 1 < n → sep ∉ p := by
  induction l generalizing n with
  | nil =>
    intro i p hp hi
    rcases n with _ | _ | k
    · simp [splitNRunes] at hp
    · omega
    · simp only [splitNRunes] at hp
      cases i with
      | zero =>
        simp at hp
        subst hp
        simp
      | succ j => simp at hp
  | cons c cs ih =>
    intro i p hp hi
    rcases n with _ | _ | k
    · omega
    · omega
    · unfold splitNRunes at hp
      split_ifs at hp with hc
      · cases i with
        | zero =>
          simp at hp
          subst hp
          simp
        | succ j =>
          simp only [List.getElem?_cons_succ] at hp
          exact ih (k + 1) j p hp (by omega)
      · cases h : splitNRunes sep (k + 2) cs with
        | nil =>
          rw [h] at hp
          cases i with
          | zero =>
            simp at hp
            subst hp
            simpa using Ne.symm hc
          | succ j => simp at hp
        | cons q qs =>
          rw [h] at hp
          cases i with
          | zero =>
            simp at hp
            subst hp
            have hq := ih (k + 2) 0 q (by rw [h]; simp) (by omega)
            simp only [List.mem_cons, not_or]
            exact ⟨Ne.symm hc, hq⟩
          | succ j =>
            simp only [List.getElem?_cons_succ] at hp
            exact ih (k + 2) (j + 1) p (by rw [h]; simpa using hp) hi


theorem trimSpace_empty : TrimSpace "" = "" := by decide

theorem updateToCmd_eq (toLower : String → String) (group : String) (chatID : Int)
    (text : String) :
    UpdateToCmd toLower group (some (chatID, text)) =
      if Itoa chatID ≠ group then emptyCmd
      else if toLower (pieceAt (SplitN (TrimSpace text) ' ' 4) 0) ≠ "bot" ∧
          toLower (pieceAt (SplitN (TrimSpace text) ' ' 4) 0) ≠ "b" then emptyCmd
      else
        { CamIndex := 0
          Noun :=
            match (SplitN (TrimSpace text) ' ' 4)[1]? with
            | some p1 => toLower (TrimSpace p1)
            | none => ""
          Verb :=
            match (SplitN (TrimSpace text) ' ' 4)[2]? with
            | some p2 => toLower (TrimSpace p2)
            | none => ""
          Obj := TrimSpace (pieceAt (SplitN (TrimSpace text) ' ' 4) 3) } := by
  have hne : SplitN (TrimSpace text) ' ' 4 ≠ [] := by
    unfold SplitN
    intro h
    exact splitNRunes_ne_nil ' ' 3 _ (List.map_eq_nil_iff.mp h)
  unfold UpdateToCmd
  by_cases hg : Itoa chatID ≠ group
  · simp only [hg, if_true, ne_eq, not_false_eq_true]
    rfl
  · simp only [hg, if_false]
    rcases hp : SplitN (TrimSpace text) ' ' 4 with _ | ⟨p0, _ | ⟨p1, _ | ⟨p2, _ | ⟨p3, ps⟩⟩⟩⟩
    · exact absurd hp hne
    all_goals
      by_cases hb : toLower p0 ≠ "bot" ∧ toLower p0 ≠ "b"
      · simp [pieceAt, hb, emptyCmd]
      · simp [pieceAt, hb, trimSpace_empty]

/-- The second piece of "bot Mode\t set On" ends in a tab, which TrimSpace
removes: the Noun is "mode", not the lower-cased second piece.  The text is
ASCII, where `ToLower` is `strings.ToLower`. -/
theorem updateToCmd_trims_pieces :
    SplitN (TrimSpace "bot Mode\t set On") ' ' 4 = ["bot", "Mode\t", "set", "On"] ∧
    UpdateToCmd ToLower "-1001" (some (-1001, "bot Mode\t set On")) =
      ⟨0, "mode", "set", "On"⟩ ∧
    ToLower (pieceAt (SplitN (TrimSpace "bot Mode\t set On") ' ' 4) 1) = "mode\t" ∧
    (UpdateToCmd ToLower "-1001" (some (-1001, "bot Mode\t set On"))).Noun ≠
      ToLower (pieceAt (SplitN (TrimSpace "bot Mode\t set On") ' ' 4) 1) := by
  decide!

/-- C26, amended: for every incoming message (chat id, text), with the pieces
obtained by splitting the trimmed text on single spaces into at most 4 pieces,
and with `toLower` the lower-casing of the Go library (the statement holds
for every function in its place): if the chat id is not the command group of
the bot, or the first piece is not "bot" or "b" once lower-cased,
UpdateToCmd returns the command with Noun, Verb and Obj empty; otherwise Noun
is the second piece trimmed and lower-cased, Verb is the third piece trimmed
and lower-cased, and Obj is the fourth piece, the rest of the text after the
third space, trimmed, its letter case kept; a missing piece gives an empty
field.  There are between one and four pieces, joined by single spaces they
give the trimmed text, and none of the first three holds a space. -/
theorem updateToCmd_fields (toLower : String → String) (group : String) (chatID : Int)
    (text : String) :
    ((Itoa chatID ≠ group ∨
        (toLower (pieceAt (SplitN (TrimSpace text) ' ' 4) 0) ≠ "bot" ∧
          toLower (pieceAt (SplitN (TrimSpace text) ' ' 4) 0) ≠ "b")) →
      UpdateToCmd toLower group (some (chatID, text)) = emptyCmd) ∧
    (Itoa chatID = group →
      (toLower (pieceAt (SplitN (TrimSpace text) ' ' 4) 0) = "bot" ∨
        toLower (pieceAt (SplitN (TrimSpace text) ' ' 4) 0) = "b") →
      UpdateToCmd toLower group (some (chatID, text)) =
        { CamIndex := 0
          Noun :=
            match (SplitN (TrimSpace text) ' ' 4)[1]? with
            | some p1 => toLower (TrimSpace p1)
            | none => ""
          Verb :=
            match (SplitN (TrimSpace text) ' ' 4)[2]? with
            | some p2 => toLower (TrimSpace p2)
            | none => ""
          Obj := TrimSpace (pieceAt (SplitN (TrimSpace text) ' ' 4) 3) }) ∧
    (1 ≤ (SplitN (TrimSpace text) ' ' 4).length ∧
      (SplitN (TrimSpace text) ' ' 4).length ≤ 4 ∧
      List.intercalate [' '] ((SplitN (TrimSpace text) ' ' 4).map String.data) =
        (TrimSpace text).data ∧
      ∀ i, i < 3 → ' ' ∉ (pieceAt (SplitN (TrimSpace text) ' ' 4) i).data) := by
  have hdata : (SplitN (TrimSpace text) ' ' 4).map String.data =
      splitNRunes ' ' 4 (TrimSpace text).data := by
    unfold SplitN
    rw [List.map_map]
    have : (String.data ∘ String.mk) = id := by
      funext l
      rfl
    rw [this, List.map_id]
  refine ⟨?_, ?_, ?_, ?_, ?_, ?_⟩
  · intro h
    rw [updateToCmd_eq]
    rcases h with h | h
    · rw [if_pos h]
    · by_cases hg : Itoa chatID ≠ group
      · rw [if_pos hg]
      · rw [if_neg hg, if_pos h]
  · intro hg hb
    rw [updateToCmd_eq, if_neg (not_not.mpr hg), if_neg]
    rintro ⟨h1, h2⟩
    rcases hb with hb | hb
    · exact h1 hb
    · exact h2 hb
  · have := splitNRunes_ne_nil ' ' 3 (TrimSpace text).data
    rw [← List.length_map _ String.data, hdata]
    exact List.length_pos.mpr this
  · rw [← List.length_map _ String.data, hdata]
    exact splitNRunes_length_le ' ' 4 _
  · rw [hdata]
    exact splitNRunes_join ' ' 3 _
  · intro i hi
    unfold pieceAt
    rw [List.getD_eq_getElem?_getD]
    cases hp : (SplitN (TrimSpace text) ' ' 4)[i]? with
    | none => simp
    | some p =>
      simp only [Option.getD_some]
      apply splitNRunes_no_sep ' ' 4 (TrimSpace text).data i p.data _ (by omega)
      rw [← hdata, List.getElem?_map, hp]
      rfl

end Watchbot
